import Mathlib

/-!
Verification development for the dynamorm data-access layer.

The Python sources under `src/py/src/dynamorm_py/` are shallowly embedded:
pure helpers become Lean functions, Python `dict`s become association lists
with replace-on-assign semantics, raised exceptions become `Except` errors,
and the external collaborators (the remote store client, the boto3 value
serializer, KMS) become function parameters.  Byte strings are `List Nat`
with values below 256.
-/

namespace Dyn

/-! ## Base64 (Python `base64.b64encode` / `urlsafe_b64encode` and decoders)

`_jsonify` tags raw byte strings with standard-alphabet base64
(`base64.b64encode`), while the cursor text itself uses the URL-safe
alphabet with padding stripped (`base64.urlsafe_b64encode(...).rstrip("=")`).
-/

/-- Character for one 6-bit value, standard or URL-safe alphabet. -/
def b64Char (url : Bool) (v : Nat) : Char :=
  if v < 26 then Char.ofNat (65 + v)
  else if v < 52 then Char.ofNat (97 + (v - 26))
  else if v < 62 then Char.ofNat (48 + (v - 52))
  else if v = 62 then (if url then '-' else '+')
  else (if url then '_' else '/')

/-- Inverse of `b64Char`: 6-bit value of an alphabet character. -/
def b64Val (url : Bool) (c : Char) : Option Nat :=
  let n := c.toNat
  if 65 ≤ n ∧ n ≤ 90 then some (n - 65)
  else if 97 ≤ n ∧ n ≤ 122 then some (n - 97 + 26)
  else if 48 ≤ n ∧ n ≤ 57 then some (n - 48 + 52)
  else if c = (if url then '-' else '+') then some 62
  else if c = (if url then '_' else '/') then some 63
  else none

/-- Base64 encoding of a byte list, three bytes at a time, `=`-padded
exactly as Python's `base64.b64encode`. -/
def b64Encode (url : Bool) : List Nat → List Char
  | [] => []
  | [b1] =>
      [b64Char url (b1 / 4), b64Char url (b1 % 4 * 16), '=', '=']
  | [b1, b2] =>
      [b64Char url (b1 / 4), b64Char url (b1 % 4 * 16 + b2 / 16),
       b64Char url (b2 % 16 * 4), '=']
  | b1 :: b2 :: b3 :: rest =>
      b64Char url (b1 / 4) :: b64Char url (b1 % 4 * 16 + b2 / 16) ::
      b64Char url (b2 % 16 * 4 + b3 / 64) :: b64Char url (b3 % 64) ::
      b64Encode url rest

/-- Base64 decoding of a padded character list, four characters at a time;
`none` on a malformed group, mirroring `binascii.Error`. -/
def b64DecodeGroups (url : Bool) : List Char → Option (List Nat)
  | [] => some []
  | c1 :: c2 :: c3 :: c4 :: rest =>
      if c3 = '=' then
        if rest = [] ∧ c4 = '=' then do
          let v1 ← b64Val url c1
          let v2 ← b64Val url c2
          pure [v1 * 4 + v2 / 16]
        else none
      else if c4 = '=' then
        if rest = [] then do
          let v1 ← b64Val url c1
          let v2 ← b64Val url c2
          let v3 ← b64Val url c3
          pure [v1 * 4 + v2 / 16, v2 % 16 * 16 + v3 / 4]
        else none
      else do
        let v1 ← b64Val url c1
        let v2 ← b64Val url c2
        let v3 ← b64Val url c3
        let v4 ← b64Val url c4
        let tail ← b64DecodeGroups url rest
        pure ((v1 * 4 + v2 / 16) :: (v2 % 16 * 16 + v3 / 4) :: (v3 % 4 * 64 + v4) :: tail)
  | _ => none

/-- Python's `b64decode(validate=False)` discards characters outside the
alphabet (and keeps `=`) before decoding. -/
def b64Decode (url : Bool) (cs : List Char) : Option (List Nat) :=
  b64DecodeGroups url (cs.filter (fun c => (b64Val url c).isSome || c = '='))

/-- `str.rstrip("=")` on a character list. -/
def rstripEq (cs : List Char) : List Char :=
  (cs.reverse.dropWhile (fun c => c = '=')).reverse

/-- `"=" * (-len(cursor) % 4)`: number of padding characters re-added. -/
def padCount (n : Nat) : Nat := (4 - n % 4) % 4

/-- Every byte of the list is below 256. -/
def AllBytes (bs : List Nat) : Prop := ∀ b ∈ bs, b < 256

theorem b64Val_b64Char_all (url : Bool) :
    ∀ v < 64, b64Val url (b64Char url v) = some v := by
  cases url <;> decide

theorem b64Char_ne_eq_all (url : Bool) :
    ∀ v < 64, ¬ (b64Char url v = '=') := by
  cases url <;> decide

theorem b64Val_b64Char (url : Bool) {v : Nat} (h : v < 64) :
    b64Val url (b64Char url v) = some v :=
  b64Val_b64Char_all url v h

theorem b64Char_ne_eq (url : Bool) {v : Nat} (h : v < 64) :
    ¬ (b64Char url v = '=') :=
  b64Char_ne_eq_all url v h

theorem b64Val_isSome (url : Bool) {v : Nat} (h : v < 64) :
    (b64Val url (b64Char url v)).isSome = true := by
  rw [b64Val_b64Char url h]; rfl

/-- Every character of base64 output is an alphabet character or `=`. -/
theorem b64Encode_chars (url : Bool) (bs : List Nat) (h : AllBytes bs) :
    ∀ c ∈ b64Encode url bs, (b64Val url c).isSome = true ∨ c = '=' := by
  induction bs using b64Encode.induct url with
  | case1 => simp [b64Encode]
  | case2 b1 =>
      have h1 : b1 < 256 := h b1 (by simp)
      intro c hc
      simp only [b64Encode, List.mem_cons, List.not_mem_nil, or_false] at hc
      rcases hc with rfl | rfl | rfl | rfl
      · exact Or.inl (b64Val_isSome url (by omega))
      · exact Or.inl (b64Val_isSome url (by omega))
      · exact Or.inr rfl
      · exact Or.inr rfl
  | case3 b1 b2 =>
      have h1 : b1 < 256 := h b1 (by simp)
      have h2 : b2 < 256 := h b2 (by simp)
      intro c hc
      simp only [b64Encode, List.mem_cons, List.not_mem_nil, or_false] at hc
      rcases hc with rfl | rfl | rfl | rfl
      · exact Or.inl (b64Val_isSome url (by omega))
      · exact Or.inl (b64Val_isSome url (by omega))
      · exact Or.inl (b64Val_isSome url (by omega))
      · exact Or.inr rfl
  | case4 b1 b2 b3 rest ih =>
      have h1 : b1 < 256 := h b1 (by simp)
      have h2 : b2 < 256 := h b2 (by simp)
      have h3 : b3 < 256 := h b3 (by simp)
      have hrest : AllBytes rest := fun b hb => h b (by simp [hb])
      intro c hc
      simp only [b64Encode, List.mem_cons] at hc
      rcases hc with rfl | rfl | rfl | rfl | hc
      · exact Or.inl (b64Val_isSome url (by omega))
      · exact Or.inl (b64Val_isSome url (by omega))
      · exact Or.inl (b64Val_isSome url (by omega))
      · exact Or.inl (b64Val_isSome url (by omega))
      · exact ih hrest c hc

/-- Base64 output passes the decoder's charset filter unchanged. -/
theorem b64Encode_filter (url : Bool) (bs : List Nat) (h : AllBytes bs) :
    (b64Encode url bs).filter
      (fun c => (b64Val url c).isSome || c = '=') = b64Encode url bs := by
  refine List.filter_eq_self.mpr ?_
  intro c hc
  rcases b64Encode_chars url bs h c hc with h' | h' <;> simp [h']

/-- Decoding inverts encoding on fully padded base64 text. -/
theorem b64DecodeGroups_b64Encode (url : Bool) (bs : List Nat) (h : AllBytes bs) :
    b64DecodeGroups url (b64Encode url bs) = some bs := by
  induction bs using b64Encode.induct url with
  | case1 => rfl
  | case2 b1 =>
      have h1 : b1 < 256 := h b1 (by simp)
      simp [b64Encode, b64DecodeGroups,
        b64Val_b64Char url (v := b1 / 4) (by omega),
        b64Val_b64Char url (v := b1 % 4 * 16) (by omega)]
      omega
  | case3 b1 b2 =>
      have h1 : b1 < 256 := h b1 (by simp)
      have h2 : b2 < 256 := h b2 (by simp)
      have hne3 : ¬ (b64Char url (b2 % 16 * 4) = '=') :=
        b64Char_ne_eq url (by omega)
      simp [b64Encode, b64DecodeGroups, if_neg hne3,
        b64Val_b64Char url (v := b1 / 4) (by omega),
        b64Val_b64Char url (v := b1 % 4 * 16 + b2 / 16) (by omega),
        b64Val_b64Char url (v := b2 % 16 * 4) (by omega)]
      omega
  | case4 b1 b2 b3 rest ih =>
      have h1 : b1 < 256 := h b1 (by simp)
      have h2 : b2 < 256 := h b2 (by simp)
      have h3 : b3 < 256 := h b3 (by simp)
      have hrest : AllBytes rest := fun b hb => h b (by simp [hb])
      have hne3 : ¬ (b64Char url (b2 % 16 * 4 + b3 / 64) = '=') :=
        b64Char_ne_eq url (by omega)
      have hne4 : ¬ (b64Char url (b3 % 64) = '=') :=
        b64Char_ne_eq url (by omega)
      have e1 : b1 / 4 * 4 + (b1 % 4 * 16 + b2 / 16) / 16 = b1 := by omega
      have e2 : (b1 % 4 * 16 + b2 / 16) % 16 * 16 +
          (b2 % 16 * 4 + b3 / 64) / 4 = b2 := by omega
      have e3 : (b2 % 16 * 4 + b3 / 64) % 4 * 64 + b3 % 64 = b3 := by omega
      simp only [b64Encode, b64DecodeGroups, if_neg hne3, if_neg hne4,
        b64Val_b64Char url (v := b1 / 4) (by omega : b1 / 4 < 64),
        b64Val_b64Char url (v := b1 % 4 * 16 + b2 / 16) (by omega),
        b64Val_b64Char url (v := b2 % 16 * 4 + b3 / 64) (by omega),
        b64Val_b64Char url (v := b3 % 64) (by omega),
        Option.some_bind, Option.pure_def, ih hrest]
      simp [e1, e2, e3]

/-- Stripping the `=` padding and re-adding `"=" * (-len % 4)` restores the
exact padded base64 text. -/
theorem rstrip_repad (url : Bool) (bs : List Nat) (h : AllBytes bs) :
    rstripEq (b64Encode url bs) ++
        List.replicate (padCount (rstripEq (b64Encode url bs)).length) '='
      = b64Encode url bs ∧
    (bs ≠ [] → rstripEq (b64Encode url bs) ≠ []) := by
  induction bs using b64Encode.induct url with
  | case1 => simp [b64Encode, rstripEq, padCount]
  | case2 b1 =>
      have h1 : b1 < 256 := h b1 (by simp)
      have hne2 : ¬ (b64Char url (b1 % 4 * 16) = '=') := b64Char_ne_eq url (by omega)
      constructor
      · simp [b64Encode, rstripEq, List.dropWhile, hne2, padCount, List.replicate]
      · intro _
        simp [b64Encode, rstripEq, List.dropWhile, hne2]
  | case3 b1 b2 =>
      have h1 : b1 < 256 := h b1 (by simp)
      have h2 : b2 < 256 := h b2 (by simp)
      have hne3 : ¬ (b64Char url (b2 % 16 * 4) = '=') := b64Char_ne_eq url (by omega)
      constructor
      · simp [b64Encode, rstripEq, List.dropWhile, hne3, padCount, List.replicate]
      · intro _
        simp [b64Encode, rstripEq, List.dropWhile, hne3]
  | case4 b1 b2 b3 rest ih =>
      have h1 : b1 < 256 := h b1 (by simp)
      have h2 : b2 < 256 := h b2 (by simp)
      have h3 : b3 < 256 := h b3 (by simp)
      have hrest : AllBytes rest := fun b hb => h b (by simp [hb])
      have hne4 : ¬ (b64Char url (b3 % 64) = '=') := b64Char_ne_eq url (by omega)
      obtain ⟨ihA, ihB⟩ := ih hrest
      by_cases hrnil : rest = []
      · subst hrnil
        constructor
        · simp [b64Encode, rstripEq, List.dropWhile, hne4, padCount, List.replicate]
        · intro _
          simp [b64Encode, rstripEq, List.dropWhile, hne4]
      · have hstrip : rstripEq (b64Encode url rest) ≠ [] := ihB hrnil
        have hdw : ¬ ((b64Encode url rest).reverse.dropWhile
            (fun c => c = '=')).isEmpty = true := by
          intro hcon
          exact hstrip (by simp [rstripEq, List.isEmpty_iff.mp hcon])
        have hsplit : rstripEq (b64Encode url (b1 :: b2 :: b3 :: rest)) =
            b64Char url (b1 / 4) :: b64Char url (b1 % 4 * 16 + b2 / 16) ::
            b64Char url (b2 % 16 * 4 + b3 / 64) :: b64Char url (b3 % 64) ::
            rstripEq (b64Encode url rest) := by
          show ((b64Encode url (b1 :: b2 :: b3 :: rest)).reverse.dropWhile
              (fun c => c = '=')).reverse = _
          rw [b64Encode]
          simp only [List.reverse_cons]
          rw [show ∀ (a b c d : Char) (t : List Char),
              ((((t.reverse ++ [a]) ++ [b]) ++ [c]) ++ [d]) =
              t.reverse ++ [a, b, c, d] by intros; simp]
          rw [List.dropWhile_append]
          rw [if_neg hdw]
          simp [rstripEq]
        constructor
        · rw [hsplit]
          have hlen : padCount (4 + (rstripEq (b64Encode url rest)).length) =
              padCount (rstripEq (b64Encode url rest)).length := by
            simp [padCount, Nat.add_mod]
          simp only [List.length_cons]
          rw [show (rstripEq (b64Encode url rest)).length + 1 + 1 + 1 + 1 =
              4 + (rstripEq (b64Encode url rest)).length by omega, hlen]
          rw [b64Encode]
          simp only [List.cons_append, List.cons.injEq, true_and]
          exact ihA
        · intro _
          rw [hsplit]
          simp

/-- `base64.urlsafe_b64encode(payload).decode("ascii").rstrip("=")`. -/
def b64UrlNoPad (bs : List Nat) : List Char :=
  rstripEq (b64Encode true bs)

/-- `base64.urlsafe_b64decode(cursor + "=" * (-len(cursor) % 4))`. -/
def b64UrlDecodePadded (cs : List Char) : Option (List Nat) :=
  b64Decode true (cs ++ List.replicate (padCount cs.length) '=')

theorem b64UrlDecodePadded_b64UrlNoPad (bs : List Nat) (h : AllBytes bs) :
    b64UrlDecodePadded (b64UrlNoPad bs) = some bs := by
  unfold b64UrlDecodePadded b64UrlNoPad b64Decode
  rw [(rstrip_repad true bs h).1, b64Encode_filter true bs h]
  exact b64DecodeGroups_b64Encode true bs h

/-! ## UTF-8 (`str.encode("utf-8")` / `bytes.decode("utf-8")`) -/

/-- UTF-8 bytes of one Unicode scalar value. -/
def utf8EncodeChar (c : Char) : List Nat :=
  if c.toNat < 128 then [c.toNat]
  else if c.toNat < 2048 then [192 + c.toNat / 64, 128 + c.toNat % 64]
  else if c.toNat < 65536 then
    [224 + c.toNat / 4096, 128 + c.toNat / 64 % 64, 128 + c.toNat % 64]
  else
    [240 + c.toNat / 262144, 128 + c.toNat / 4096 % 64,
     128 + c.toNat / 64 % 64, 128 + c.toNat % 64]

/-- UTF-8 bytes of a character list. -/
def utf8Encode : List Char → List Nat
  | [] => []
  | c :: cs => utf8EncodeChar c ++ utf8Encode cs

/-- Is `n` a Unicode scalar value (not a surrogate, below 0x110000)? -/
def scalarOk (n : Nat) : Bool :=
  decide (n < 55296) || (decide (57344 ≤ n) && decide (n < 1114112))

/-- Is `b` a UTF-8 continuation byte? -/
def contByte (b : Nat) : Bool := decide (128 ≤ b) && decide (b < 192)

/-- Decode one UTF-8 scalar value from the front; `none` on malformed input. -/
def utf8Step : List Nat → Option (Nat × List Nat)
  | [] => none
  | b :: rest =>
    if b < 128 then some (b, rest)
    else if b < 192 then none
    else if b < 224 then
      match rest with
      | b2 :: r =>
        if contByte b2 then
          if 128 ≤ (b - 192) * 64 + (b2 - 128) ∧
              scalarOk ((b - 192) * 64 + (b2 - 128)) then
            some ((b - 192) * 64 + (b2 - 128), r)
          else none
        else none
      | _ => none
    else if b < 240 then
      match rest with
      | b2 :: b3 :: r =>
        if contByte b2 && contByte b3 then
          if 2048 ≤ (b - 224) * 4096 + (b2 - 128) * 64 + (b3 - 128) ∧
              scalarOk ((b - 224) * 4096 + (b2 - 128) * 64 + (b3 - 128)) then
            some ((b - 224) * 4096 + (b2 - 128) * 64 + (b3 - 128), r)
          else none
        else none
      | _ => none
    else if b < 248 then
      match rest with
      | b2 :: b3 :: b4 :: r =>
        if contByte b2 && contByte b3 && contByte b4 then
          if 65536 ≤ (b - 240) * 262144 + (b2 - 128) * 4096 +
                (b3 - 128) * 64 + (b4 - 128) ∧
              scalarOk ((b - 240) * 262144 + (b2 - 128) * 4096 +
                (b3 - 128) * 64 + (b4 - 128)) then
            some ((b - 240) * 262144 + (b2 - 128) * 4096 +
              (b3 - 128) * 64 + (b4 - 128), r)
          else none
        else none
      | _ => none
    else none

/-- Fuel-driven UTF-8 decoding loop; the fuel is an upper bound on the number
of decoded scalars (each scalar consumes at least one byte). -/
def utf8DecodeGo : Nat → List Nat → Option (List Char)
  | _, [] => some []
  | 0, _ :: _ => none
  | fuel + 1, b :: rest => do
      let (n, r) ← utf8Step (b :: rest)
      let tail ← utf8DecodeGo fuel r
      pure (Char.ofNat n :: tail)

/-- UTF-8 decoding; `none` on malformed input, like Python's strict codec. -/
def utf8Decode (bs : List Nat) : Option (List Char) :=
  utf8DecodeGo bs.length bs

theorem char_toNat_lt (c : Char) : c.toNat < 1114112 := by
  rcases c.valid with h | h
  · have : c.toNat < 55296 := by exact_mod_cast h
    omega
  · exact_mod_cast h.2

/-- UTF-8 output is a byte list. -/
theorem utf8Encode_allBytes (s : List Char) : AllBytes (utf8Encode s) := by
  induction s with
  | nil => intro b hb; simp [utf8Encode] at hb
  | cons c cs ih =>
      intro b hb
      simp only [utf8Encode, List.mem_append] at hb
      rcases hb with hb | hb
      · have hc := char_toNat_lt c
        unfold utf8EncodeChar at hb
        split at hb
        · simp at hb; omega
        · split at hb
          · simp at hb
            rcases hb with rfl | rfl <;> omega
          · split at hb
            · simp at hb
              rcases hb with rfl | rfl | rfl <;> omega
            · simp at hb
              rcases hb with rfl | rfl | rfl | rfl <;> omega
      · exact ih b hb

theorem utf8Step_ascii {b : Nat} (hb : b < 128) (bs : List Nat) :
    utf8Step (b :: bs) = some (b, bs) := by
  simp only [utf8Step, if_pos hb]

theorem utf8DecodeGo_encode_ascii (s : List Char) :
    ∀ fuel, (∀ c ∈ s, c.toNat < 128) → (utf8Encode s).length ≤ fuel →
      utf8DecodeGo fuel (utf8Encode s) = some s := by
  induction s with
  | nil => intro fuel _ _; cases fuel <;> rfl
  | cons c cs ih =>
      intro fuel h hlen
      have hc : c.toNat < 128 := h c (by simp)
      have hcs : ∀ x ∈ cs, x.toNat < 128 := fun x hx => h x (by simp [hx])
      rw [utf8Encode] at hlen ⊢
      rw [utf8EncodeChar, if_pos hc] at hlen ⊢
      simp only [List.cons_append, List.nil_append, List.length_cons] at hlen ⊢
      cases fuel with
      | zero => omega
      | succ f =>
          simp [utf8DecodeGo, utf8Step_ascii hc, Char.ofNat_toNat,
            ih f hcs (by omega : (utf8Encode cs).length ≤ f)]

/-- Decoding inverts encoding on ASCII-only text (Python `json.dumps` with
`ensure_ascii` emits only ASCII). -/
theorem utf8Decode_utf8Encode_ascii (s : List Char)
    (h : ∀ c ∈ s, c.toNat < 128) :
    utf8Decode (utf8Encode s) = some s :=
  utf8DecodeGo_encode_ascii s (utf8Encode s).length h (Nat.le_refl _)

/-! ## JSON (`json.dumps(obj, separators=(",", ":"), sort_keys=True)` and
`json.loads`)

The values flowing through the cursor codec are strings, lists and dicts
(bytes having been replaced by `_jsonify`'s tag objects), plus `null` for
the absent index/direction.  Python's `json.dumps` default `ensure_ascii`
escapes every character outside `0x20..0x7E`, so the serialized payload is
pure ASCII. -/

/-- Opening brace character (ASCII 123). -/
def lbrace : Char := '\x7b'

/-- Closing brace character (ASCII 125). -/
def rbrace : Char := '\x7d'

/-- Python string `<` (code-point lexicographic), used by `sort_keys`. -/
def charListLt : List Char → List Char → Bool
  | [], [] => false
  | [], _ :: _ => true
  | _ :: _, [] => false
  | a :: as, b :: bs =>
    if a.toNat < b.toNat then true
    else if a.toNat = b.toNat then charListLt as bs
    else false

/-- Python string `<` on Lean strings. -/
def strLt (a b : String) : Bool := charListLt a.data b.data

/-- Lowercase hex digit (as emitted by Python's `\uXXXX` escapes). -/
def hexDig (d : Nat) : Char :=
  if d < 10 then Char.ofNat (48 + d) else Char.ofNat (97 + (d - 10))

/-- Four lowercase hex digits of `n < 0x10000`. -/
def hex4 (n : Nat) : List Char :=
  [hexDig (n / 4096 % 16), hexDig (n / 256 % 16), hexDig (n / 16 % 16),
   hexDig (n % 16)]

/-- Value of one hex digit (json accepts both cases). -/
def hexDigVal (c : Char) : Option Nat :=
  if 48 ≤ c.toNat ∧ c.toNat ≤ 57 then some (c.toNat - 48)
  else if 97 ≤ c.toNat ∧ c.toNat ≤ 102 then some (c.toNat - 97 + 10)
  else if 65 ≤ c.toNat ∧ c.toNat ≤ 70 then some (c.toNat - 65 + 10)
  else none

/-- Value of a four-digit hex escape. -/
def hex4Val (h1 h2 h3 h4 : Char) : Option Nat := do
  let v1 ← hexDigVal h1
  let v2 ← hexDigVal h2
  let v3 ← hexDigVal h3
  let v4 ← hexDigVal h4
  pure (v1 * 4096 + v2 * 256 + v3 * 16 + v4)

/-- `json.dumps` escaping of one character under `ensure_ascii`: `"`
and `\` are escaped, control characters use the short escapes or `\uXXXX`,
characters above `0x7E` use `\uXXXX`, astral characters a surrogate pair. -/
def escChar (c : Char) : List Char :=
  if c = '"' then ['\\', '"']
  else if c = '\\' then ['\\', '\\']
  else if c.toNat = 8 then ['\\', 'b']
  else if c.toNat = 9 then ['\\', 't']
  else if c.toNat = 10 then ['\\', 'n']
  else if c.toNat = 12 then ['\\', 'f']
  else if c.toNat = 13 then ['\\', 'r']
  else if c.toNat < 32 then '\\' :: 'u' :: hex4 c.toNat
  else if c.toNat < 127 then [c]
  else if c.toNat < 65536 then '\\' :: 'u' :: hex4 c.toNat
  else
    ('\\' :: 'u' :: hex4 (55296 + (c.toNat - 65536) / 1024)) ++
    ('\\' :: 'u' :: hex4 (56320 + (c.toNat - 65536) % 1024))

/-- Escape a whole character list. -/
def escString : List Char → List Char
  | [] => []
  | c :: cs => escChar c ++ escString cs

/-- JSON string literal (quotes plus escaped content). -/
def jStrLit (cs : List Char) : List Char :=
  '"' :: escString cs ++ ['"']

/-- The JSON value universe reachable from the cursor codec: strings,
arrays, objects and `null`. -/
inductive Json where
  | null : Json
  | str : String → Json
  | arr : List Json → Json
  | obj : List (String × Json) → Json

/-- Insert one member into a key-sorted member list (`sorted` by key). -/
def objInsert (k : String) (v : Json) : List (String × Json) → List (String × Json)
  | [] => [(k, v)]
  | (k', v') :: rest =>
    if strLt k k' then (k, v) :: (k', v') :: rest
    else (k', v') :: objInsert k v rest

/-- Sort an object's members by key, as `json.dumps(sort_keys=True)` does. -/
def objSort : List (String × Json) → List (String × Json)
  | [] => []
  | p :: rest => objInsert p.1 p.2 (objSort rest)

mutual

/-- Sort every object's members by key, recursively: `json.dumps` with
`sort_keys=True` serializes each dict in sorted key order. -/
def jSortAll : Json → Json
  | .null => .null
  | .str s => .str s
  | .arr xs => .arr (jSortAllList xs)
  | .obj kvs => .obj (objSort (jSortAllObj kvs))

def jSortAllList : List Json → List Json
  | [] => []
  | x :: xs => jSortAll x :: jSortAllList xs

def jSortAllObj : List (String × Json) → List (String × Json)
  | [] => []
  | (k, v) :: rest => (k, jSortAll v) :: jSortAllObj rest

end

mutual

/-- Serialize a (pre-sorted) JSON value with separators `(",", ":")`. -/
def jDump : Json → List Char
  | .null => ['n', 'u', 'l', 'l']
  | .str s => jStrLit s.data
  | .arr xs => '[' :: jDumpItems xs ++ [']']
  | .obj kvs => lbrace :: jDumpMembers kvs ++ [rbrace]

def jDumpItems : List Json → List Char
  | [] => []
  | [x] => jDump x
  | x :: y :: rest => jDump x ++ ',' :: jDumpItems (y :: rest)

def jDumpMembers : List (String × Json) → List Char
  | [] => []
  | [(k, v)] => jStrLit k.data ++ ':' :: jDump v
  | (k, v) :: p :: rest =>
      jStrLit k.data ++ ':' :: jDump v ++ ',' :: jDumpMembers (p :: rest)

end

/-- `json.dumps(obj, separators=(",", ":"), sort_keys=True)` on the embedded
value universe. -/
def jsonDumps (j : Json) : List Char := jDump (jSortAll j)

/-- Keys strictly increasing in Python string order. -/
def strictKeys : List (String × Json) → Bool
  | [] => true
  | [_] => true
  | (k1, _) :: (k2, v2) :: rest =>
      strLt k1 k2 && strictKeys ((k2, v2) :: rest)

mutual

/-- Members of every object are strictly sorted by key, recursively: the
canonical form produced by parsing serializer output. -/
def jCanon : Json → Bool
  | .null => true
  | .str _ => true
  | .arr xs => jCanonList xs
  | .obj kvs => strictKeys kvs && jCanonObj kvs

def jCanonList : List Json → Bool
  | [] => true
  | x :: xs => jCanon x && jCanonList xs

def jCanonObj : List (String × Json) → Bool
  | [] => true
  | (_, v) :: rest => jCanon v && jCanonObj rest

end

/-- The single-character JSON escapes. -/
def simpleEsc (e : Char) : Option Char :=
  if e = '"' then some '"'
  else if e = '\\' then some '\\'
  else if e = '/' then some '/'
  else if e = 'b' then some (Char.ofNat 8)
  else if e = 't' then some (Char.ofNat 9)
  else if e = 'n' then some (Char.ofNat 10)
  else if e = 'f' then some (Char.ofNat 12)
  else if e = 'r' then some (Char.ofNat 13)
  else none

mutual

/-- Parse the body of a JSON string literal (after the opening quote);
returns the unescaped characters and the input after the closing quote.
Unlike Python, lone surrogate escapes are rejected (Lean characters are
scalar values); the serializer never emits them. -/
def parseStrBody : Nat → List Char → Option (List Char × List Char)
  | 0, _ => none
  | _ + 1, [] => none
  | fuel + 1, c :: cs =>
    if c = '"' then some ([], cs)
    else if c = '\\' then parseEsc fuel cs
    else if c.toNat < 32 then none
    else (parseStrBody fuel cs).bind fun r => some (c :: r.1, r.2)

/-- Parse one escape sequence (after the backslash). -/
def parseEsc (fuel : Nat) : List Char → Option (List Char × List Char)
  | [] => none
  | 'u' :: h1 :: h2 :: h3 :: h4 :: cs =>
      (hex4Val h1 h2 h3 h4).bind fun n =>
        if 55296 ≤ n ∧ n < 56320 then parseLowSur fuel n cs
        else if 56320 ≤ n ∧ n < 57344 then none
        else (parseStrBody fuel cs).bind fun r => some (Char.ofNat n :: r.1, r.2)
  | e :: cs =>
      (simpleEsc e).bind fun ec =>
        (parseStrBody fuel cs).bind fun r => some (ec :: r.1, r.2)

/-- Parse the low half of a surrogate pair. -/
def parseLowSur (fuel : Nat) (hi : Nat) : List Char → Option (List Char × List Char)
  | b :: u :: h1 :: h2 :: h3 :: h4 :: cs =>
    if b = '\\' ∧ u = 'u' then
      (hex4Val h1 h2 h3 h4).bind fun lo =>
        if 56320 ≤ lo ∧ lo < 57344 then
          (parseStrBody fuel cs).bind fun r =>
            some (Char.ofNat (65536 + (hi - 55296) * 1024 + (lo - 56320)) :: r.1, r.2)
        else none
    else none
  | _ => none

end

mutual

/-- Parse one JSON value.  The modelled decoder accepts exactly the value
universe the cursor serializer emits (strings, arrays, objects, `null`,
no insignificant whitespace); everything else is malformed input. -/
def parseVal : Nat → List Char → Option (Json × List Char)
  | 0, _ => none
  | _ + 1, [] => none
  | fuel + 1, c :: cs =>
    if c = '"' then
      (parseStrBody fuel cs).bind fun r => some (.str (String.mk r.1), r.2)
    else if c = '[' then
      match cs with
      | d :: cs2 =>
          if d = ']' then some (.arr [], cs2)
          else (parseItems fuel (d :: cs2)).bind fun r => some (.arr r.1, r.2)
      | [] => none
    else if c = lbrace then
      match cs with
      | d :: cs2 =>
          if d = rbrace then some (.obj [], cs2)
          else (parseMembers fuel (d :: cs2)).bind fun r => some (.obj r.1, r.2)
      | [] => none
    else if c = 'n' then
      match cs with
      | 'u' :: 'l' :: 'l' :: rest => some (.null, rest)
      | _ => none
    else none

/-- Parse the comma-separated items of a non-empty array, consuming the
closing bracket. -/
def parseItems : Nat → List Char → Option (List Json × List Char)
  | 0, _ => none
  | fuel + 1, cs =>
      (parseVal fuel cs).bind fun r =>
        match r.2 with
        | ',' :: rest2 =>
            (parseItems fuel rest2).bind fun r2 => some (r.1 :: r2.1, r2.2)
        | ']' :: rest2 => some ([r.1], rest2)
        | _ => none

/-- Parse the members of a non-empty object, consuming the closing brace. -/
def parseMembers : Nat → List Char → Option (List (String × Json) × List Char)
  | 0, _ => none
  | fuel + 1, cs =>
      match cs with
      | '"' :: cs2 =>
          (parseStrBody fuel cs2).bind fun rk =>
            match rk.2 with
            | ':' :: rest2 =>
                (parseVal fuel rest2).bind fun rv =>
                  match rv.2 with
                  | ',' :: rest3 =>
                      (parseMembers fuel rest3).bind fun rm =>
                        some ((String.mk rk.1, rv.1) :: rm.1, rm.2)
                  | d :: rest3 =>
                      if d = rbrace then some ([(String.mk rk.1, rv.1)], rest3)
                      else none
                  | [] => none
            | _ => none
      | _ => none

end

/-- Top-level `json.loads`: parse one value consuming the whole input. -/
def jsonLoads (cs : List Char) : Option Json :=
  (parseVal (cs.length + 1) cs).bind fun r =>
    if r.2 = [] then some r.1 else none

mutual

/-- Fuel needed by `parseVal` on the serialization of `j`. -/
def rVal : Json → Nat
  | .null => 1
  | .str s => s.data.length + 2
  | .arr [] => 1
  | .arr (x :: xs) => 1 + rItems (x :: xs)
  | .obj [] => 1
  | .obj (m :: ms) => 1 + rMembers (m :: ms)

def rItems : List Json → Nat
  | [] => 1
  | [x] => 1 + rVal x
  | x :: y :: rest => 1 + rVal x + rItems (y :: rest)

def rMembers : List (String × Json) → Nat
  | [] => 1
  | [(k, v)] => 1 + (k.data.length + 1) + rVal v
  | (k, v) :: p :: rest =>
      1 + (k.data.length + 1) + rVal v + rMembers (p :: rest)

end

theorem hexDigVal_hexDig_all : ∀ d < 16, hexDigVal (hexDig d) = some d := by
  decide

theorem hex4Val_hex4 {n : Nat} (h : n < 65536) :
    hex4Val (hexDig (n / 4096 % 16)) (hexDig (n / 256 % 16))
      (hexDig (n / 16 % 16)) (hexDig (n % 16)) = some n := by
  simp only [hex4Val,
    hexDigVal_hexDig_all (n / 4096 % 16) (by omega),
    hexDigVal_hexDig_all (n / 256 % 16) (by omega),
    hexDigVal_hexDig_all (n / 16 % 16) (by omega),
    hexDigVal_hexDig_all (n % 16) (by omega)]
  simp only [Option.bind_eq_bind, Option.some_bind, Option.pure_def,
    Option.some.injEq]
  omega

theorem char_toNat_valid (c : Char) :
    c.toNat < 55296 ∨ (57343 < c.toNat ∧ c.toNat < 1114112) := by
  rcases c.valid with h | h
  · exact Or.inl (by exact_mod_cast h)
  · exact Or.inr ⟨by exact_mod_cast h.1, by exact_mod_cast h.2⟩

theorem parseStrBody_backslash (f : Nat) (xs : List Char) :
    parseStrBody (f + 1) ('\\' :: xs) = parseEsc f xs := by
  simp [parseStrBody]

/-- A surrogate-pair escape parses to the astral scalar it denotes. -/
theorem parseEsc_surPair (f : Nat) (hi lo : Nat) (hhi16 : hi < 65536)
    (hlo16 : lo < 65536) (hr1 : 55296 ≤ hi ∧ hi < 56320)
    (hr2 : 56320 ≤ lo ∧ lo < 57344) (tail : List Char) :
    parseEsc f ('u' :: hex4 hi ++ '\\' :: 'u' :: hex4 lo ++ tail) =
      (parseStrBody f tail).bind fun r =>
        some (Char.ofNat (65536 + (hi - 55296) * 1024 + (lo - 56320)) :: r.1,
          r.2) := by
  simp only [hex4, List.cons_append, List.nil_append]
  simp only [parseEsc, hex4Val_hex4 hhi16, Option.some_bind]
  rw [if_pos hr1]
  simp only [parseLowSur, hex4Val_hex4 hlo16, and_self, if_true,
    Option.some_bind]
  rw [if_pos hr2]

/-- The unescaping parser inverts `json.dumps` escaping, consuming the
closing quote. -/
theorem parseStrBody_escString (cs : List Char) :
    ∀ fuel rest, cs.length + 1 ≤ fuel →
      parseStrBody fuel (escString cs ++ '"' :: rest) = some (cs, rest) := by
  induction cs with
  | nil =>
      intro fuel rest hf
      obtain ⟨f, rfl⟩ : ∃ f, fuel = f + 1 := ⟨fuel - 1, by omega⟩
      simp [escString, parseStrBody]
  | cons c cs ih =>
      intro fuel rest hf
      obtain ⟨f, rfl⟩ : ∃ f, fuel = f + 1 := ⟨fuel - 1, by omega⟩
      have hfr : cs.length + 1 ≤ f := by
        simp only [List.length_cons] at hf; omega
      have ihf := ih f rest hfr
      simp only [escString, List.append_assoc]
      by_cases hq : c = '"'
      · subst hq
        simp [escChar, parseStrBody, parseEsc, simpleEsc, ihf]
      by_cases hb : c = '\\'
      · subst hb
        simp [escChar, parseStrBody, parseEsc, simpleEsc, ihf]
      by_cases h8 : c.toNat = 8
      · have hc : c = Char.ofNat 8 := by rw [← Char.ofNat_toNat c, h8]
        subst hc
        simp [escChar, parseStrBody, parseEsc, simpleEsc, ihf]
      by_cases h9 : c.toNat = 9
      · have hc : c = Char.ofNat 9 := by rw [← Char.ofNat_toNat c, h9]
        subst hc
        simp [escChar, parseStrBody, parseEsc, simpleEsc, ihf]
      by_cases h10 : c.toNat = 10
      · have hc : c = Char.ofNat 10 := by rw [← Char.ofNat_toNat c, h10]
        subst hc
        simp [escChar, parseStrBody, parseEsc, simpleEsc, ihf]
      by_cases h12 : c.toNat = 12
      · have hc : c = Char.ofNat 12 := by rw [← Char.ofNat_toNat c, h12]
        subst hc
        simp [escChar, parseStrBody, parseEsc, simpleEsc, ihf]
      by_cases h13 : c.toNat = 13
      · have hc : c = Char.ofNat 13 := by rw [← Char.ofNat_toNat c, h13]
        subst hc
        simp [escChar, parseStrBody, parseEsc, simpleEsc, ihf]
      by_cases hctl : c.toNat < 32
      · have hesc : escChar c = '\\' :: 'u' :: hex4 c.toNat := by
          simp [escChar, hq, hb, h8, h9, h10, h12, h13, hctl]
        rw [hesc]
        simp only [hex4, List.cons_append, List.nil_append]
        simp [parseStrBody, parseEsc, hex4Val_hex4 (by omega : c.toNat < 65536),
          ihf, Char.ofNat_toNat]
        rw [if_neg (by omega), if_neg (by omega)]
      by_cases hlit : c.toNat < 127
      · have hesc : escChar c = [c] := by
          simp [escChar, hq, hb, h8, h9, h10, h12, h13, hctl, hlit]
        rw [hesc]
        simp [parseStrBody, hq, hb, hctl, ihf]
      by_cases hbmp : c.toNat < 65536
      · have hesc : escChar c = '\\' :: 'u' :: hex4 c.toNat := by
          simp [escChar, hq, hb, h8, h9, h10, h12, h13, hctl, hlit, hbmp]
        have hval := char_toNat_valid c
        rw [hesc]
        simp only [hex4, List.cons_append, List.nil_append]
        simp [parseStrBody, parseEsc, hex4Val_hex4 hbmp, ihf, Char.ofNat_toNat]
        rw [if_neg (by omega), if_neg (by omega)]
      · have hesc : escChar c =
            ('\\' :: 'u' :: hex4 (55296 + (c.toNat - 65536) / 1024)) ++
            ('\\' :: 'u' :: hex4 (56320 + (c.toNat - 65536) % 1024)) := by
          simp [escChar, hq, hb, h8, h9, h10, h12, h13, hctl, hlit, hbmp]
        have hval := char_toNat_lt c
        have hdiv : (c.toNat - 65536) / 1024 < 1024 := by omega
        have hhi : 55296 + (c.toNat - 65536) / 1024 < 65536 := by omega
        have hlo : 56320 + (c.toNat - 65536) % 1024 < 65536 := by
          have := Nat.mod_lt (c.toNat - 65536) (show 0 < 1024 by omega)
          omega
        have hch : Char.ofNat (65536 +
            (55296 + (c.toNat - 65536) / 1024 - 55296) * 1024 +
            (56320 + (c.toNat - 65536) % 1024 - 56320)) = c := by
          have harith : 65536 +
              (55296 + (c.toNat - 65536) / 1024 - 55296) * 1024 +
              (56320 + (c.toNat - 65536) % 1024 - 56320) = c.toNat := by omega
          rw [harith, Char.ofNat_toNat]
        have hr1 : 55296 ≤ 55296 + (c.toNat - 65536) / 1024 ∧
            55296 + (c.toNat - 65536) / 1024 < 56320 := by omega
        have hr2 : 56320 ≤ 56320 + (c.toNat - 65536) % 1024 ∧
            56320 + (c.toNat - 65536) % 1024 < 57344 := by
          have := Nat.mod_lt (c.toNat - 65536) (show 0 < 1024 by omega)
          omega
        rw [hesc]
        rw [show ('\\' :: 'u' :: hex4 (55296 + (c.toNat - 65536) / 1024)) ++
              ('\\' :: 'u' :: hex4 (56320 + (c.toNat - 65536) % 1024)) ++
              (escString cs ++ '"' :: rest) =
            '\\' :: ('u' :: hex4 (55296 + (c.toNat - 65536) / 1024) ++
              '\\' :: 'u' :: hex4 (56320 + (c.toNat - 65536) % 1024) ++
              (escString cs ++ '"' :: rest)) from by simp]
        rw [parseStrBody_backslash, parseEsc_surPair f _ _ hhi hlo hr1 hr2, ihf]
        simp only [Option.some_bind, hch]

/-- Every serialized value starts with one of the four class markers. -/
theorem jDump_head (j : Json) :
    ∃ c t, jDump j = c :: t ∧ (c = 'n' ∨ c = '"' ∨ c = '[' ∨ c = lbrace) := by
  rcases j with _ | s | xs | kvs
  · exact ⟨'n', _, rfl, Or.inl rfl⟩
  · exact ⟨'"', _, rfl, Or.inr (Or.inl rfl)⟩
  · exact ⟨'[', _, rfl, Or.inr (Or.inr (Or.inl rfl))⟩
  · exact ⟨lbrace, _, rfl, Or.inr (Or.inr (Or.inr rfl))⟩

theorem rVal_pos (j : Json) : 1 ≤ rVal j := by
  cases j with
  | null => simp only [rVal]; omega
  | str s => simp only [rVal]; omega
  | arr xs => cases xs <;> simp only [rVal] <;> omega
  | obj kvs => cases kvs <;> simp only [rVal] <;> omega

theorem rItems_pos (xs : List Json) : 1 ≤ rItems xs := by
  match xs with
  | [] => simp only [rItems]; omega
  | [x] => simp only [rItems]; omega
  | x :: y :: t => simp only [rItems]; omega

theorem rMembers_pos (kvs : List (String × Json)) : 1 ≤ rMembers kvs := by
  match kvs with
  | [] => simp only [rMembers]; omega
  | [(k, v)] => simp only [rMembers]; omega
  | (k, v) :: p :: t => simp only [rMembers]; omega

mutual

/-- The value parser inverts the serializer (given enough fuel). -/
theorem parseVal_jDump : ∀ (j : Json) (fuel : Nat) (rest : List Char),
    rVal j ≤ fuel → parseVal fuel (jDump j ++ rest) = some (j, rest)
  | .null, fuel, rest, hf => by
      obtain ⟨f, rfl⟩ : ∃ f, fuel = f + 1 :=
        ⟨fuel - 1, by have := rVal_pos .null; omega⟩
      simp [jDump, parseVal, lbrace, rbrace]
  | .str s, fuel, rest, hf => by
      have hp := rVal_pos (.str s)
      obtain ⟨f, rfl⟩ : ∃ f, fuel = f + 1 := ⟨fuel - 1, by omega⟩
      have hfs : s.data.length + 1 ≤ f := by
        simp only [rVal] at hf; omega
      simp [jDump, jStrLit, parseVal,
        parseStrBody_escString s.data f rest hfs]
  | .arr [], fuel, rest, hf => by
      obtain ⟨f, rfl⟩ : ∃ f, fuel = f + 1 :=
        ⟨fuel - 1, by have := rVal_pos (Json.arr []); omega⟩
      simp [jDump, jDumpItems, parseVal]
  | .arr (x :: xs), fuel, rest, hf => by
      obtain ⟨f, rfl⟩ : ∃ f, fuel = f + 1 :=
        ⟨fuel - 1, by have := rVal_pos (.arr (x :: xs)); omega⟩
      obtain ⟨c0, t0, hx, hc0⟩ := jDump_head x
      have hne : ¬ (c0 = ']') := by
        rcases hc0 with rfl | rfl | rfl | rfl <;> decide
      have ht1 : ∃ t1, jDumpItems (x :: xs) = c0 :: t1 := by
        cases xs <;> simp [jDumpItems, hx]
      obtain ⟨t1, ht1⟩ := ht1
      have hfi : rItems (x :: xs) ≤ f := by
        simp only [rVal] at hf; omega
      have hrw : jDump (Json.arr (x :: xs)) ++ rest =
          '[' :: (c0 :: (t1 ++ ']' :: rest)) := by
        simp [jDump, ht1]
      have hback : c0 :: (t1 ++ ']' :: rest) =
          jDumpItems (x :: xs) ++ ']' :: rest := by
        rw [ht1]; simp
      rw [hrw]
      simp only [parseVal, if_true]
      rw [if_neg hne]
      rw [hback, parseItems_jDump (x :: xs) (by simp) f rest hfi]
      rfl
  | .obj [], fuel, rest, hf => by
      obtain ⟨f, rfl⟩ : ∃ f, fuel = f + 1 :=
        ⟨fuel - 1, by have := rVal_pos (Json.obj []); omega⟩
      simp [jDump, jDumpMembers, parseVal, lbrace, rbrace]
  | .obj (m :: ms), fuel, rest, hf => by
      obtain ⟨f, rfl⟩ : ∃ f, fuel = f + 1 :=
        ⟨fuel - 1, by have := rVal_pos (.obj (m :: ms)); omega⟩
      have ht1 : ∃ t1, jDumpMembers (m :: ms) = '"' :: t1 := by
        obtain ⟨k, v⟩ := m
        cases ms <;> simp [jDumpMembers, jStrLit]
      obtain ⟨t1, ht1⟩ := ht1
      have hfm : rMembers (m :: ms) ≤ f := by
        simp only [rVal] at hf; omega
      have hrw : jDump (Json.obj (m :: ms)) ++ rest =
          lbrace :: ('"' :: (t1 ++ rbrace :: rest)) := by
        simp [jDump, ht1]
      have hback : '"' :: (t1 ++ rbrace :: rest) =
          jDumpMembers (m :: ms) ++ rbrace :: rest := by
        rw [ht1]; simp
      rw [hrw]
      simp only [parseVal, if_true]
      rw [if_neg (by decide)]
      rw [hback, parseMembers_jDump (m :: ms) (by simp) f rest hfm]
      rfl

/-- The item parser inverts the serializer on non-empty arrays. -/
theorem parseItems_jDump : ∀ (xs : List Json), xs ≠ [] →
    ∀ (fuel : Nat) (rest : List Char), rItems xs ≤ fuel →
      parseItems fuel (jDumpItems xs ++ ']' :: rest) = some (xs, rest)
  | [], h, _, _, _ => absurd rfl h
  | [x], _, fuel, rest, hf => by
      obtain ⟨f, rfl⟩ : ∃ f, fuel = f + 1 :=
        ⟨fuel - 1, by have := rItems_pos [x]; omega⟩
      have hfx : rVal x ≤ f := by
        simp only [rItems] at hf; omega
      simp only [jDumpItems, parseItems]
      rw [parseVal_jDump x f (']' :: rest) hfx]
      rfl
  | x :: y :: t, _, fuel, rest, hf => by
      obtain ⟨f, rfl⟩ : ∃ f, fuel = f + 1 :=
        ⟨fuel - 1, by have := rItems_pos (x :: y :: t); omega⟩
      have hfx : rVal x ≤ f := by
        simp only [rItems] at hf; omega
      have hft : rItems (y :: t) ≤ f := by
        simp only [rItems] at hf
        have := rVal_pos x
        omega
      simp only [jDumpItems, parseItems, List.append_assoc, List.cons_append]
      rw [parseVal_jDump x f _ hfx]
      simp only [Option.some_bind]
      rw [parseItems_jDump (y :: t) (by simp) f rest hft]
      rfl

/-- The member parser inverts the serializer on non-empty objects. -/
theorem parseMembers_jDump : ∀ (kvs : List (String × Json)), kvs ≠ [] →
    ∀ (fuel : Nat) (rest : List Char), rMembers kvs ≤ fuel →
      parseMembers fuel (jDumpMembers kvs ++ rbrace :: rest) = some (kvs, rest)
  | [], h, _, _, _ => absurd rfl h
  | [(k, v)], _, fuel, rest, hf => by
      obtain ⟨f, rfl⟩ : ∃ f, fuel = f + 1 :=
        ⟨fuel - 1, by have := rMembers_pos [(k, v)]; omega⟩
      have hfk : k.data.length + 1 ≤ f := by
        simp only [rMembers] at hf
        have := rVal_pos v
        omega
      have hfv : rVal v ≤ f := by
        simp only [rMembers] at hf; omega
      simp only [jDumpMembers, jStrLit, parseMembers, List.append_assoc,
        List.cons_append, List.nil_append]
      rw [parseStrBody_escString k.data f _ hfk]
      simp only [Option.some_bind]
      rw [parseVal_jDump v f _ hfv]
      simp only [Option.some_bind]
      simp [rbrace]
  | (k, v) :: p :: t, _, fuel, rest, hf => by
      obtain ⟨f, rfl⟩ : ∃ f, fuel = f + 1 :=
        ⟨fuel - 1, by have := rMembers_pos ((k, v) :: p :: t); omega⟩
      have hfk : k.data.length + 1 ≤ f := by
        simp only [rMembers] at hf
        have := rVal_pos v
        have := rMembers_pos (p :: t)
        omega
      have hfv : rVal v ≤ f := by
        simp only [rMembers] at hf
        have := rMembers_pos (p :: t)
        omega
      have hft : rMembers (p :: t) ≤ f := by
        simp only [rMembers] at hf
        have := rVal_pos v
        omega
      simp only [jDumpMembers, jStrLit, parseMembers, List.append_assoc,
        List.cons_append, List.nil_append]
      rw [parseStrBody_escString k.data f _ hfk]
      simp only [Option.some_bind]
      rw [parseVal_jDump v f _ hfv]
      simp only [Option.some_bind]
      rw [parseMembers_jDump (p :: t) (by simp) f rest hft]
      rfl

end

set_option maxHeartbeats 1000000 in
theorem escChar_length_pos (c : Char) : 1 ≤ (escChar c).length := by
  unfold escChar
  split_ifs <;> simp [hex4]

theorem escString_length_ge (cs : List Char) :
    cs.length ≤ (escString cs).length := by
  induction cs with
  | nil => simp [escString]
  | cons c cs ih =>
      have := escChar_length_pos c
      simp only [escString, List.length_append, List.length_cons]
      omega

mutual

/-- The parsing fuel requirement never exceeds the serialized length. -/
theorem rVal_le_dump : ∀ j : Json, rVal j ≤ (jDump j).length
  | .null => by simp [rVal, jDump]
  | .str s => by
      have := escString_length_ge s.data
      have hdl : s.data.length = s.length := rfl
      simp only [rVal, jDump, jStrLit, List.length_cons, List.length_append]
      simp
      omega
  | .arr [] => by simp [rVal, jDump, jDumpItems]
  | .arr (x :: xs) => by
      have h := rItems_le_dump (x :: xs) (by simp)
      simp only [rVal, jDump, List.length_cons, List.length_append]
      simp at h ⊢
      omega
  | .obj [] => by simp [rVal, jDump, jDumpMembers]
  | .obj (m :: ms) => by
      have h := rMembers_le_dump (m :: ms) (by simp)
      simp only [rVal, jDump, List.length_cons, List.length_append]
      simp at h ⊢
      omega

theorem rItems_le_dump : ∀ xs : List Json, xs ≠ [] →
    rItems xs ≤ (jDumpItems xs).length + 1
  | [], h => absurd rfl h
  | [x], _ => by
      have := rVal_le_dump x
      simp only [rItems, jDumpItems]
      omega
  | x :: y :: t, _ => by
      have h1 := rVal_le_dump x
      have h2 := rItems_le_dump (y :: t) (by simp)
      simp only [rItems, jDumpItems, List.length_append, List.length_cons]
      omega

theorem rMembers_le_dump : ∀ kvs : List (String × Json), kvs ≠ [] →
    rMembers kvs ≤ (jDumpMembers kvs).length + 1
  | [], h => absurd rfl h
  | [(k, v)], _ => by
      have h1 := rVal_le_dump v
      have h2 := escString_length_ge k.data
      have hdl : k.data.length = k.length := rfl
      simp only [rMembers, jDumpMembers, jStrLit, List.length_append,
        List.length_cons]
      simp
      omega
  | (k, v) :: p :: t, _ => by
      have h1 := rVal_le_dump v
      have h2 := escString_length_ge k.data
      have h3 := rMembers_le_dump (p :: t) (by simp)
      have hdl : k.data.length = k.length := rfl
      simp only [rMembers, jDumpMembers, jStrLit, List.length_append,
        List.length_cons]
      simp
      omega

end

/-- `jsonLoads` inverts `jDump`. -/
theorem jsonLoads_jDump (j : Json) : jsonLoads (jDump j) = some j := by
  unfold jsonLoads
  have h1 : rVal j ≤ (jDump j).length + 1 := by
    have := rVal_le_dump j
    omega
  have h2 := parseVal_jDump j ((jDump j).length + 1) [] h1
  rw [List.append_nil] at h2
  rw [h2]
  rfl

theorem hexDig_lt128 : ∀ d < 16, (hexDig d).toNat < 128 := by
  decide

theorem hex4_ascii (n : Nat) : ∀ d ∈ hex4 n, d.toNat < 128 := by
  intro d hd
  simp only [hex4, List.mem_cons, List.not_mem_nil, or_false] at hd
  rcases hd with rfl | rfl | rfl | rfl <;> exact hexDig_lt128 _ (by omega)

theorem escChar_ascii (c : Char) : ∀ d ∈ escChar c, d.toNat < 128 := by
  by_cases hq : c = '"'
  · subst hq
    intro d hd
    simp only [escChar] at hd
    simp at hd
    rcases hd with rfl | rfl <;> decide
  by_cases hb : c = '\\'
  · subst hb
    intro d hd
    simp only [escChar] at hd
    simp at hd
    rcases hd with rfl | rfl <;> decide
  by_cases h8 : c.toNat = 8
  all_goals try (
    have hc : c = Char.ofNat 8 := by rw [← Char.ofNat_toNat c, h8]
    subst hc
    intro d hd
    simp [escChar] at hd
    rcases hd with rfl | rfl <;> decide)
  by_cases h9 : c.toNat = 9
  all_goals try (
    have hc : c = Char.ofNat 9 := by rw [← Char.ofNat_toNat c, h9]
    subst hc
    intro d hd
    simp [escChar] at hd
    rcases hd with rfl | rfl <;> decide)
  by_cases h10 : c.toNat = 10
  all_goals try (
    have hc : c = Char.ofNat 10 := by rw [← Char.ofNat_toNat c, h10]
    subst hc
    intro d hd
    simp [escChar] at hd
    rcases hd with rfl | rfl <;> decide)
  by_cases h12 : c.toNat = 12
  all_goals try (
    have hc : c = Char.ofNat 12 := by rw [← Char.ofNat_toNat c, h12]
    subst hc
    intro d hd
    simp [escChar] at hd
    rcases hd with rfl | rfl <;> decide)
  by_cases h13 : c.toNat = 13
  all_goals try (
    have hc : c = Char.ofNat 13 := by rw [← Char.ofNat_toNat c, h13]
    subst hc
    intro d hd
    simp [escChar] at hd
    rcases hd with rfl | rfl <;> decide)
  by_cases hctl : c.toNat < 32
  · have hesc : escChar c = '\\' :: 'u' :: hex4 c.toNat := by
      simp [escChar, hq, hb, h8, h9, h10, h12, h13, hctl]
    rw [hesc]
    intro d hd
    simp only [List.mem_cons] at hd
    rcases hd with rfl | rfl | hd
    · decide
    · decide
    · exact hex4_ascii _ d hd
  by_cases hlit : c.toNat < 127
  · have hesc : escChar c = [c] := by
      simp [escChar, hq, hb, h8, h9, h10, h12, h13, hctl, hlit]
    rw [hesc]
    intro d hd
    simp only [List.mem_cons, List.not_mem_nil, or_false] at hd
    subst hd
    omega
  by_cases hbmp : c.toNat < 65536
  · have hesc : escChar c = '\\' :: 'u' :: hex4 c.toNat := by
      simp [escChar, hq, hb, h8, h9, h10, h12, h13, hctl, hlit, hbmp]
    rw [hesc]
    intro d hd
    simp only [List.mem_cons] at hd
    rcases hd with rfl | rfl | hd
    · decide
    · decide
    · exact hex4_ascii _ d hd
  · have hesc : escChar c =
        ('\\' :: 'u' :: hex4 (55296 + (c.toNat - 65536) / 1024)) ++
        ('\\' :: 'u' :: hex4 (56320 + (c.toNat - 65536) % 1024)) := by
      simp [escChar, hq, hb, h8, h9, h10, h12, h13, hctl, hlit, hbmp]
    rw [hesc]
    intro d hd
    simp only [List.mem_append, List.mem_cons] at hd
    rcases hd with (rfl | rfl | hd) | (rfl | rfl | hd)
    · decide
    · decide
    · exact hex4_ascii _ d hd
    · decide
    · decide
    · exact hex4_ascii _ d hd

theorem escString_ascii (cs : List Char) :
    ∀ d ∈ escString cs, d.toNat < 128 := by
  induction cs with
  | nil => intro d hd; simp [escString] at hd
  | cons c cs ih =>
      intro d hd
      simp only [escString, List.mem_append] at hd
      rcases hd with hd | hd
      · exact escChar_ascii c d hd
      · exact ih d hd

theorem mem_ascii_nil : ∀ d ∈ ([] : List Char), d.toNat < 128 := by
  intro d hd
  simp at hd

theorem mem_ascii_cons {c : Char} (hc : c.toNat < 128) {t : List Char}
    (ht : ∀ d ∈ t, d.toNat < 128) : ∀ d ∈ c :: t, d.toNat < 128 := by
  intro d hd
  rcases List.mem_cons.mp hd with rfl | hd
  · exact hc
  · exact ht d hd

theorem mem_ascii_append {a b : List Char} (ha : ∀ d ∈ a, d.toNat < 128)
    (hb : ∀ d ∈ b, d.toNat < 128) : ∀ d ∈ a ++ b, d.toNat < 128 := by
  intro d hd
  rcases List.mem_append.mp hd with hd | hd
  · exact ha d hd
  · exact hb d hd

mutual

/-- Serializer output is pure ASCII (`ensure_ascii`). -/
theorem jDump_ascii : ∀ j : Json, ∀ d ∈ jDump j, d.toNat < 128
  | .null => by
      simp only [jDump]
      exact mem_ascii_cons (by decide) (mem_ascii_cons (by decide)
        (mem_ascii_cons (by decide) (mem_ascii_cons (by decide)
          mem_ascii_nil)))
  | .str s => by
      simp only [jDump, jStrLit]
      exact mem_ascii_cons (by decide) (mem_ascii_append
        (escString_ascii s.data) (mem_ascii_cons (by decide) mem_ascii_nil))
  | .arr xs => by
      simp only [jDump]
      exact mem_ascii_cons (by decide) (mem_ascii_append
        (jDumpItems_ascii xs) (mem_ascii_cons (by decide) mem_ascii_nil))
  | .obj kvs => by
      simp only [jDump]
      exact mem_ascii_cons (by decide) (mem_ascii_append
        (jDumpMembers_ascii kvs) (mem_ascii_cons (by decide) mem_ascii_nil))

theorem jDumpItems_ascii : ∀ xs : List Json, ∀ d ∈ jDumpItems xs, d.toNat < 128
  | [] => by
      simp only [jDumpItems]
      exact mem_ascii_nil
  | [x] => by
      simp only [jDumpItems]
      exact jDump_ascii x
  | x :: y :: t => by
      simp only [jDumpItems]
      exact mem_ascii_append (jDump_ascii x)
        (mem_ascii_cons (by decide) (jDumpItems_ascii (y :: t)))

theorem jDumpMembers_ascii : ∀ kvs : List (String × Json),
    ∀ d ∈ jDumpMembers kvs, d.toNat < 128
  | [] => by
      simp only [jDumpMembers]
      exact mem_ascii_nil
  | [(k, v)] => by
      simp only [jDumpMembers, jStrLit, List.cons_append, List.nil_append,
        List.append_assoc]
      exact mem_ascii_cons (by decide) (mem_ascii_append
        (escString_ascii k.data)
        (mem_ascii_cons (by decide) (mem_ascii_cons (by decide)
          (jDump_ascii v))))
  | (k, v) :: p :: t => by
      simp only [jDumpMembers, jStrLit, List.cons_append, List.nil_append,
        List.append_assoc]
      exact mem_ascii_cons (by decide) (mem_ascii_append
        (escString_ascii k.data)
        (mem_ascii_cons (by decide) (mem_ascii_cons (by decide)
          (mem_ascii_append (jDump_ascii v)
            (mem_ascii_cons (by decide) (jDumpMembers_ascii (p :: t)))))))

end

theorem strictKeys_cons {p q : String × Json} {t : List (String × Json)}
    (h : strictKeys (p :: q :: t) = true) :
    strLt p.1 q.1 = true ∧ strictKeys (q :: t) = true := by
  obtain ⟨k1, v1⟩ := p
  obtain ⟨k2, v2⟩ := q
  simpa [strictKeys, Bool.and_eq_true] using h

/-- Sorting is the identity on strictly key-sorted member lists. -/
theorem objSort_id : ∀ kvs : List (String × Json),
    strictKeys kvs = true → objSort kvs = kvs
  | [] => fun _ => rfl
  | [p] => fun _ => by simp [objSort, objInsert]
  | p :: q :: t => fun h => by
      obtain ⟨h1, h2⟩ := strictKeys_cons h
      rw [objSort, objSort_id (q :: t) h2]
      obtain ⟨k2, v2⟩ := q
      simp only [objInsert]
      rw [if_pos h1]

theorem jCanon_arr {xs : List Json} (h : jCanon (.arr xs) = true) :
    jCanonList xs = true := by
  simpa [jCanon] using h

theorem jCanon_obj {kvs : List (String × Json)}
    (h : jCanon (.obj kvs) = true) :
    strictKeys kvs = true ∧ jCanonObj kvs = true := by
  simpa [jCanon, Bool.and_eq_true] using h

mutual

/-- Recursively sorting is the identity on canonical values. -/
theorem jSortAll_id : ∀ j : Json, jCanon j = true → jSortAll j = j
  | .null, _ => rfl
  | .str s, _ => rfl
  | .arr xs, h => by
      rw [jSortAll, jSortAllList_id xs (jCanon_arr h)]
  | .obj kvs, h => by
      obtain ⟨h1, h2⟩ := jCanon_obj h
      rw [jSortAll, jSortAllObj_id kvs h2, objSort_id kvs h1]

theorem jSortAllList_id : ∀ xs : List Json,
    jCanonList xs = true → jSortAllList xs = xs
  | [], _ => rfl
  | x :: xs, h => by
      simp only [jCanonList, Bool.and_eq_true] at h
      rw [jSortAllList, jSortAll_id x h.1, jSortAllList_id xs h.2]

theorem jSortAllObj_id : ∀ kvs : List (String × Json),
    jCanonObj kvs = true → jSortAllObj kvs = kvs
  | [], _ => rfl
  | (k, v) :: t, h => by
      simp only [jCanonObj, Bool.and_eq_true] at h
      rw [jSortAllObj, jSortAll_id v h.1, jSortAllObj_id t h.2]

end

/-- `json.dumps(sort_keys=True)` leaves canonical values untouched, and the
parser recovers them exactly. -/
theorem jsonLoads_jsonDumps (j : Json) (h : jCanon j = true) :
    jsonLoads (jsonDumps j) = some j := by
  unfold jsonDumps
  rw [jSortAll_id j h, jsonLoads_jDump]

theorem jsonDumps_ascii (j : Json) : ∀ d ∈ jsonDumps j, d.toNat < 128 := by
  unfold jsonDumps
  exact jDump_ascii (jSortAll j)

/-! ## Attribute values and `_jsonify` / `_dejsonify` (src `query.py`)

The continuation key is a wire-format attribute map: nested dicts, lists,
strings and raw byte strings.  `_jsonify` replaces each byte string by the
tag object `{"__type": "bytes", "b64": <standard base64>}`; `_dejsonify`
turns every map whose `__type` entry equals `"bytes"` back into bytes.
Python values outside this universe (numbers, booleans, `None`) do not
occur in serialized continuation keys and are not modelled. -/

/-- The modelled universe of continuation-key values. -/
inductive Attr where
  | str : String → Attr
  | bytes : List Nat → Attr
  | list : List Attr → Attr
  | map : List (String × Attr) → Attr

/-- `dict.get` on an attribute map. -/
def alookup : List (String × Attr) → String → Option Attr
  | [], _ => none
  | (k, v) :: rest, key => if k = key then some v else alookup rest key

/-- `dict.get` on a JSON object. -/
def jlookup : List (String × Json) → String → Option Json
  | [], _ => none
  | (k, v) :: rest, key => if k = key then some v else jlookup rest key

mutual

/-- `_jsonify`: tag byte strings, recurse through dicts and lists. -/
def jsonify : Attr → Json
  | .str s => .str s
  | .bytes bs =>
      .obj [("__type", .str "bytes"),
            ("b64", .str (String.mk (b64Encode false bs)))]
  | .list xs => .arr (jsonifyList xs)
  | .map kvs => .obj (jsonifyMap kvs)

def jsonifyList : List Attr → List Json
  | [] => []
  | x :: xs => jsonify x :: jsonifyList xs

def jsonifyMap : List (String × Attr) → List (String × Json)
  | [] => []
  | (k, v) :: rest => (k, jsonify v) :: jsonifyMap rest

end

/-- `obj.get("__type") == "bytes"` on a JSON object. -/
def isBytesTag (kvs : List (String × Json)) : Bool :=
  match jlookup kvs "__type" with
  | some (.str s) => s = "bytes"
  | _ => false

mutual

/-- `_dejsonify`: untag byte strings, recurse through objects and arrays;
`none` models the exceptions raised on a missing or undecodable `b64`
entry (and values outside the modelled universe). -/
def dejsonify : Json → Option Attr
  | .str s => some (.str s)
  | .null => none
  | .arr xs => (dejsonifyList xs).bind fun l => some (.list l)
  | .obj kvs =>
      if isBytesTag kvs then
        match jlookup kvs "b64" with
        | some (.str b) => (b64Decode false b.data).bind fun bs => some (.bytes bs)
        | _ => none
      else (dejsonifyMap kvs).bind fun m => some (.map m)

def dejsonifyList : List Json → Option (List Attr)
  | [] => some []
  | x :: xs =>
      (dejsonify x).bind fun a =>
        (dejsonifyList xs).bind fun t => some (a :: t)

def dejsonifyMap : List (String × Json) → Option (List (String × Attr))
  | [] => some []
  | (k, v) :: rest =>
      (dejsonify v).bind fun a =>
        (dejsonifyMap rest).bind fun t => some ((k, a) :: t)

end

/-- Keys strictly increasing in Python string order. -/
def strictKeysA : List (String × Attr) → Bool
  | [] => true
  | [_] => true
  | (k1, _) :: (k2, v2) :: rest =>
      strLt k1 k2 && strictKeysA ((k2, v2) :: rest)

mutual

/-- Well-formed attribute value: byte values below 256 and every map in
canonical (strictly key-sorted) form — the faithful embedding of a Python
`dict`-based value, whose dict equality is order-insensitive. -/
def aWF : Attr → Bool
  | .str _ => true
  | .bytes bs => bs.all (fun b => decide (b < 256))
  | .list xs => aWFList xs
  | .map kvs => strictKeysA kvs && aWFMap kvs

def aWFList : List Attr → Bool
  | [] => true
  | x :: xs => aWF x && aWFList xs

def aWFMap : List (String × Attr) → Bool
  | [] => true
  | (_, v) :: rest => aWF v && aWFMap rest

end

/-- Does this attribute map itself look like a `__type: bytes` tag? -/
def isTagMap (kvs : List (String × Attr)) : Bool :=
  match alookup kvs "__type" with
  | some (.str s) => s = "bytes"
  | _ => false

mutual

/-- No map anywhere in the value carries a `__type` entry equal to
`"bytes"` — the reserved tag `_dejsonify` interprets as a byte string. -/
def aTagFree : Attr → Bool
  | .str _ => true
  | .bytes _ => true
  | .list xs => aTagFreeList xs
  | .map kvs => !(isTagMap kvs) && aTagFreeMap kvs

def aTagFreeList : List Attr → Bool
  | [] => true
  | x :: xs => aTagFree x && aTagFreeList xs

def aTagFreeMap : List (String × Attr) → Bool
  | [] => true
  | (_, v) :: rest => aTagFree v && aTagFreeMap rest

end

theorem jlookup_jsonifyMap (kvs : List (String × Attr)) (key : String) :
    jlookup (jsonifyMap kvs) key = (alookup kvs key).map jsonify := by
  induction kvs with
  | nil => rfl
  | cons p rest ih =>
      obtain ⟨k, v⟩ := p
      simp only [jsonifyMap, jlookup, alookup]
      by_cases hk : k = key
      · simp [hk]
      · simp [hk, ih]

theorem isBytesTag_jsonifyMap (kvs : List (String × Attr)) :
    isBytesTag (jsonifyMap kvs) = isTagMap kvs := by
  unfold isBytesTag isTagMap
  rw [jlookup_jsonifyMap]
  cases halk : alookup kvs "__type" with
  | none => rfl
  | some v => cases v <;> simp [jsonify]

theorem strictKeys_jsonifyMap (kvs : List (String × Attr)) :
    strictKeys (jsonifyMap kvs) = strictKeysA kvs := by
  induction kvs using strictKeysA.induct with
  | case1 => rfl
  | case2 p => obtain ⟨k, v⟩ := p; rfl
  | case3 k1 v1 k2 v2 rest ih =>
      simp only [jsonifyMap, strictKeys, strictKeysA] at ih ⊢
      rw [ih]

mutual

/-- `_jsonify` maps well-formed values to canonical JSON. -/
theorem jCanon_jsonify : ∀ a : Attr, aWF a = true → jCanon (jsonify a) = true
  | .str s, _ => rfl
  | .bytes bs, _ => by
      simp [jsonify, jCanon, jCanonObj, strictKeys]
      decide
  | .list xs, h => by
      simp only [jsonify, jCanon]
      exact jCanonList_jsonify xs (by simpa [aWF] using h)
  | .map kvs, h => by
      simp only [aWF, Bool.and_eq_true] at h
      simp only [jsonify, jCanon, Bool.and_eq_true]
      exact ⟨by rw [strictKeys_jsonifyMap]; exact h.1,
        jCanonObj_jsonify kvs h.2⟩

theorem jCanonList_jsonify : ∀ xs : List Attr,
    aWFList xs = true → jCanonList (jsonifyList xs) = true
  | [], _ => rfl
  | x :: xs, h => by
      simp only [aWFList, Bool.and_eq_true] at h
      simp only [jsonifyList, jCanonList, Bool.and_eq_true]
      exact ⟨jCanon_jsonify x h.1, jCanonList_jsonify xs h.2⟩

theorem jCanonObj_jsonify : ∀ kvs : List (String × Attr),
    aWFMap kvs = true → jCanonObj (jsonifyMap kvs) = true
  | [], _ => rfl
  | (k, v) :: rest, h => by
      simp only [aWFMap, Bool.and_eq_true] at h
      simp only [jsonifyMap, jCanonObj, Bool.and_eq_true]
      exact ⟨jCanon_jsonify v h.1, jCanonObj_jsonify rest h.2⟩

end

theorem b64Decode_b64Encode (bs : List Nat) (h : AllBytes bs) :
    b64Decode false (b64Encode false bs) = some bs := by
  unfold b64Decode
  rw [b64Encode_filter false bs h]
  exact b64DecodeGroups_b64Encode false bs h

mutual

/-- `_dejsonify` inverts `_jsonify` on well-formed, tag-free values. -/
theorem dejsonify_jsonify : ∀ a : Attr, aWF a = true → aTagFree a = true →
    dejsonify (jsonify a) = some a
  | .str s, _, _ => rfl
  | .bytes bs, hw, _ => by
      have hb : AllBytes bs := by
        simp only [aWF, List.all_eq_true, decide_eq_true_eq] at hw
        exact hw
      simp only [jsonify, dejsonify]
      rw [if_pos (by simp [isBytesTag, jlookup])]
      show (b64Decode false (String.mk (b64Encode false bs)).data).bind
          (fun l => some (Attr.bytes l)) = some (Attr.bytes bs)
      rw [show (String.mk (b64Encode false bs)).data =
            b64Encode false bs from rfl]
      rw [b64Decode_b64Encode bs hb]
      rfl
  | .list xs, hw, ht => by
      simp only [jsonify, dejsonify]
      rw [dejsonifyList_jsonifyList xs (by simpa [aWF] using hw)
        (by simpa [aTagFree] using ht)]
      rfl
  | .map kvs, hw, ht => by
      simp only [aWF, Bool.and_eq_true] at hw
      simp only [aTagFree, Bool.and_eq_true] at ht
      have htag : isBytesTag (jsonifyMap kvs) = false := by
        rw [isBytesTag_jsonifyMap]
        simpa using ht.1
      simp only [jsonify, dejsonify]
      rw [if_neg (by simp [htag])]
      rw [dejsonifyMap_jsonifyMap kvs hw.2 ht.2]
      rfl

theorem dejsonifyList_jsonifyList : ∀ xs : List Attr,
    aWFList xs = true → aTagFreeList xs = true →
    dejsonifyList (jsonifyList xs) = some xs
  | [], _, _ => rfl
  | x :: xs, hw, ht => by
      simp only [aWFList, Bool.and_eq_true] at hw
      simp only [aTagFreeList, Bool.and_eq_true] at ht
      simp only [jsonifyList, dejsonifyList]
      rw [dejsonify_jsonify x hw.1 ht.1,
        dejsonifyList_jsonifyList xs hw.2 ht.2]
      rfl

theorem dejsonifyMap_jsonifyMap : ∀ kvs : List (String × Attr),
    aWFMap kvs = true → aTagFreeMap kvs = true →
    dejsonifyMap (jsonifyMap kvs) = some kvs
  | [], _, _ => rfl
  | (k, v) :: rest, hw, ht => by
      simp only [aWFMap, Bool.and_eq_true] at hw
      simp only [aTagFreeMap, Bool.and_eq_true] at ht
      simp only [jsonifyMap, dejsonifyMap]
      rw [dejsonify_jsonify v hw.1 ht.1,
        dejsonifyMap_jsonifyMap rest hw.2 ht.2]
      rfl

end

/-! ## Cursor codec (src `query.py` `encode_cursor` / `decode_cursor`,
cursor shape from `table.py` and the unit tests)

`encode_cursor` packs the continuation key together with the producing
index name and scan direction (`table.py` calls
`encode_cursor(last, index=..., sort=...)` and reads `decoded.last_key`,
`decoded.index`, `decoded.sort`). -/

/-- Python `None` / `str` serialized into the payload. -/
def optJson : Option String → Json
  | none => .null
  | some s => .str s

/-- Decode an optional string payload field; anything else is malformed. -/
def optOfJson : Json → Option (Option String)
  | .null => some none
  | .str s => some (some s)
  | _ => none

/-- Decoded cursor: last evaluated key, producing index, scan direction. -/
structure Cursor where
  last_key : Attr
  index : Option String
  sort : Option String

/-- Modelled from the spec: the repository's full `encode_cursor` (the
version under src takes only the key) packs the continuation key, index
name and scan direction "into a canonical, deterministically ordered
serialization"; the payload is a key-sorted JSON object. -/
def cursorPayload (key : Attr) (index sort : Option String) : Json :=
  .obj [("i", optJson index), ("k", jsonify key), ("s", optJson sort)]

/-- `encode_cursor`: canonical JSON, UTF-8, URL-safe base64, padding
stripped (`json.dumps(...).encode("utf-8")`,
`urlsafe_b64encode(...).rstrip("=")`). -/
def encode_cursor (key : Attr) (index sort : Option String) : String :=
  String.mk (b64UrlNoPad (utf8Encode (jsonDumps (cursorPayload key index sort))))

/-- `decode_cursor`: re-pad, URL-safe base64 decode, UTF-8 decode, JSON
parse, then structural checks; any failure is `none` (malformed input). -/
def decode_cursor (cursor : String) : Option Cursor :=
  (b64UrlDecodePadded cursor.data).bind fun bytes =>
    (utf8Decode bytes).bind fun chars =>
      (jsonLoads chars).bind fun j =>
        match j with
        | .obj [("i", ji), ("k", jk), ("s", js)] =>
            (optOfJson ji).bind fun idx =>
              (dejsonify jk).bind fun key =>
                (optOfJson js).bind fun srt =>
                  some ⟨key, idx, srt⟩
        | _ => none

theorem optJson_canon (o : Option String) : jCanon (optJson o) = true := by
  cases o <;> rfl

theorem optOfJson_optJson (o : Option String) :
    optOfJson (optJson o) = some o := by
  cases o <;> rfl

theorem cursorPayload_canon (key : Attr) (index sort : Option String)
    (hw : aWF key = true) :
    jCanon (cursorPayload key index sort) = true := by
  simp [cursorPayload, jCanon, jCanonObj, strictKeys, optJson_canon,
    jCanon_jsonify key hw]
  decide

/-- Full cursor round trip on well-formed, tag-free continuation keys. -/
theorem decode_encode_cursor (key : Attr) (index sort : Option String)
    (hw : aWF key = true) (ht : aTagFree key = true) :
    decode_cursor (encode_cursor key index sort) =
      some ⟨key, index, sort⟩ := by
  unfold decode_cursor encode_cursor
  rw [show (String.mk (b64UrlNoPad (utf8Encode
        (jsonDumps (cursorPayload key index sort))))).data =
      b64UrlNoPad (utf8Encode (jsonDumps (cursorPayload key index sort)))
      from rfl]
  rw [b64UrlDecodePadded_b64UrlNoPad _ (utf8Encode_allBytes _)]
  simp only [Option.some_bind]
  rw [utf8Decode_utf8Encode_ascii _ (jsonDumps_ascii _)]
  simp only [Option.some_bind]
  rw [jsonLoads_jsonDumps _ (cursorPayload_canon key index sort hw)]
  simp only [Option.some_bind, cursorPayload]
  show (optOfJson (optJson index)).bind (fun idx =>
      (dejsonify (jsonify key)).bind fun k =>
        (optOfJson (optJson sort)).bind fun srt =>
          some (Cursor.mk k idx srt)) = some (Cursor.mk key index sort)
  rw [optOfJson_optJson, dejsonify_jsonify key hw ht, optOfJson_optJson]
  rfl

/-! ## Python values, errors, and the model (src `errors.py`, `model.py`
declarations as used by `table.py`) -/

/-- The Python values flowing through items, updates and cancellation
reasons. -/
inductive PyVal where
  | none : PyVal
  | bool : Bool → PyVal
  | int : Int → PyVal
  | str : String → PyVal
  | bytes : List Nat → PyVal
  | list : List PyVal → PyVal
  | tuple : List PyVal → PyVal
  | set : List PyVal → PyVal
  | dict : List (String × PyVal) → PyVal

/-- `_is_empty` from `table.py`: `None`, `False`, values equal to `0`,
and empty strings/bytes/collections are empty. -/
def pyIsEmpty : PyVal → Bool
  | .none => true
  | .bool b => !b
  | .int n => n == 0
  | .str s => s.isEmpty
  | .bytes bs => bs.isEmpty
  | .list xs => xs.isEmpty
  | .tuple xs => xs.isEmpty
  | .set xs => xs.isEmpty
  | .dict kvs => kvs.isEmpty

/-- Python truthiness of the modelled values. -/
def pyTruthy : PyVal → Bool
  | .none => false
  | .bool b => b
  | .int n => !(n == 0)
  | .str s => !s.isEmpty
  | .bytes bs => !bs.isEmpty
  | .list xs => !xs.isEmpty
  | .tuple xs => !xs.isEmpty
  | .set xs => !xs.isEmpty
  | .dict kvs => !kvs.isEmpty

/-- Python `str()` of a value; faithful for the strings reason codes are
in practice, schematic for containers (their `repr` is not modelled). -/
def pyToStr : PyVal → String
  | .str s => s
  | .bool true => "True"
  | .bool false => "False"
  | .none => "None"
  | .int n => toString n
  | _ => "<value>"

/-- The repository's error taxonomy (`errors.py`;
`TransactionCanceledError` and `BatchRetryExceededError` are part of the
package but missing from the provided sources — their payloads are
modelled from the spec: per-item reason codes, and operation name plus
unprocessed count). -/
inductive Err where
  | validation : String → Err
  | conditionFailed : String → Err
  | notFound : String → Err
  | encryptionNotConfigured : String → Err
  | transactionCanceled : String → List String → Err
  | batchRetryExceeded : String → Nat → Err
  | aws : String → String → Err
deriving DecidableEq

/-- Is this a `ValidationError`? -/
def Err.isValidation : Err → Bool
  | .validation _ => true
  | _ => false

/-- Is this a `ConditionFailedError`? -/
def Err.isConditionFailed : Err → Bool
  | .conditionFailed _ => true
  | _ => false

/-- A `botocore.exceptions.ClientError` response shape. -/
structure ClientErrorResp where
  code : String
  message : String
  cancellationReasons : List PyVal := []

/-- One field's encoding contract. -/
structure AttributeDefinition where
  python_name : String
  attribute_name : String
  roles : List String := []
  omitempty : Bool := false
  set : Bool := false
  json : Bool := false
  binary : Bool := false
  encrypted : Bool := false

/-- A resolved secondary index. -/
structure IndexDefinition where
  name : String
  partition : String
  sort : Option String := Option.none
  type : String

/-- A dataclass field as `_required_fields` sees it: its name and whether
it declares a default (or default factory). -/
structure DataclassField where
  name : String
  has_default : Bool

/-- The declarative model consumed by `Table`. -/
structure ModelDefinition where
  pk : AttributeDefinition
  sk : Option AttributeDefinition := Option.none
  attributes : List (String × AttributeDefinition)
  indexes : List IndexDefinition := []
  dataclass_fields : List DataclassField := []

/-- Python `dict` lookup on an insertion-ordered association list. -/
def dictGet {β : Type} : List (String × β) → String → Option β
  | [], _ => Option.none
  | (k, v) :: rest, key => if k = key then some v else dictGet rest key

/-- Python `dict` membership. -/
def dictHas {β : Type} (kvs : List (String × β)) (key : String) : Bool :=
  (dictGet kvs key).isSome

/-- Python `dict` assignment: replace in place or append. -/
def dictSet {β : Type} : List (String × β) → String → β → List (String × β)
  | [], key, v => [(key, v)]
  | (k, v') :: rest, key, v =>
      if k = key then (key, v) :: rest else (k, v') :: dictSet rest key v

/-- Substring test (`needle in haystack`). -/
def listHasSub (needle : List Char) : List Char → Bool
  | [] => needle.isEmpty
  | c :: rest => needle.isPrefixOf (c :: rest) || listHasSub needle rest

/-- Python `in` on strings. -/
def strContains (hay needle : String) : Bool :=
  listHasSub needle.data hay.data

/-- `_map_client_error`: known store error codes become typed errors, the
rest a generic `AwsError` (`str(err)` of the original exception is
abstracted). -/
def map_client_error (e : ClientErrorResp) : Err :=
  if e.code = "ConditionalCheckFailedException" then
    .conditionFailed e.message
  else if e.code = "ValidationException" then .validation e.message
  else if e.code = "ResourceNotFoundException" then .notFound e.message
  else
    .aws (if e.code = "" then "UnknownError" else e.code)
      (if e.message = "" then "ClientError" else e.message)

/-- The per-reason code extraction inside `_map_transaction_error`:
only reasons that are dicts with a truthy `Code` contribute, as
`str(reason.get("Code", "Unknown"))`. -/
def reasonCode : PyVal → Option String
  | .dict kvs =>
      match dictGet kvs "Code" with
      | some c => if pyTruthy c then some (pyToStr c) else Option.none
      | Option.none => Option.none
  | _ => Option.none

/-- `_map_transaction_error` from `table.py`. -/
def map_transaction_error (e : ClientErrorResp) : Err :=
  if e.code = "TransactionCanceledException" then
    let codes := e.cancellationReasons.filterMap reasonCode
    if codes.any (fun rc => rc = "ConditionalCheckFailed") ||
        strContains e.message "ConditionalCheckFailed" then
      .conditionFailed
        (if e.message = "" then "transaction canceled: ConditionalCheckFailed"
         else e.message)
    else
      .transactionCanceled
        (if e.message = "" then "transaction canceled" else e.message) codes
  else map_client_error e

/-! ## Expression builders (`table.py`): sort conditions, projections,
filters, keys, items and update requests.

The boto3 `TypeSerializer` and the optional converter/JSON/encryption
pipeline of `_serialize_attr_value` are external collaborators; they are
abstracted as total function parameters `ser : PyVal → α` (the raw
serializer) and `serAttr : AttributeDefinition → PyVal → α`
(`_serialize_attr_value`), since no claim depends on the serialized
bytes themselves. -/

/-- Python `sep.join(parts)`. -/
def joinSep (sep : String) : List String → String
  | [] => ""
  | [x] => x
  | x :: xs => x ++ sep ++ joinSep sep xs

/-- Is this Python value `None`? -/
def pyIsNone : PyVal → Bool
  | .none => true
  | _ => false

/-- `SortKeyCondition` from `query.py`. -/
structure SortKeyCondition where
  op : String
  values : List PyVal

/-- `Table._resolve_index`: `(partition_attr, sort_attr, index_type)`. -/
def resolve_index (m : ModelDefinition) :
    Option String → Except Err (String × Option String × String)
  | Option.none =>
      .ok (m.pk.attribute_name, (m.sk.map (fun sk => sk.attribute_name)), "TABLE")
  | some idx =>
      match m.indexes.find? (fun i => i.name == idx) with
      | some i => .ok (i.partition, i.sort, i.type)
      | Option.none => .error (.validation ("unknown index: " ++ idx))

/-- `Table._apply_sort_condition`: extends the key expression and the
values map for the sort-key condition. -/
def apply_sort_condition {α : Type} (ser : PyVal → α) (pre : String)
    (cond : SortKeyCondition) (values : List (String × α)) :
    Except Err (String × List (String × α)) :=
  if cond.op = "=" ∨ cond.op = "<" ∨ cond.op = "<=" ∨ cond.op = ">" ∨
      cond.op = ">=" then
    match cond.values with
    | [v] =>
        .ok (pre ++ " AND #sk " ++ cond.op ++ " :sk",
             dictSet values ":sk" (ser v))
    | _ => .error (.validation "invalid sort key condition")
  else if cond.op = "between" then
    match cond.values with
    | [lo, hi] =>
        .ok (pre ++ " AND #sk BETWEEN :sk1 AND :sk2",
             dictSet (dictSet values ":sk1" (ser lo)) ":sk2" (ser hi))
    | _ => .error (.validation "invalid sort key condition")
  else if cond.op = "begins_with" then
    match cond.values with
    | [v] =>
        .ok (pre ++ " AND begins_with(#sk, :sk)",
             dictSet values ":sk" (ser v))
    | _ => .error (.validation "invalid sort key condition")
  else .error (.validation ("unsupported sort key operator: " ++ cond.op))

/-- `Table._required_fields`. Python builds a `set`; it is only consulted
for membership, so an insertion-ordered list is a faithful model. -/
def required_fields (m : ModelDefinition) : List String :=
  ([m.pk.python_name] ++
    (match m.sk with | some sk => [sk.python_name] | Option.none => [])) ++
  m.dataclass_fields.filterMap (fun f =>
    if dictHas m.attributes f.name && !f.has_default then some f.name
    else Option.none)

/-- The per-field loop of `Table._projection_expression`. -/
def projLoop (m : ModelDefinition) :
    List String → List (String × String) → List String →
    Except Err (String × List (String × String))
  | [], names, refs => .ok (joinSep ", " refs, names)
  | f :: rest, names, refs =>
      match dictGet m.attributes f with
      | Option.none => .error (.validation ("unknown field: " ++ f))
      | some ad =>
          projLoop m rest (dictSet names ("#p_" ++ f) ad.attribute_name)
            (refs ++ ["#p_" ++ f])

/-- `Table._projection_expression`. The Python error message interpolates
`sorted(missing)`; the missing-field list in the message is not needed by
any claim and is left out of the modelled message. -/
def projection_expression (m : ModelDefinition) (projection : List String)
    (names : List (String × String)) :
    Except Err (String × List (String × String)) :=
  if (required_fields m).any (fun f => !(projection.contains f)) then
    .error (.validation "projection is missing required fields")
  else projLoop m projection names []

/-- Filter expressions, shaped as `table.py` consumes them
(`FilterCondition.field/.op/.values`, `FilterGroup.op/.filters`). -/
inductive FilterExpr where
  | cond (field : String) (op : String) (values : List PyVal)
  | group (op : String) (filters : List FilterExpr)

/-- Python `str.upper()` over the modelled operator strings. -/
def strUpper (s : String) : String := String.mk (s.data.map Char.toUpper)

/-- Python `str.strip()` (ASCII-whitespace model). -/
def strTrim (s : String) : String :=
  String.mk
    (((s.data.dropWhile Char.isWhitespace).reverse.dropWhile
        Char.isWhitespace).reverse)

/-- `name_ref` inside `Table._filter_expression`: unknown and encrypted
fields are rejected; a `#f_` placeholder already bound to a different
attribute name is a collision. -/
def filter_name_ref (m : ModelDefinition) (names : List (String × String))
    (field : String) :
    Except Err (String × AttributeDefinition × List (String × String)) :=
  match dictGet m.attributes field with
  | Option.none => .error (.validation ("unknown field: " ++ field))
  | some ad =>
      if ad.encrypted then
        .error (.validation ("encrypted fields cannot be filtered: " ++ field))
      else
        let ref := "#f_" ++ field
        match dictGet names ref with
        | some existing =>
            if existing = ad.attribute_name then
              .ok (ref, ad, dictSet names ref ad.attribute_name)
            else
              .error (.validation ("expression attribute name collision: " ++ ref))
        | Option.none => .ok (ref, ad, dictSet names ref ad.attribute_name)

/-- `value_ref` inside `Table._filter_expression`: a fresh `:f{n}`
placeholder; one already present in the values map is a collision. -/
def filter_value_ref {α : Type} (serAttr : AttributeDefinition → PyVal → α)
    (ad : AttributeDefinition) (v : PyVal) (values : List (String × α))
    (counter : Nat) : Except Err (String × List (String × α) × Nat) :=
  let c := counter + 1
  let ref := ":f" ++ toString c
  if dictHas values ref then
    .error (.validation ("expression attribute value collision: " ++ ref))
  else .ok (ref, dictSet values ref (serAttr ad v), c)

/-- `value_ref` folded over a list of values (BETWEEN and IN). -/
def filter_value_refs {α : Type} (serAttr : AttributeDefinition → PyVal → α)
    (ad : AttributeDefinition) :
    List PyVal → List (String × α) → Nat →
    Except Err (List String × List (String × α) × Nat)
  | [], values, counter => .ok ([], values, counter)
  | v :: rest, values, counter =>
      match filter_value_ref serAttr ad v values counter with
      | .error e => .error e
      | .ok (r, values1, c1) =>
          match filter_value_refs serAttr ad rest values1 c1 with
          | .error e => .error e
          | .ok (rs, values2, c2) => .ok (r :: rs, values2, c2)

/-- The condition arm of `build` inside `Table._filter_expression`,
after `name_ref` has resolved the field (`op` is `node.op.upper()`). -/
def buildCondArm {α : Type} (serAttr : AttributeDefinition → PyVal → α)
    (op0 : String) (vals : List PyVal) (name : String)
    (ad : AttributeDefinition) (names1 : List (String × String))
    (values : List (String × α)) (counter : Nat) :
    Except Err (String × List (String × String) × List (String × α) × Nat) :=
  if strUpper op0 = "=" ∨ strUpper op0 = "EQ" then
    match vals with
    | [v] =>
        (filter_value_ref serAttr ad v values counter).map
          (fun (r, values1, c1) => (name ++ " = " ++ r, names1, values1, c1))
    | _ => .error (.validation (op0 ++ " requires one value"))
  else if strUpper op0 = "!=" ∨ strUpper op0 = "<>" ∨ strUpper op0 = "NE" then
    match vals with
    | [v] =>
        (filter_value_ref serAttr ad v values counter).map
          (fun (r, values1, c1) => (name ++ " <> " ++ r, names1, values1, c1))
    | _ => .error (.validation (op0 ++ " requires one value"))
  else if strUpper op0 = "<" ∨ strUpper op0 = "LT" then
    match vals with
    | [v] =>
        (filter_value_ref serAttr ad v values counter).map
          (fun (r, values1, c1) => (name ++ " < " ++ r, names1, values1, c1))
    | _ => .error (.validation (op0 ++ " requires one value"))
  else if strUpper op0 = "<=" ∨ strUpper op0 = "LE" then
    match vals with
    | [v] =>
        (filter_value_ref serAttr ad v values counter).map
          (fun (r, values1, c1) => (name ++ " <= " ++ r, names1, values1, c1))
    | _ => .error (.validation (op0 ++ " requires one value"))
  else if strUpper op0 = ">" ∨ strUpper op0 = "GT" then
    match vals with
    | [v] =>
        (filter_value_ref serAttr ad v values counter).map
          (fun (r, values1, c1) => (name ++ " > " ++ r, names1, values1, c1))
    | _ => .error (.validation (op0 ++ " requires one value"))
  else if strUpper op0 = ">=" ∨ strUpper op0 = "GE" then
    match vals with
    | [v] =>
        (filter_value_ref serAttr ad v values counter).map
          (fun (r, values1, c1) => (name ++ " >= " ++ r, names1, values1, c1))
    | _ => .error (.validation (op0 ++ " requires one value"))
  else if strUpper op0 = "BETWEEN" then
    match vals with
    | [lo, hi] =>
        match filter_value_ref serAttr ad lo values counter with
        | .error e => .error e
        | .ok (l, values1, c1) =>
            (filter_value_ref serAttr ad hi values1 c1).map
              (fun (r, values2, c2) =>
                (name ++ " BETWEEN " ++ l ++ " AND " ++ r,
                 names1, values2, c2))
    | _ => .error (.validation "BETWEEN requires two values")
  else if strUpper op0 = "IN" then
    match vals with
    | [v] =>
        match v with
        | .list xs =>
            if 100 < xs.length then
              .error (.validation "IN supports maximum 100 values")
            else
              (filter_value_refs serAttr ad xs values counter).map
                (fun (rs, values1, c1) =>
                  (name ++ " IN (" ++ joinSep ", " rs ++ ")",
                   names1, values1, c1))
        | .tuple xs =>
            if 100 < xs.length then
              .error (.validation "IN supports maximum 100 values")
            else
              (filter_value_refs serAttr ad xs values counter).map
                (fun (rs, values1, c1) =>
                  (name ++ " IN (" ++ joinSep ", " rs ++ ")",
                   names1, values1, c1))
        | _ => .error (.validation "IN requires a sequence of values")
    | _ => .error (.validation "IN requires a single sequence")
  else if strUpper op0 = "BEGINS_WITH" then
    match vals with
    | [v] =>
        (filter_value_ref serAttr ad v values counter).map
          (fun (r, values1, c1) =>
            ("begins_with(" ++ name ++ ", " ++ r ++ ")", names1, values1, c1))
    | _ => .error (.validation "BEGINS_WITH requires one value")
  else if strUpper op0 = "CONTAINS" then
    match vals with
    | [v] =>
        (filter_value_ref serAttr ad v values counter).map
          (fun (r, values1, c1) =>
            ("contains(" ++ name ++ ", " ++ r ++ ")", names1, values1, c1))
    | _ => .error (.validation "CONTAINS requires one value")
  else if strUpper op0 = "EXISTS" ∨ strUpper op0 = "ATTRIBUTE_EXISTS" then
    match vals with
    | [] => .ok ("attribute_exists(" ++ name ++ ")", names1, values, counter)
    | _ => .error (.validation "EXISTS does not take a value")
  else if strUpper op0 = "NOT_EXISTS" ∨
      strUpper op0 = "ATTRIBUTE_NOT_EXISTS" then
    match vals with
    | [] =>
        .ok ("attribute_not_exists(" ++ name ++ ")", names1, values, counter)
    | _ => .error (.validation "NOT_EXISTS does not take a value")
  else .error (.validation ("unsupported filter operator: " ++ op0))

mutual

/-- `build` inside `Table._filter_expression`, threading the names map,
the values map and the `:f` counter. -/
def buildFilter {α : Type} (m : ModelDefinition)
    (serAttr : AttributeDefinition → PyVal → α) :
    FilterExpr → List (String × String) → List (String × α) → Nat →
    Except Err (String × List (String × String) × List (String × α) × Nat)
  | .group op filters, names, values, counter =>
      match buildFilterList m serAttr filters names values counter with
      | .error e => .error e
      | .ok (parts, names1, values1, c1) =>
          let nonempty := parts.filter (fun p => p ≠ "")
          if nonempty.isEmpty then .ok ("", names1, values1, c1)
          else
            .ok ("(" ++ joinSep (" " ++ op ++ " ") nonempty ++ ")",
                 names1, values1, c1)
  | .cond field op0 vals, names, values, counter =>
      match filter_name_ref m names field with
      | .error e => .error e
      | .ok (name, ad, names1) =>
          buildCondArm serAttr op0 vals name ad names1 values counter

/-- The group arm builds every child (threading state through all of
them) before filtering out empty parts. -/
def buildFilterList {α : Type} (m : ModelDefinition)
    (serAttr : AttributeDefinition → PyVal → α) :
    List FilterExpr → List (String × String) → List (String × α) → Nat →
    Except Err (List String × List (String × String) × List (String × α) × Nat)
  | [], names, values, counter => .ok ([], names, values, counter)
  | f :: rest, names, values, counter =>
      match buildFilter m serAttr f names values counter with
      | .error e => .error e
      | .ok (s, names1, values1, c1) =>
          match buildFilterList m serAttr rest names1 values1 c1 with
          | .error e => .error e
          | .ok (ss, names2, values2, c2) => .ok (s :: ss, names2, values2, c2)

end

/-- `Table._filter_expression`: runs the builder with a fresh counter. -/
def filter_expression {α : Type} (m : ModelDefinition)
    (serAttr : AttributeDefinition → PyVal → α) (f : FilterExpr)
    (names : List (String × String)) (values : List (String × α)) :
    Except Err (String × List (String × String) × List (String × α)) :=
  (buildFilter m serAttr f names values 0).map
    (fun (s, names1, values1, _) => (s, names1, values1))

/-- `Table._to_key`. -/
def to_key {α : Type} (m : ModelDefinition)
    (serAttr : AttributeDefinition → PyVal → α) (pk sk : PyVal) :
    Except Err (List (String × α)) :=
  if pyIsNone pk then .error (.validation "pk is required")
  else if m.sk.isNone && !(pyIsNone sk) then
    .error (.validation "model does not define sk")
  else if m.sk.isSome && pyIsNone sk then .error (.validation "sk is required")
  else
    let key := [(m.pk.attribute_name, serAttr m.pk pk)]
    match m.sk with
    | some skd => .ok (dictSet key skd.attribute_name (serAttr skd sk))
    | Option.none => .ok key

/-- The attribute loop of `Table._to_item`: omitempty fields holding an
empty value are skipped, everything else is serialized under its wire
attribute name. A dataclass instance is modelled as its field map (a
dataclass always has every field; absent entries read as `None`). -/
def toItemFold {α : Type} (serAttr : AttributeDefinition → PyVal → α)
    (item : List (String × PyVal)) :
    List (String × AttributeDefinition) → List (String × α) → List (String × α)
  | [], out => out
  | (fname, ad) :: rest, out =>
      let value := (dictGet item fname).getD PyVal.none
      if ad.omitempty && pyIsEmpty value then toItemFold serAttr item rest out
      else toItemFold serAttr item rest (dictSet out ad.attribute_name (serAttr ad value))

/-- `Table._to_item`: serialize the fields, then require the key
attributes to be present in the wire item. -/
def to_item {α : Type} (m : ModelDefinition)
    (serAttr : AttributeDefinition → PyVal → α) (item : List (String × PyVal)) :
    Except Err (List (String × α)) :=
  let out := toItemFold serAttr item m.attributes []
  if !(dictHas out m.pk.attribute_name) then .error (.validation "missing pk")
  else
    match m.sk with
    | some skd =>
        if !(dictHas out skd.attribute_name) then .error (.validation "missing sk")
        else .ok out
    | Option.none => .ok out

/-- Is this field the model's partition- or sort-key field? (the check at
table.py lines 769-772 and 1239-1242). -/
def isKeyField (m : ModelDefinition) (fname : String) : Bool :=
  fname == m.pk.python_name ||
    (match m.sk with
     | some sk => fname == sk.python_name
     | Option.none => false)

/-- `Table._serialize_values`. -/
def serialize_values {α : Type} (ser : PyVal → α) (kvs : List (String × PyVal)) :
    List (String × α) :=
  kvs.map (fun kv => (kv.1, ser kv.2))

/-- The update loop of `Table._build_update_request`: unknown fields and
key fields are rejected; a `None` value becomes a REMOVE, anything else a
SET with a `:d_` placeholder. -/
def updateCore {α : Type} (m : ModelDefinition)
    (serAttr : AttributeDefinition → PyVal → α) :
    List (String × PyVal) → List (String × String) → List (String × α) →
    List String → List String →
    Except Err (List (String × String) × List (String × α) × List String × List String)
  | [], names, values, sets, removes => .ok (names, values, sets, removes)
  | (fname, value) :: rest, names, values, sets, removes =>
      match dictGet m.attributes fname with
      | Option.none => .error (.validation ("unknown field: " ++ fname))
      | some ad =>
          if isKeyField m fname then
            .error (.validation ("cannot update key field: " ++ fname))
          else
            let nref := "#d_" ++ fname
            let names1 := dictSet names nref ad.attribute_name
            match value with
            | PyVal.none => updateCore m serAttr rest names1 values sets (removes ++ [nref])
            | v =>
                updateCore m serAttr rest names1
                  (dictSet values (":d_" ++ fname) (serAttr ad v))
                  (sets ++ [nref ++ " = " ++ ":d_" ++ fname]) removes

/-- The caller-extras merge of `_build_update_request` (lines 807-819):
an extra key already present is a collision error, otherwise it is added
in order. -/
def mergeChecked {β : Type} (msg : String → Err) :
    List (String × β) → List (String × β) → Except Err (List (String × β))
  | base, [] => .ok base
  | base, (k, v) :: rest =>
      if dictHas base k then .error (msg k)
      else mergeChecked msg (dictSet base k v) rest

/-- The name-collision error of the extras merge. -/
def nameCollision (k : String) : Err :=
  .validation ("expression attribute name collision: " ++ k)

/-- The value-collision error of the extras merge. -/
def valueCollision (k : String) : Err :=
  .validation ("expression attribute value collision: " ++ k)

/-- The request `Table._build_update_request` assembles.
`values = Option.none` models a request without the
`ExpressionAttributeValues` key. -/
structure UpdateReq (α : Type) where
  table_name : String
  key : List (String × α)
  update_expression : String
  names : List (String × String)
  values : Option (List (String × α))
  return_values : Option String
  condition_expression : Option String

/-- `Table._build_update_request`. A falsy (empty-string)
`condition_expression` is skipped like Python's `if condition_expression:`;
caller extras are merged with collision checks. -/
def build_update_request {α : Type} (m : ModelDefinition) (ser : PyVal → α)
    (serAttr : AttributeDefinition → PyVal → α) (table_name : String)
    (pk sk : PyVal) (updates : List (String × PyVal))
    (condition_expression : Option String)
    (extra_names : List (String × String))
    (extra_values : List (String × PyVal)) (return_values : Option String) :
    Except Err (UpdateReq α) :=
  match to_key m serAttr pk sk with
  | .error e => .error e
  | .ok key =>
      match updateCore m serAttr updates [] [] [] [] with
      | .error e => .error e
      | .ok (update_names, update_values, set_parts, remove_parts) =>
          let expr_parts :=
            (if set_parts.isEmpty then [] else ["SET " ++ joinSep ", " set_parts]) ++
            (if remove_parts.isEmpty then []
             else ["REMOVE " ++ joinSep ", " remove_parts])
          if expr_parts.isEmpty then .error (.validation "no updates provided")
          else
            match mergeChecked nameCollision update_names extra_names with
            | .error e => .error e
            | .ok names1 =>
                match mergeChecked valueCollision update_values
                    (serialize_values ser extra_values) with
                | .error e => .error e
                | .ok values1 =>
                    .ok { table_name := table_name, key := key,
                          update_expression := joinSep " " expr_parts,
                          names := names1,
                          values :=
                            (if update_values.isEmpty && extra_values.isEmpty
                             then Option.none else some values1),
                          return_values := return_values,
                          condition_expression :=
                            (match condition_expression with
                             | some c => if c = "" then Option.none else some c
                             | Option.none => Option.none) }

/-! ## `UpdateBuilder._build_request` and `_build_condition_term` -/

/-- The recorded update operations of `UpdateBuilder` (the `(kind, args)`
tuples appended by `set`, `add`, `remove`, …). -/
inductive UpdateOp where
  | set (field : String) (value : PyVal)
  | set_if_not_exists (field : String) (default_value : PyVal)
  | add (field : String) (value : PyVal)
  | remove (field : String)
  | delete (field : String) (value : PyVal)
  | append_list (field : String) (values : PyVal)
  | prepend_list (field : String) (values : PyVal)
  | remove_list_at (field : String) (index : Int)
  | set_list_element (field : String) (index : Int) (value : PyVal)

/-- The field an update operation targets. -/
def UpdateOp.fieldName : UpdateOp → String
  | .set f _ => f
  | .set_if_not_exists f _ => f
  | .add f _ => f
  | .remove f => f
  | .delete f _ => f
  | .append_list f _ => f
  | .prepend_list f _ => f
  | .remove_list_at f _ => f
  | .set_list_element f _ _ => f

/-- The mutable builder state of `UpdateBuilder._build_request`. -/
structure BState (α : Type) where
  names : List (String × String) := []
  update_values : List (String × α) := []
  set_parts : List String := []
  remove_parts : List String := []
  add_parts : List String := []
  delete_parts : List String := []
  update_counter : Nat := 0

/-- `update_name_ref` (table.py 1235-1247): unknown fields and key fields
are rejected; `names.setdefault` keeps an existing binding. -/
def update_name_ref (m : ModelDefinition) (names : List (String × String))
    (fname : String) :
    Except Err (String × AttributeDefinition × List (String × String)) :=
  match dictGet m.attributes fname with
  | Option.none => .error (.validation ("unknown field: " ++ fname))
  | some ad =>
      if isKeyField m fname then
        .error (.validation ("cannot update key field: " ++ fname))
      else
        let ref := "#u_" ++ fname
        .ok (ref, ad,
             if dictHas names ref then names
             else dictSet names ref ad.attribute_name)

/-- `condition_name_ref` (encrypted fields cannot appear in conditions). -/
def condition_name_ref (m : ModelDefinition) (names : List (String × String))
    (fname : String) :
    Except Err (String × AttributeDefinition × List (String × String)) :=
  match dictGet m.attributes fname with
  | Option.none => .error (.validation ("unknown field: " ++ fname))
  | some ad =>
      if ad.encrypted then
        .error (.validation ("encrypted fields cannot be used in conditions: " ++ fname))
      else
        let ref := "#c_" ++ fname
        .ok (ref, ad,
             if dictHas names ref then names
             else dictSet names ref ad.attribute_name)

/-- `update_value_ref`: a fresh `:u{n}` placeholder (no collision check;
the counter keeps the generated keys distinct). -/
def update_value_ref {α : Type} (serAttr : AttributeDefinition → PyVal → α)
    (ad : AttributeDefinition) (v : PyVal) (uv : List (String × α)) (uc : Nat) :
    String × List (String × α) × Nat :=
  let c := uc + 1
  let ref := ":u" ++ toString c
  (ref, dictSet uv ref (serAttr ad v), c)

/-- `raw_value_ref`: a fresh `:u{n}` placeholder serialized with the raw
serializer. -/
def raw_value_ref {α : Type} (ser : PyVal → α) (v : PyVal)
    (uv : List (String × α)) (uc : Nat) : String × List (String × α) × Nat :=
  let c := uc + 1
  let ref := ":u" ++ toString c
  (ref, dictSet uv ref (ser v), c)

/-- `condition_value_ref`: a fresh `:c{n}` placeholder. -/
def condition_value_ref {α : Type} (serAttr : AttributeDefinition → PyVal → α)
    (ad : AttributeDefinition) (v : PyVal) (cv : List (String × α)) (cc : Nat) :
    String × List (String × α) × Nat :=
  let c := cc + 1
  let ref := ":c" ++ toString c
  (ref, dictSet cv ref (serAttr ad v), c)

/-- `condition_value_ref` folded over a list (BETWEEN and IN). -/
def condition_value_refs {α : Type} (serAttr : AttributeDefinition → PyVal → α)
    (ad : AttributeDefinition) :
    List PyVal → List (String × α) → Nat →
    List String × List (String × α) × Nat
  | [], cv, cc => ([], cv, cc)
  | v :: rest, cv, cc =>
      let (r, cv1, cc1) := condition_value_ref serAttr ad v cv cc
      let (rs, cv2, cc2) := condition_value_refs serAttr ad rest cv1 cc1
      (r :: rs, cv2, cc2)

/-- `normalize_set`: sets pass through, lists/tuples are converted, a
scalar becomes a singleton set. Python's `set()` also deduplicates; the
duplicates are irrelevant here because serialization is abstract. -/
def normalize_set : PyVal → PyVal
  | .set xs => .set xs
  | .list xs => .set xs
  | .tuple xs => .set xs
  | v => .set [v]

/-- `isinstance(value, (int, float, Decimal))` for the modelled values
(Python `bool` is an `int`; floats and Decimals are not modelled). -/
def pyIsNumeric : PyVal → Bool
  | .int _ => true
  | .bool _ => true
  | _ => false

/-- One step of the update-operation loop of
`UpdateBuilder._build_request` (table.py 1289-1374). -/
def buildOp {α : Type} (m : ModelDefinition) (ser : PyVal → α)
    (serAttr : AttributeDefinition → PyVal → α) (op : UpdateOp)
    (st : BState α) : Except Err (BState α) :=
  match op with
  | .set fname value =>
      match update_name_ref m st.names fname with
      | .error e => .error e
      | .ok (ref, ad, names1) =>
          let (vref, uv1, uc1) :=
            update_value_ref serAttr ad value st.update_values st.update_counter
          .ok { st with names := names1, update_values := uv1,
                        update_counter := uc1,
                        set_parts := st.set_parts ++ [ref ++ " = " ++ vref] }
  | .set_if_not_exists fname dv =>
      match update_name_ref m st.names fname with
      | .error e => .error e
      | .ok (ref, ad, names1) =>
          let (vref, uv1, uc1) :=
            update_value_ref serAttr ad dv st.update_values st.update_counter
          .ok { st with names := names1, update_values := uv1,
                        update_counter := uc1,
                        set_parts := st.set_parts ++
                          [ref ++ " = if_not_exists(" ++ ref ++ ", " ++ vref ++ ")"] }
  | .remove fname =>
      match update_name_ref m st.names fname with
      | .error e => .error e
      | .ok (ref, _, names1) =>
          .ok { st with names := names1,
                        remove_parts := st.remove_parts ++ [ref] }
  | .add fname value =>
      match update_name_ref m st.names fname with
      | .error e => .error e
      | .ok (ref, ad, names1) =>
          if ad.encrypted then
            .error (.validation ("encrypted fields cannot be used in ADD: " ++ fname))
          else if ad.set then
            let (vref, uv1, uc1) :=
              update_value_ref serAttr ad (normalize_set value)
                st.update_values st.update_counter
            .ok { st with names := names1, update_values := uv1,
                          update_counter := uc1,
                          add_parts := st.add_parts ++ [ref ++ " " ++ vref] }
          else if !(pyIsNumeric value) then
            .error (.validation "ADD requires a numeric value for non-set fields")
          else
            let (vref, uv1, uc1) :=
              raw_value_ref ser value st.update_values st.update_counter
            .ok { st with names := names1, update_values := uv1,
                          update_counter := uc1,
                          add_parts := st.add_parts ++ [ref ++ " " ++ vref] }
  | .delete fname value =>
      match update_name_ref m st.names fname with
      | .error e => .error e
      | .ok (ref, ad, names1) =>
          if ad.encrypted then
            .error (.validation ("encrypted fields cannot be used in DELETE: " ++ fname))
          else if !ad.set then
            .error (.validation "DELETE requires a set field")
          else
            let (vref, uv1, uc1) :=
              update_value_ref serAttr ad (normalize_set value)
                st.update_values st.update_counter
            .ok { st with names := names1, update_values := uv1,
                          update_counter := uc1,
                          delete_parts := st.delete_parts ++ [ref ++ " " ++ vref] }
  | .append_list fname values =>
      match update_name_ref m st.names fname with
      | .error e => .error e
      | .ok (ref, ad, names1) =>
          if ad.encrypted then
            .error (.validation
              ("encrypted fields cannot be used in list operations: " ++ fname))
          else if ad.set || ad.json || ad.binary then
            .error (.validation "list operations require a plain list attribute")
          else
            match values with
            | .list xs =>
                let (vref, uv1, uc1) :=
                  raw_value_ref ser (.list xs) st.update_values st.update_counter
                .ok { st with names := names1, update_values := uv1,
                              update_counter := uc1,
                              set_parts := st.set_parts ++
                                [ref ++ " = list_append(" ++ ref ++ ", " ++ vref ++ ")"] }
            | _ => .error (.validation "list operations require list values")
  | .prepend_list fname values =>
      match update_name_ref m st.names fname with
      | .error e => .error e
      | .ok (ref, ad, names1) =>
          if ad.encrypted then
            .error (.validation
              ("encrypted fields cannot be used in list operations: " ++ fname))
          else if ad.set || ad.json || ad.binary then
            .error (.validation "list operations require a plain list attribute")
          else
            match values with
            | .list xs =>
                let (vref, uv1, uc1) :=
                  raw_value_ref ser (.list xs) st.update_values st.update_counter
                .ok { st with names := names1, update_values := uv1,
                              update_counter := uc1,
                              set_parts := st.set_parts ++
                                [ref ++ " = list_append(" ++ vref ++ ", " ++ ref ++ ")"] }
            | _ => .error (.validation "list operations require list values")
  | .remove_list_at fname index =>
      match update_name_ref m st.names fname with
      | .error e => .error e
      | .ok (ref, ad, names1) =>
          if ad.encrypted then
            .error (.validation
              ("encrypted fields cannot be used in list operations: " ++ fname))
          else if ad.set || ad.json || ad.binary then
            .error (.validation "list operations require a plain list attribute")
          else if index < 0 then
            .error (.validation "list index must be a non-negative integer")
          else
            .ok { st with names := names1,
                          remove_parts := st.remove_parts ++
                            [ref ++ "[" ++ toString index.toNat ++ "]"] }
  | .set_list_element fname index value =>
      match update_name_ref m st.names fname with
      | .error e => .error e
      | .ok (ref, ad, names1) =>
          if ad.encrypted then
            .error (.validation
              ("encrypted fields cannot be used in list operations: " ++ fname))
          else if ad.set || ad.json || ad.binary then
            .error (.validation "list operations require a plain list attribute")
          else if index < 0 then
            .error (.validation "list index must be a non-negative integer")
          else
            let (vref, uv1, uc1) :=
              raw_value_ref ser value st.update_values st.update_counter
            .ok { st with names := names1, update_values := uv1,
                          update_counter := uc1,
                          set_parts := st.set_parts ++
                            [ref ++ "[" ++ toString index.toNat ++ "] = " ++ vref] }

/-- The update-operation loop of `UpdateBuilder._build_request`. -/
def buildOps {α : Type} (m : ModelDefinition) (ser : PyVal → α)
    (serAttr : AttributeDefinition → PyVal → α) :
    List UpdateOp → BState α → Except Err (BState α)
  | [], st => .ok st
  | op :: rest, st =>
      match buildOp m ser serAttr op st with
      | .error e => .error e
      | .ok st1 => buildOps m ser serAttr rest st1

/-- `_build_condition_term` (table.py 1429-1485). A `None` value is
`PyVal.none`; `str(operator or "").strip().upper()` is modelled with the
ASCII trim/upper helpers. -/
def build_condition_term {α : Type} (serAttr : AttributeDefinition → PyVal → α)
    (name_ref : String) (ad : AttributeDefinition) (operator : String)
    (value : PyVal) (cv : List (String × α)) (cc : Nat) :
    Except Err (String × List (String × α) × Nat) :=
  let op := strUpper (strTrim operator)
  if op = "ATTRIBUTE_EXISTS" ∨ op = "EXISTS" then
    if !(pyIsNone value) then .error (.validation "EXISTS does not take a value")
    else .ok ("attribute_exists(" ++ name_ref ++ ")", cv, cc)
  else if op = "ATTRIBUTE_NOT_EXISTS" ∨ op = "NOT_EXISTS" then
    if !(pyIsNone value) then
      .error (.validation "NOT_EXISTS does not take a value")
    else .ok ("attribute_not_exists(" ++ name_ref ++ ")", cv, cc)
  else if op = "=" ∨ op = "EQ" then
    if pyIsNone value then .error (.validation (operator ++ " requires one value"))
    else
      let (r, cv1, cc1) := condition_value_ref serAttr ad value cv cc
      .ok (name_ref ++ " = " ++ r, cv1, cc1)
  else if op = "!=" ∨ op = "<>" ∨ op = "NE" then
    if pyIsNone value then .error (.validation (operator ++ " requires one value"))
    else
      let (r, cv1, cc1) := condition_value_ref serAttr ad value cv cc
      .ok (name_ref ++ " <> " ++ r, cv1, cc1)
  else if op = "<" ∨ op = "LT" then
    if pyIsNone value then .error (.validation (operator ++ " requires one value"))
    else
      let (r, cv1, cc1) := condition_value_ref serAttr ad value cv cc
      .ok (name_ref ++ " < " ++ r, cv1, cc1)
  else if op = "<=" ∨ op = "LE" then
    if pyIsNone value then .error (.validation (operator ++ " requires one value"))
    else
      let (r, cv1, cc1) := condition_value_ref serAttr ad value cv cc
      .ok (name_ref ++ " <= " ++ r, cv1, cc1)
  else if op = ">" ∨ op = "GT" then
    if pyIsNone value then .error (.validation (operator ++ " requires one value"))
    else
      let (r, cv1, cc1) := condition_value_ref serAttr ad value cv cc
      .ok (name_ref ++ " > " ++ r, cv1, cc1)
  else if op = ">=" ∨ op = "GE" then
    if pyIsNone value then .error (.validation (operator ++ " requires one value"))
    else
      let (r, cv1, cc1) := condition_value_ref serAttr ad value cv cc
      .ok (name_ref ++ " >= " ++ r, cv1, cc1)
  else if op = "BETWEEN" then
    match value with
    | .list [lo, hi] =>
        let (l, cv1, cc1) := condition_value_ref serAttr ad lo cv cc
        let (r, cv2, cc2) := condition_value_ref serAttr ad hi cv1 cc1
        .ok (name_ref ++ " BETWEEN " ++ l ++ " AND " ++ r, cv2, cc2)
    | .tuple [lo, hi] =>
        let (l, cv1, cc1) := condition_value_ref serAttr ad lo cv cc
        let (r, cv2, cc2) := condition_value_ref serAttr ad hi cv1 cc1
        .ok (name_ref ++ " BETWEEN " ++ l ++ " AND " ++ r, cv2, cc2)
    | _ => .error (.validation "BETWEEN requires two values")
  else if op = "IN" then
    match value with
    | .list xs =>
        if 100 < xs.length then
          .error (.validation "IN supports maximum 100 values")
        else
          let (rs, cv1, cc1) := condition_value_refs serAttr ad xs cv cc
          .ok (name_ref ++ " IN (" ++ joinSep ", " rs ++ ")", cv1, cc1)
    | .tuple xs =>
        if 100 < xs.length then
          .error (.validation "IN supports maximum 100 values")
        else
          let (rs, cv1, cc1) := condition_value_refs serAttr ad xs cv cc
          .ok (name_ref ++ " IN (" ++ joinSep ", " rs ++ ")", cv1, cc1)
    | _ => .error (.validation "IN requires a sequence of values")
  else if op = "BEGINS_WITH" then
    if pyIsNone value then .error (.validation (operator ++ " requires one value"))
    else
      let (r, cv1, cc1) := condition_value_ref serAttr ad value cv cc
      .ok ("begins_with(" ++ name_ref ++ ", " ++ r ++ ")", cv1, cc1)
  else if op = "CONTAINS" then
    if pyIsNone value then .error (.validation (operator ++ " requires one value"))
    else
      let (r, cv1, cc1) := condition_value_ref serAttr ad value cv cc
      .ok ("contains(" ++ name_ref ++ ", " ++ r ++ ")", cv1, cc1)
  else .error (.validation ("unsupported condition operator: " ++ operator))

/-- The condition loop of `UpdateBuilder._build_request` (1390-1409):
collects rendered terms and, from the second term on, the joining logical
operator of each condition. -/
def buildConds {α : Type} (m : ModelDefinition)
    (serAttr : AttributeDefinition → PyVal → α) :
    List (String × String × String × PyVal) → List (String × String) →
    List (String × α) → Nat → List String → List String →
    Except Err (List (String × String) × List (String × α) × Nat ×
                List String × List String)
  | [], names, cv, cc, parts, lops => .ok (names, cv, cc, parts, lops)
  | (logic, fname, operator, value) :: rest, names, cv, cc, parts, lops =>
      match condition_name_ref m names fname with
      | .error e => .error e
      | .ok (ref, ad, names1) =>
          match build_condition_term serAttr ref ad operator value cv cc with
          | .error e => .error e
          | .ok (term, cv1, cc1) =>
              let parts1 := parts ++ [term]
              let lops1 := if 1 < parts1.length then lops ++ [logic] else lops
              buildConds m serAttr rest names1 cv1 cc1 parts1 lops1

/-- The final condition-expression join: `out += f" {ops[i-1]} {parts[i]}"`. -/
def joinCondsGo (acc : String) : List String → List String → String
  | [], _ => acc
  | p :: ps, l :: ls => joinCondsGo (acc ++ " " ++ l ++ " " ++ p) ps ls
  | p :: ps, [] => joinCondsGo (acc ++ " " ++ p) ps []

/-- Joins the condition parts with their logical operators. -/
def joinConds : List String → List String → String
  | [], _ => ""
  | p :: ps, lops => joinCondsGo p ps lops

/-- Python `dict.update` on the association-list model. -/
def dictUpdate {β : Type} (base : List (String × β)) :
    List (String × β) → List (String × β)
  | [] => base
  | (k, v) :: rest => dictUpdate (dictSet base k v) rest

/-- `UpdateBuilder._build_request` (table.py 1221-1426). -/
def builder_build_request {α : Type} (m : ModelDefinition) (ser : PyVal → α)
    (serAttr : AttributeDefinition → PyVal → α) (table_name : String)
    (pk sk : PyVal) (ops : List UpdateOp)
    (conditions : List (String × String × String × PyVal))
    (return_values : String) : Except Err (UpdateReq α) :=
  match to_key m serAttr pk sk with
  | .error e => .error e
  | .ok key =>
      match buildOps m ser serAttr ops {} with
      | .error e => .error e
      | .ok st =>
          let expr_parts :=
            (if st.set_parts.isEmpty then []
             else ["SET " ++ joinSep ", " st.set_parts]) ++
            (if st.remove_parts.isEmpty then []
             else ["REMOVE " ++ joinSep ", " st.remove_parts]) ++
            (if st.add_parts.isEmpty then []
             else ["ADD " ++ joinSep ", " st.add_parts]) ++
            (if st.delete_parts.isEmpty then []
             else ["DELETE " ++ joinSep ", " st.delete_parts])
          let update_expr := joinSep " " expr_parts
          if update_expr = "" then .error (.validation "no updates provided")
          else
            match
              (if conditions.isEmpty then
                .ok (st.names, ([] : List (String × α)), (Option.none : Option String))
               else
                (buildConds m serAttr conditions st.names [] 0 [] []).map
                  (fun (names1, cv, _, parts, lops) =>
                    (names1, cv, some (joinConds parts lops)))) with
            | .error e => .error e
            | .ok (names1, cvalues, condExpr) =>
                let merged := dictUpdate st.update_values cvalues
                .ok { table_name := table_name, key := key,
                      update_expression := update_expr, names := names1,
                      values :=
                        (if merged.isEmpty then Option.none else some merged),
                      return_values := some return_values,
                      condition_expression := condExpr }

/-! ## `Table.query` / `Table.scan` request assembly

`query_request`/`scan_request` model everything `Table.query`/`Table.scan`
do strictly before `self._client.query(**req)` / `self._client.scan(**req)`:
an `.error` result means the operation raises with no request sent. -/

/-- `limit is not None and limit <= 0`. -/
def limitNonPos : Option Int → Bool
  | some l => l ≤ 0
  | Option.none => false

/-- The cursor block of `Table.query` (lines 201-211): decode, check the
producing index and direction, and extract the exclusive start key. -/
def cursorStageQuery (index_name : Option String) (scan_forward : Bool) :
    Option String → Except Err (Option Attr)
  | Option.none => .ok Option.none
  | some s =>
      match decode_cursor s with
      | Option.none => .error (.validation "invalid cursor")
      | some d =>
          if d.index.isSome ∧ d.index ≠ index_name then
            .error (.validation "cursor index does not match query")
          else
            let expected := if scan_forward then "ASC" else "DESC"
            if d.sort.isSome ∧ d.sort ≠ some expected then
              .error (.validation "cursor sort does not match query")
            else .ok (some d.last_key)

/-- The cursor block of `Table.scan` (lines 321-328): the index is
checked, the direction is not. -/
def cursorStageScan (index_name : Option String) :
    Option String → Except Err (Option Attr)
  | Option.none => .ok Option.none
  | some s =>
      match decode_cursor s with
      | Option.none => .error (.validation "invalid cursor")
      | some d =>
          if d.index.isSome ∧ d.index ≠ index_name then
            .error (.validation "cursor index does not match scan")
          else .ok (some d.last_key)

/-- The stages of `Table.query` that run before the cursor block: index
resolution, the GSI/consistent-read check, the partition/limit checks and
the key-condition (sort) assembly. -/
def queryPre {α : Type} (m : ModelDefinition) (ser : PyVal → α)
    (partition : PyVal) (sort : Option SortKeyCondition)
    (index_name : Option String) (limit : Option Int)
    (consistent_read : Bool) :
    Except Err (String × List (String × String) × List (String × α)) :=
  match resolve_index m index_name with
  | .error e => .error e
  | .ok (partition_attr, sort_attr, index_type) =>
      if index_type = "GSI" && consistent_read then
        .error (.validation "consistent_read is not supported for GSIs")
      else if pyIsNone partition then .error (.validation "partition is required")
      else if limitNonPos limit then .error (.validation "limit must be > 0")
      else
        let names := [("#pk", partition_attr)]
        let values := [(":pk", ser partition)]
        match sort with
        | Option.none => .ok ("#pk = :pk", names, values)
        | some cond =>
            match sort_attr with
            | Option.none =>
                .error (.validation "model/index does not define a sort key")
            | some sa =>
                match apply_sort_condition ser "#pk = :pk" cond values with
                | .error e => .error e
                | .ok (key_expr, values1) =>
                    .ok (key_expr, dictSet names "#sk" sa, values1)

/-- The request `Table.query` hands to the store client. -/
structure QueryReq (α : Type) where
  table_name : String
  key_condition_expression : String
  expression_attribute_names : List (String × String)
  expression_attribute_values : List (String × α)
  scan_index_forward : Bool
  consistent_read : Bool
  index_name : Option String
  limit : Option Int
  exclusive_start_key : Option Attr
  projection_expression : Option String
  filter_expression : Option String

/-- `Table.query` up to (and excluding) the client call. -/
def query_request {α : Type} (m : ModelDefinition) (ser : PyVal → α)
    (serAttr : AttributeDefinition → PyVal → α) (table_name : String)
    (partition : PyVal) (sort : Option SortKeyCondition)
    (index_name : Option String) (limit : Option Int) (cursor : Option String)
    (scan_forward consistent_read : Bool) (projection : Option (List String))
    (filter : Option FilterExpr) : Except Err (QueryReq α) :=
  match queryPre m ser partition sort index_name limit consistent_read with
  | .error e => .error e
  | .ok (key_expr, names, values) =>
      match cursorStageQuery index_name scan_forward cursor with
      | .error e => .error e
      | .ok esk =>
          match
            (match projection with
             | Option.none => Except.ok ((Option.none : Option String), names)
             | some p =>
                 (projection_expression m p names).map (fun (s, n) => (some s, n))) with
          | .error e => .error e
          | .ok (projExpr, names1) =>
              match
                (match filter with
                 | Option.none =>
                     Except.ok ((Option.none : Option String), names1, values)
                 | some f =>
                     (filter_expression m serAttr f names1 values).map
                       (fun (s, n, v) => (some s, n, v))) with
              | .error e => .error e
              | .ok (filtExpr, names2, values2) =>
                  .ok { table_name := table_name,
                        key_condition_expression := key_expr,
                        expression_attribute_names := names2,
                        expression_attribute_values := values2,
                        scan_index_forward := scan_forward,
                        consistent_read := consistent_read,
                        index_name := index_name, limit := limit,
                        exclusive_start_key := esk,
                        projection_expression := projExpr,
                        filter_expression := filtExpr }

/-- The stages of `Table.scan` before the cursor block. -/
def scanPre (m : ModelDefinition) (index_name : Option String)
    (limit : Option Int) (consistent_read : Bool) : Except Err Unit :=
  match resolve_index m index_name with
  | .error e => .error e
  | .ok (_, _, index_type) =>
      if index_type = "GSI" && consistent_read then
        .error (.validation "consistent_read is not supported for GSIs")
      else if limitNonPos limit then .error (.validation "limit must be > 0")
      else .ok ()

/-- The request `Table.scan` hands to the store client; the names/values
maps are attached only when nonempty, as in the source. -/
structure ScanReq (α : Type) where
  table_name : String
  consistent_read : Bool
  index_name : Option String
  limit : Option Int
  exclusive_start_key : Option Attr
  projection_expression : Option String
  filter_expression : Option String
  segment : Option Int
  total_segments : Option Int
  expression_attribute_names : Option (List (String × String))
  expression_attribute_values : Option (List (String × α))

/-- `Table.scan` up to (and excluding) the client call. -/
def scan_request {α : Type} (m : ModelDefinition)
    (serAttr : AttributeDefinition → PyVal → α) (table_name : String)
    (index_name : Option String) (limit : Option Int) (cursor : Option String)
    (consistent_read : Bool) (projection : Option (List String))
    (filter : Option FilterExpr) (segment total_segments : Option Int) :
    Except Err (ScanReq α) :=
  match scanPre m index_name limit consistent_read with
  | .error e => .error e
  | .ok _ =>
      match cursorStageScan index_name cursor with
      | .error e => .error e
      | .ok esk =>
          match
            (match projection with
             | Option.none =>
                 Except.ok ((Option.none : Option String),
                            ([] : List (String × String)))
             | some p =>
                 (projection_expression m p []).map (fun (s, n) => (some s, n))) with
          | .error e => .error e
          | .ok (projExpr, names1) =>
              match
                (match filter with
                 | Option.none =>
                     Except.ok ((Option.none : Option String), names1,
                                ([] : List (String × α)))
                 | some f =>
                     (filter_expression m serAttr f names1 []).map
                       (fun (s, n, v) => (some s, n, v))) with
              | .error e => .error e
              | .ok (filtExpr, names2, values2) =>
                  if segment.isSome ≠ total_segments.isSome then
                    .error (.validation
                      "segment and total_segments must be provided together")
                  else
                    match segment, total_segments with
                    | some sg, some ts =>
                        if sg < 0 ∨ ts ≤ 0 ∨ ts ≤ sg then
                          .error (.validation "invalid segment/total_segments")
                        else
                          .ok { table_name := table_name,
                                consistent_read := consistent_read,
                                index_name := index_name, limit := limit,
                                exclusive_start_key := esk,
                                projection_expression := projExpr,
                                filter_expression := filtExpr,
                                segment := some sg, total_segments := some ts,
                                expression_attribute_names :=
                                  (if names2.isEmpty then Option.none
                                   else some names2),
                                expression_attribute_values :=
                                  (if values2.isEmpty then Option.none
                                   else some values2) }
                    | _, _ =>
                        .ok { table_name := table_name,
                              consistent_read := consistent_read,
                              index_name := index_name, limit := limit,
                              exclusive_start_key := esk,
                              projection_expression := projExpr,
                              filter_expression := filtExpr,
                              segment := Option.none,
                              total_segments := Option.none,
                              expression_attribute_names :=
                                (if names2.isEmpty then Option.none
                                 else some names2),
                              expression_attribute_values :=
                                (if values2.isEmpty then Option.none
                                 else some values2) }

/-! ## `Table.transact_write`, the retry loops and the batch loops -/

/-- `Table.transact_write` (lines 588-657). Building the per-action
`TransactItems` payloads delegates to `_to_item`/`_to_key`/
`_build_update_request` (modelled above); `actions` here stands for the
already-built payload list and `send` for the
`transact_write_items` client call, whose `ClientError` is normalized by
`_map_transaction_error`. -/
def transact_write (actions : List PyVal)
    (send : List PyVal → Except ClientErrorResp Unit) : Except Err Unit :=
  if actions.isEmpty then .error (.validation "actions is required")
  else if 100 < actions.length then
    .error (.validation "a transaction supports at most 100 actions")
  else
    match send actions with
    | .ok _ => .ok ()
    | .error e => .error (map_transaction_error e)

/-- A result page (`Page` from `query.py`). -/
structure PageR (τ : Type) where
  items : List τ
  next_cursor : Option String

/-- The success test of one retry iteration: the `verify` predicate when
supplied, otherwise `not retry_on_empty or page.items`. -/
def retrySucceeds {τ : Type} (verify : Option (PageR τ → Bool))
    (retry_on_empty : Bool) (page : PageR τ) : Bool :=
  match verify with
  | some v => v page
  | Option.none => !retry_on_empty || !page.items.isEmpty

/-- The `for attempt in range(max_retries + 1)` loop shared by
`query_with_retry` and `scan_with_retry`. `attemptRes i` is the outcome
of the inner `self.query`/`self.scan` call on iteration `i`; the first
argument counts the iterations still to run (so `r = 0` inside the
successor case marks the `attempt == max_retries` iteration). The backoff
bookkeeping (`delay`, `sleep`) does not affect the returned value and is
omitted. -/
def retryGo {τ : Type} (attemptRes : Nat → Except Err (PageR τ))
    (verify : Option (PageR τ → Bool)) (retry_on_empty retry_on_error : Bool) :
    Nat → Nat → Option (PageR τ) → Except Err (PageR τ)
  | 0, _, last =>
      match last with
      | Option.none => .error (.validation "retry exhausted without results")
      | some p => .ok p
  | r + 1, attempt, last =>
      match attemptRes attempt with
      | .ok page =>
          if retrySucceeds verify retry_on_empty page then .ok page
          else
            retryGo attemptRes verify retry_on_empty retry_on_error r
              (attempt + 1) (some page)
      | .error e =>
          if !retry_on_error || r == 0 then .error e
          else
            retryGo attemptRes verify retry_on_empty retry_on_error r
              (attempt + 1) last

/-- `Table.query_with_retry` / `Table.scan_with_retry` (their retry loops
are identical). -/
def with_retry {τ : Type} (attemptRes : Nat → Except Err (PageR τ))
    (verify : Option (PageR τ → Bool)) (retry_on_empty retry_on_error : Bool)
    (max_retries : Int) : Except Err (PageR τ) :=
  if max_retries < 0 then .error (.validation "max_retries must be >= 0")
  else
    retryGo attemptRes verify retry_on_empty retry_on_error
      (max_retries.toNat + 1) 0 Option.none

/-- `_chunked`, fuelled by the list length for structural recursion. -/
def chunkedGo {β : Type} : Nat → List β → Nat → List (List β)
  | 0, _, _ => []
  | _, [], _ => []
  | fuel + 1, xs, size => xs.take size :: chunkedGo fuel (xs.drop size) size

/-- `_chunked(items, size)` for `size > 0` (`batch_get` uses 100,
`batch_write` uses 25). -/
def chunked {β : Type} (xs : List β) (size : Nat) : List (List β) :=
  chunkedGo xs.length xs size

/-- Sequential fallible map (a Python loop that may raise). -/
def mapExcept {β γ : Type} (f : β → Except Err γ) :
    List β → Except Err (List γ)
  | [] => .ok []
  | x :: xs =>
      match f x with
      | .error e => .error e
      | .ok y =>
          match mapExcept f xs with
          | .error e => .error e
          | .ok ys => .ok (y :: ys)

/-- The key normalization of `batch_get`/`batch_write` deletes: pk-only
models accept a bare key or `(pk, None)`; composite models require a
`(pk, sk)` tuple. `None` is `PyVal.none`. -/
def normalizeKey (m : ModelDefinition) (key : PyVal) :
    Except Err (PyVal × PyVal) :=
  match m.sk with
  | Option.none =>
      match key with
      | .tuple [pk, sk] =>
          if pyIsNone sk then .ok (pk, PyVal.none)
          else .error (.validation "sk must be None for pk-only models")
      | .tuple _ =>
          .error (.validation "expected key tuple (pk, None) for pk-only models")
      | k => .ok (k, PyVal.none)
  | some _ =>
      match key with
      | .tuple [pk, sk] => .ok (pk, sk)
      | _ => .error (.validation "expected key tuple (pk, sk)")

/-- The `while pending:` retry loop shared by `batch_get` (`κ` = key
maps, `ω` = the per-call `Responses` list) and `batch_write` (`κ` = write
requests, `ω` = `Unit`). `store pending` models one client call: the
per-call payload and the reported unprocessed keys/items. The first
`Nat` is the remaining retry budget (`max_retries - attempts`).
Returns the outcome, the sizes of the client calls made, and the number
of backoff sleeps performed (each guarded by `sleep is not None` in the
source; counted here as the backoff invocations of a supplied sleep). -/
def batchLoopGo {κ ω : Type} (store : List κ → ω × List κ) (opName : String) :
    Nat → List κ → Except Err (List ω) × List Nat × Nat
  | r, pending =>
      if pending.isEmpty then (.ok [], [], 0)
      else
        let (resp, unproc) := store pending
        if unproc.isEmpty then (.ok [resp], [pending.length], 0)
        else
          match r with
          | 0 =>
              (.error (.batchRetryExceeded opName unproc.length),
               [pending.length], 0)
          | r' + 1 =>
              match batchLoopGo store opName r' unproc with
              | (res, calls, sleeps) =>
                  (res.map (fun rs => resp :: rs), pending.length :: calls,
                   sleeps + 1)

/-- The per-chunk loop of `batch_get` (lines 511-535): each chunk's keys
are serialized with `_to_key`, then retried until processed. The store's
`Responses` items are modelled as already-deserialized values of type `τ`
(`_from_item` and the boto3 deserializer are external collaborators). -/
def batchGetChunks {α τ : Type} (m : ModelDefinition)
    (serAttr : AttributeDefinition → PyVal → α)
    (store : List (List (String × α)) → List τ × List (List (String × α)))
    (mr : Nat) :
    List (List (PyVal × PyVal)) → Except Err (List τ) × List Nat × Nat
  | [] => (.ok [], [], 0)
  | chunk :: rest =>
      match mapExcept (fun kv => to_key m serAttr kv.1 kv.2) chunk with
      | .error e => (.error e, [], 0)
      | .ok pending =>
          match batchLoopGo store "batch_get" mr pending with
          | (.error e, calls, sleeps) => (.error e, calls, sleeps)
          | (.ok respLists, calls, sleeps) =>
              match batchGetChunks m serAttr store mr rest with
              | (res, calls1, sleeps1) =>
                  (res.map (fun out => respLists.join ++ out),
                   calls ++ calls1, sleeps + sleeps1)

/-- `Table.batch_get` (lines 470-535). `consistent_read` only decorates
the request payload and does not influence the modelled behavior. -/
def batch_get {α τ : Type} (m : ModelDefinition)
    (serAttr : AttributeDefinition → PyVal → α)
    (store : List (List (String × α)) → List τ × List (List (String × α)))
    (keys : List PyVal) (projection : Option (List String))
    (max_retries : Int) : Except Err (List τ) × List Nat × Nat :=
  if max_retries < 0 then
    (.error (.validation "max_retries must be >= 0"), [], 0)
  else if keys.isEmpty then (.ok [], [], 0)
  else
    match mapExcept (normalizeKey m) keys with
    | .error e => (.error e, [], 0)
    | .ok normalized =>
        match
          (match projection with
           | Option.none => Except.ok ()
           | some p => (projection_expression m p []).map (fun _ => ())) with
        | .error e => (.error e, [], 0)
        | .ok _ =>
            batchGetChunks m serAttr store max_retries.toNat
              (chunked normalized 100)

/-- One entry of a `batch_write` `RequestItems` payload. -/
inductive WriteReq (α : Type) where
  | put (item : List (String × α))
  | delete (key : List (String × α))

/-- The per-chunk loop of `batch_write` (lines 570-586). -/
def batchWriteChunks {α : Type}
    (store : List (WriteReq α) → List (WriteReq α)) (mr : Nat) :
    List (List (WriteReq α)) → Except Err Unit × List Nat × Nat
  | [] => (.ok (), [], 0)
  | chunk :: rest =>
      match batchLoopGo (fun reqs => ((), store reqs)) "batch_write" mr chunk with
      | (.error e, calls, sleeps) => (.error e, calls, sleeps)
      | (.ok _, calls, sleeps) =>
          match batchWriteChunks store mr rest with
          | (res, calls1, sleeps1) => (res, calls ++ calls1, sleeps + sleeps1)

/-- One put request of `batch_write`. -/
def putReq {α : Type} (m : ModelDefinition)
    (serAttr : AttributeDefinition → PyVal → α)
    (p : List (String × PyVal)) : Except Err (WriteReq α) :=
  (to_item m serAttr p).map WriteReq.put

/-- One delete request of `batch_write` (normalize, then `_to_key`). -/
def deleteReq {α : Type} (m : ModelDefinition)
    (serAttr : AttributeDefinition → PyVal → α) (k : PyVal) :
    Except Err (WriteReq α) :=
  match normalizeKey m k with
  | .error e => .error e
  | .ok (pk, sk) => (to_key m serAttr pk sk).map WriteReq.delete

/-- `Table.batch_write` (lines 537-586): put requests from `_to_item`,
delete requests from the normalized keys and `_to_key`, chunked by 25 and
retried. -/
def batch_write {α : Type} (m : ModelDefinition)
    (serAttr : AttributeDefinition → PyVal → α)
    (store : List (WriteReq α) → List (WriteReq α))
    (puts : List (List (String × PyVal))) (deletes : List PyVal)
    (max_retries : Int) : Except Err Unit × List Nat × Nat :=
  if max_retries < 0 then
    (.error (.validation "max_retries must be >= 0"), [], 0)
  else
    match mapExcept (putReq m serAttr) puts with
    | .error e => (.error e, [], 0)
    | .ok putReqs =>
        match mapExcept (deleteReq m serAttr) deletes with
        | .error e => (.error e, [], 0)
        | .ok delReqs =>
            batchWriteChunks store max_retries.toNat
              (chunked (putReqs ++ delReqs) 25)

/-! ## Concrete fixtures for witnesses and counterexamples -/

/-- A concrete partition-key attribute (`id` stored as `PK`). -/
def pkAttr : AttributeDefinition :=
  { python_name := "id", attribute_name := "PK" }

/-- A concrete plain attribute. -/
def valAttr : AttributeDefinition :=
  { python_name := "val", attribute_name := "val" }

/-- A concrete pk-only model with one GSI. -/
def tModel : ModelDefinition :=
  { pk := pkAttr,
    attributes := [("id", pkAttr), ("val", valAttr)],
    indexes := [{ name := "gsi1", partition := "GPK", sort := some "GSK",
                  type := "GSI" }],
    dataclass_fields := [{ name := "id", has_default := false },
                         { name := "val", has_default := true }] }

/-- A trivial serializer (the serialized payloads are irrelevant to the
claims, so `Unit` suffices for concrete runs). -/
def serU : PyVal → Unit := fun _ => ()

/-- A trivial `_serialize_attr_value`. -/
def serAttrU : AttributeDefinition → PyVal → Unit := fun _ _ => ()

/-! ## Claim C1 -/

/-- C1: cursor round-trip. As stated (for *every* continuation key) the
claim is false: `_dejsonify` rewrites any decoded map that is shaped like
the internal bytes tag (`obj.get("__type") == "bytes"`) into raw bytes,
so a continuation key containing such a map does not round-trip
(`c1_counterexample`). Amended: for every well-formed continuation key
(bytes < 256, map keys strictly sorted — the canonical representative of
a Python dict) none of whose maps carries the reserved `"__type"` tag,
and every index name and direction, decoding the encoded cursor yields
exactly the original triple. -/
theorem c1_cursor_round_trip (key : Attr) (index sort : Option String)
    (hw : aWF key = true) (ht : aTagFree key = true) :
    decode_cursor (encode_cursor key index sort) =
      some (Cursor.mk key index sort) :=
  decode_encode_cursor key index sort hw ht

set_option maxRecDepth 16384 in
/-- C1 counterexample: a (well-formed, sorted) continuation key that is a
map shaped like the internal bytes tag decodes to raw bytes, not to the
original map: the round trip loses it. -/
theorem c1_counterexample :
    decode_cursor (encode_cursor
        (Attr.map [("__type", Attr.str "bytes"), ("b64", Attr.str "")])
        Option.none Option.none) =
      some (Cursor.mk (Attr.bytes []) Option.none Option.none) ∧
    Attr.bytes [] ≠
      Attr.map [("__type", Attr.str "bytes"), ("b64", Attr.str "")] :=
  ⟨rfl, fun h => Attr.noConfusion h⟩

/-- C1 witness: the amended round trip at a concrete nested key. -/
theorem c1_cursor_round_trip_witness :
    aWF (Attr.map [("PK", Attr.map [("S", Attr.str "A")]),
                   ("blob", Attr.map [("B", Attr.bytes [104, 105])])]) = true ∧
    decode_cursor (encode_cursor
        (Attr.map [("PK", Attr.map [("S", Attr.str "A")]),
                   ("blob", Attr.map [("B", Attr.bytes [104, 105])])])
        (some "gsi-email") (some "ASC")) =
      some (Cursor.mk
        (Attr.map [("PK", Attr.map [("S", Attr.str "A")]),
                   ("blob", Attr.map [("B", Attr.bytes [104, 105])])])
        (some "gsi-email") (some "ASC")) :=
  ⟨by decide, c1_cursor_round_trip _ _ _ (by decide) (by decide)⟩

/-! ## Claim C2 -/

/-- C2: transaction cancellation normalization. The condition-failure
routing is as claimed, but the reason-code list is not positional:
`_map_transaction_error` keeps only reasons that are dicts with a truthy
`Code` (dropping non-failing/malformed entries instead of recording an
empty string), so the list cannot be correlated to actions by position
(`c2_counterexample`). Amended: for every transaction-canceled response,
if any kept reason code is `ConditionalCheckFailed`, or the message
contains that text, `transact_write` raises `ConditionFailedError`;
otherwise it raises `TransactionCanceledError` carrying, in order, the
codes of exactly those cancellation reasons that are dicts with a truthy
`Code`; and the error `transact_write` raises for a store error response
is `_map_transaction_error` of that response. -/
theorem c2_transaction_cancellation (resp : ClientErrorResp)
    (hcode : resp.code = "TransactionCanceledException") :
    (((resp.cancellationReasons.filterMap reasonCode).any
          (fun rc => rc = "ConditionalCheckFailed") ||
        strContains resp.message "ConditionalCheckFailed") = true →
      (map_transaction_error resp).isConditionFailed = true) ∧
    (((resp.cancellationReasons.filterMap reasonCode).any
          (fun rc => rc = "ConditionalCheckFailed") ||
        strContains resp.message "ConditionalCheckFailed") = false →
      map_transaction_error resp =
        .transactionCanceled
          (if resp.message = "" then "transaction canceled" else resp.message)
          (resp.cancellationReasons.filterMap reasonCode)) ∧
    (∀ (actions : List PyVal) (send : List PyVal → Except ClientErrorResp Unit),
      actions ≠ [] → actions.length ≤ 100 → send actions = .error resp →
      transact_write actions send = .error (map_transaction_error resp)) := by
  refine ⟨?_, ?_, ?_⟩
  · intro hcond
    unfold map_transaction_error
    rw [if_pos hcode, if_pos hcond]
    rfl
  · intro hcond
    unfold map_transaction_error
    rw [if_pos hcode, if_neg (by rw [hcond]; simp)]
  · intro actions send hne hlen hsend
    unfold transact_write
    rw [if_neg (by simp [hne]), if_neg (by omega), hsend]

/-- C2 counterexample: a canceled transaction of two actions whose first
cancellation reason is a code-less dict yields a single-entry reason-code
list — not two entries with an empty string in the non-failing slot, so
positional correlation fails. -/
theorem c2_counterexample :
    transact_write [PyVal.dict [], PyVal.dict []]
        (fun _ => .error
          { code := "TransactionCanceledException", message := "canceled",
            cancellationReasons :=
              [PyVal.dict [],
               PyVal.dict [("Code", PyVal.str "TransactionConflict")]] }) =
      .error (.transactionCanceled "canceled" ["TransactionConflict"]) ∧
    (["TransactionConflict"] : List String).length ≠
      [PyVal.dict [], PyVal.dict []].length := by
  constructor
  · rfl
  · decide

/-- C2 witness: the amended behavior at a concrete response with a
`ConditionalCheckFailed` reason. -/
theorem c2_transaction_cancellation_witness :
    (map_transaction_error
        { code := "TransactionCanceledException", message := "",
          cancellationReasons :=
            [PyVal.dict [("Code", PyVal.str "ConditionalCheckFailed")]] }).isConditionFailed =
      true :=
  (c2_transaction_cancellation _ rfl).1 rfl

/-! ## Claim C9 -/

/-- C9: retry-until-condition exhaustion. The claim is false as stated:
an exception thrown by the final attempt propagates (`attempt ==
max_retries` re-raises) even when an earlier attempt had obtained a page,
so exhaustion does not always return the last obtained page
(`c9_counterexample`); for the same reason the loop can fail even though
a page was obtained. Amended: if every attempt `0..max_retries` obtains a
page and none satisfies the success condition (the `verify` predicate if
supplied, otherwise non-emptiness under the default retry-on-empty
policy), the loop returns the page of the final attempt. -/
theorem c9_retry_returns_last_page {τ : Type}
    (attemptRes : Nat → Except Err (PageR τ))
    (verify : Option (PageR τ → Bool)) (retry_on_empty retry_on_error : Bool)
    (mr : Nat) (pages : Nat → PageR τ)
    (hok : ∀ i, i ≤ mr → attemptRes i = .ok (pages i))
    (hfail : ∀ i, i ≤ mr → retrySucceeds verify retry_on_empty (pages i) = false) :
    with_retry attemptRes verify retry_on_empty retry_on_error (mr : Int) =
      .ok (pages mr) := by
  have key : ∀ (r a : Nat) (last : Option (PageR τ)),
      (∀ i, a ≤ i → i ≤ a + r → attemptRes i = .ok (pages i)) →
      (∀ i, a ≤ i → i ≤ a + r →
        retrySucceeds verify retry_on_empty (pages i) = false) →
      retryGo attemptRes verify retry_on_empty retry_on_error (r + 1) a last =
        .ok (pages (a + r)) := by
    intro r
    induction r with
    | zero =>
        intro a last h1 h2
        rw [retryGo, h1 a (le_refl a) (by omega)]
        simp [h2 a (le_refl a) (by omega), retryGo]
    | succ r ih =>
        intro a last h1 h2
        rw [retryGo, h1 a (le_refl a) (by omega)]
        have hstep : retrySucceeds verify retry_on_empty (pages a) = false :=
          h2 a (le_refl a) (by omega)
        simp only [hstep, Bool.false_eq_true, if_false]
        rw [ih (a + 1) (some (pages a))
          (fun i hi hi2 => h1 i (by omega) (by omega))
          (fun i hi hi2 => h2 i (by omega) (by omega))]
        have harith : a + 1 + r = a + (r + 1) := by omega
        rw [harith]
  unfold with_retry
  rw [if_neg (by omega : ¬((mr : Int) < 0))]
  have htn : ((mr : Int)).toNat = mr := rfl
  rw [htn, key mr 0 Option.none (fun i _ hi => hok i (by omega))
    (fun i _ hi => hfail i (by omega))]
  simp

/-- C9 counterexample: `max_retries = 1`; attempt 0 obtains an (empty,
hence unsatisfying) page, attempt 1 raises — the error propagates instead
of the last obtained page being returned. -/
theorem c9_counterexample :
    with_retry (τ := Unit)
        (fun i => if i = 0 then .ok { items := [], next_cursor := Option.none }
                  else .error (.aws "InternalError" "boom"))
        Option.none true true 1 =
      .error (.aws "InternalError" "boom") ∧
    (fun (i : Nat) =>
        if i = 0 then
          (.ok { items := [], next_cursor := Option.none } :
            Except Err (PageR Unit))
        else .error (.aws "InternalError" "boom")) 0 =
      .ok { items := [], next_cursor := Option.none } :=
  ⟨rfl, rfl⟩

/-- C9 witness: the amended exhaustion behavior at a concrete run. -/
theorem c9_retry_returns_last_page_witness :
    with_retry (τ := Unit)
        (fun _ => .ok { items := [], next_cursor := Option.none })
        Option.none true true ((2 : Nat) : Int) =
      .ok { items := [], next_cursor := Option.none } :=
  c9_retry_returns_last_page _ Option.none true true 2
    (fun _ => { items := [], next_cursor := Option.none })
    (fun _ _ => rfl) (fun _ _ => rfl)

/-! ## Claim C4 -/

/-- C4: invalid cursor handling. For any cursor string that fails to
decode (bad base64 text, non-JSON payload, malformed structure —
`decode_cursor = none`), a query or scan call that is otherwise
well-formed (it succeeds when the cursor is omitted, so every stage
before the cursor block passes) fails with exactly the invalid-cursor
`ValidationError`; the request builder returns no request, so nothing is
sent to the store. -/
theorem c4_invalid_cursor {α : Type} (m : ModelDefinition) (ser : PyVal → α)
    (serAttr : AttributeDefinition → PyVal → α) :
    (∀ (tn : String) (partition : PyVal) (sort : Option SortKeyCondition)
        (index_name : Option String) (limit : Option Int)
        (scan_forward consistent_read : Bool)
        (projection : Option (List String)) (filter : Option FilterExpr)
        (r : QueryReq α) (s : String),
      decode_cursor s = Option.none →
      query_request m ser serAttr tn partition sort index_name limit
        Option.none scan_forward consistent_read projection filter = .ok r →
      query_request m ser serAttr tn partition sort index_name limit
        (some s) scan_forward consistent_read projection filter =
        .error (.validation "invalid cursor")) ∧
    (∀ (tn : String) (index_name : Option String) (limit : Option Int)
        (consistent_read : Bool) (projection : Option (List String))
        (filter : Option FilterExpr) (segment total_segments : Option Int)
        (r : ScanReq α) (s : String),
      decode_cursor s = Option.none →
      scan_request m serAttr tn index_name limit Option.none consistent_read
        projection filter segment total_segments = .ok r →
      scan_request m serAttr tn index_name limit (some s) consistent_read
        projection filter segment total_segments =
        .error (.validation "invalid cursor")) := by
  constructor
  · intro tn partition sort index_name limit sf cr proj filt r s hdec hok
    unfold query_request at hok ⊢
    cases hpre : queryPre m ser partition sort index_name limit cr with
    | error e =>
        simp only [hpre] at hok
        exact Except.noConfusion hok
    | ok pre =>
        obtain ⟨ke, ns, vs⟩ := pre
        simp only [hpre, cursorStageQuery, hdec]
  · intro tn index_name limit cr proj filt seg tseg r s hdec hok
    unfold scan_request at hok ⊢
    cases hpre : scanPre m index_name limit cr with
    | error e =>
        simp only [hpre] at hok
        exact Except.noConfusion hok
    | ok u =>
        simp only [hpre, cursorStageScan, hdec]

set_option maxRecDepth 16384 in
/-- C4 witness: a concrete non-decodable cursor string fails a concrete,
otherwise-valid query as invalid-cursor. -/
theorem c4_invalid_cursor_witness :
    query_request tModel serU serAttrU "t" (PyVal.str "p") Option.none
        Option.none Option.none (some "!!!") true false Option.none
        Option.none =
      .error (.validation "invalid cursor") :=
  (c4_invalid_cursor tModel serU serAttrU).1 "t" (PyVal.str "p") Option.none
    Option.none Option.none true false Option.none Option.none _ "!!!" rfl rfl

/-! ## Claim C3 -/

/-- C3: cursor shape binding. The claim is false as stated: the source
checks `decoded.index is not None and decoded.index != index_name` (and
likewise for the direction), so a cursor whose decoded index or direction
is `None` — e.g. one minted by `scan`, which omits the direction — is
accepted by a query/scan over *any* index or direction even though the
decoded value differs from the call's (`c3_counterexample`). Amended: for
an otherwise-valid call (it succeeds when the cursor is omitted), a
cursor that decodes with a *present* index different from the call's
index_name, or (for query, when the index check passes) with a *present*
direction different from the one implied by `scan_forward`, fails with
exactly the corresponding mismatch `ValidationError` before any request
is built. -/
theorem c3_cursor_shape_binding {α : Type} (m : ModelDefinition)
    (ser : PyVal → α) (serAttr : AttributeDefinition → PyVal → α) :
    (∀ (tn : String) (partition : PyVal) (sort : Option SortKeyCondition)
        (index_name : Option String) (limit : Option Int)
        (scan_forward consistent_read : Bool)
        (projection : Option (List String)) (filter : Option FilterExpr)
        (r : QueryReq α) (s : String) (d : Cursor) (i : String),
      decode_cursor s = some d → d.index = some i → some i ≠ index_name →
      query_request m ser serAttr tn partition sort index_name limit
        Option.none scan_forward consistent_read projection filter = .ok r →
      query_request m ser serAttr tn partition sort index_name limit
        (some s) scan_forward consistent_read projection filter =
        .error (.validation "cursor index does not match query")) ∧
    (∀ (tn : String) (partition : PyVal) (sort : Option SortKeyCondition)
        (index_name : Option String) (limit : Option Int)
        (scan_forward consistent_read : Bool)
        (projection : Option (List String)) (filter : Option FilterExpr)
        (r : QueryReq α) (s : String) (d : Cursor) (srt : String),
      decode_cursor s = some d →
      ¬(d.index.isSome ∧ d.index ≠ index_name) →
      d.sort = some srt → srt ≠ (if scan_forward then "ASC" else "DESC") →
      query_request m ser serAttr tn partition sort index_name limit
        Option.none scan_forward consistent_read projection filter = .ok r →
      query_request m ser serAttr tn partition sort index_name limit
        (some s) scan_forward consistent_read projection filter =
        .error (.validation "cursor sort does not match query")) ∧
    (∀ (tn : String) (index_name : Option String) (limit : Option Int)
        (consistent_read : Bool) (projection : Option (List String))
        (filter : Option FilterExpr) (segment total_segments : Option Int)
        (r : ScanReq α) (s : String) (d : Cursor) (i : String),
      decode_cursor s = some d → d.index = some i → some i ≠ index_name →
      scan_request m serAttr tn index_name limit Option.none consistent_read
        projection filter segment total_segments = .ok r →
      scan_request m serAttr tn index_name limit (some s) consistent_read
        projection filter segment total_segments =
        .error (.validation "cursor index does not match scan")) := by
  refine ⟨?_, ?_, ?_⟩
  · intro tn partition sort index_name limit sf cr proj filt r s d i hdec
      hidx hne hok
    unfold query_request at hok ⊢
    cases hpre : queryPre m ser partition sort index_name limit cr with
    | error e =>
        simp only [hpre] at hok
        exact Except.noConfusion hok
    | ok pre =>
        obtain ⟨ke, ns, vs⟩ := pre
        simp only [hpre, cursorStageQuery, hdec]
        rw [if_pos ⟨by rw [hidx]; rfl, by rw [hidx]; exact hne⟩]
  · intro tn partition sort index_name limit sf cr proj filt r s d srt hdec
      hno hsort hsne hok
    unfold query_request at hok ⊢
    cases hpre : queryPre m ser partition sort index_name limit cr with
    | error e =>
        simp only [hpre] at hok
        exact Except.noConfusion hok
    | ok pre =>
        obtain ⟨ke, ns, vs⟩ := pre
        simp only [hpre, cursorStageQuery, hdec]
        rw [if_neg hno,
          if_pos ⟨by rw [hsort]; rfl,
            by rw [hsort]; exact fun hc => hsne (Option.some.inj hc)⟩]
  · intro tn index_name limit cr proj filt seg tseg r s d i hdec hidx hne hok
    unfold scan_request at hok ⊢
    cases hpre : scanPre m index_name limit cr with
    | error e =>
        simp only [hpre] at hok
        exact Except.noConfusion hok
    | ok u =>
        simp only [hpre, cursorStageScan, hdec]
        rw [if_pos ⟨by rw [hidx]; rfl, by rw [hidx]; exact hne⟩]

set_option maxRecDepth 32768 in
/-- C3 counterexample: a cursor minted with no index and no direction
(as `scan` mints them) decodes with `index = None`, which differs from
the call's `index_name = "gsi1"`, yet the query builds its request
successfully — the mismatch is silently ignored. -/
theorem c3_counterexample :
    (decode_cursor (encode_cursor (Attr.map [("PK", Attr.str "a")])
          Option.none Option.none)).map Cursor.index =
      some Option.none ∧
    (∃ r, query_request tModel serU serAttrU "t" (PyVal.str "p") Option.none
        (some "gsi1") Option.none
        (some (encode_cursor (Attr.map [("PK", Attr.str "a")])
          Option.none Option.none))
        true false Option.none Option.none = .ok r) :=
  ⟨rfl, ⟨_, rfl⟩⟩

/-- C3 witness: the amended mismatch rejection at a concrete cursor
minted against `gsi1` and replayed against the base table. -/
theorem c3_cursor_shape_binding_witness :
    query_request tModel serU serAttrU "t" (PyVal.str "p") Option.none
        Option.none Option.none
        (some (encode_cursor (Attr.map [("PK", Attr.str "a")])
          (some "gsi1") (some "ASC")))
        true false Option.none Option.none =
      .error (.validation "cursor index does not match query") :=
  (c3_cursor_shape_binding tModel serU serAttrU).1 "t" (PyVal.str "p")
    Option.none Option.none Option.none true false Option.none Option.none _
    (encode_cursor (Attr.map [("PK", Attr.str "a")]) (some "gsi1") (some "ASC"))
    (Cursor.mk (Attr.map [("PK", Attr.str "a")]) (some "gsi1") (some "ASC"))
    "gsi1"
    (decode_encode_cursor (Attr.map [("PK", Attr.str "a")])
      (some "gsi1") (some "ASC") (by decide) (by decide))
    rfl (by decide) rfl

/-! ## Claim C8 -/

theorem to_key_error_validation {α : Type} (m : ModelDefinition)
    (serAttr : AttributeDefinition → PyVal → α) (pk sk : PyVal) (e : Err)
    (h : to_key m serAttr pk sk = .error e) : e.isValidation = true := by
  unfold to_key at h
  repeat' split at h
  all_goals first
    | exact Except.noConfusion h
    | (cases h; rfl)

theorem update_name_ref_error_validation (m : ModelDefinition)
    (names : List (String × String)) (fname : String) (e : Err)
    (h : update_name_ref m names fname = .error e) : e.isValidation = true := by
  unfold update_name_ref at h
  repeat' split at h
  all_goals first
    | exact Except.noConfusion h
    | (cases h; rfl)

theorem update_name_ref_keyfield (m : ModelDefinition)
    (names : List (String × String)) (fname : String)
    (hk : isKeyField m fname = true) :
    ∃ e, update_name_ref m names fname = .error e ∧ e.isValidation = true := by
  cases hd : dictGet m.attributes fname with
  | none =>
      refine ⟨.validation ("unknown field: " ++ fname), ?_, rfl⟩
      simp only [update_name_ref, hd]
  | some ad =>
      refine ⟨.validation ("cannot update key field: " ++ fname), ?_, rfl⟩
      simp only [update_name_ref, hd, hk, if_true]

theorem buildOp_error_validation {α : Type} (m : ModelDefinition)
    (ser : PyVal → α) (serAttr : AttributeDefinition → PyVal → α)
    (op : UpdateOp) (st : BState α) (e : Err)
    (h : buildOp m ser serAttr op st = .error e) : e.isValidation = true := by
  cases op <;> simp only [buildOp] at h <;> repeat' split at h
  all_goals first
    | exact Except.noConfusion h
    | (cases h; rfl)
    | (rename_i heq; cases h;
       exact update_name_ref_error_validation _ _ _ _ heq)

theorem buildOp_keyfield {α : Type} (m : ModelDefinition) (ser : PyVal → α)
    (serAttr : AttributeDefinition → PyVal → α) (op : UpdateOp) (st : BState α)
    (hk : isKeyField m op.fieldName = true) :
    ∃ e, buildOp m ser serAttr op st = .error e ∧ e.isValidation = true := by
  cases op <;>
    (simp only [UpdateOp.fieldName] at hk
     obtain ⟨e, he, hv⟩ := update_name_ref_keyfield m st.names _ hk
     refine ⟨e, ?_, hv⟩
     simp only [buildOp, he])

theorem buildOps_error_validation {α : Type} (m : ModelDefinition)
    (ser : PyVal → α) (serAttr : AttributeDefinition → PyVal → α) :
    ∀ (ops : List UpdateOp) (st : BState α) (e : Err),
      buildOps m ser serAttr ops st = .error e → e.isValidation = true := by
  intro ops
  induction ops with
  | nil => intro st e h; exact Except.noConfusion h
  | cons op0 rest ih =>
      intro st e h
      simp only [buildOps] at h
      cases hb : buildOp m ser serAttr op0 st with
      | error e1 =>
          rw [hb] at h
          cases h
          exact buildOp_error_validation _ _ _ _ _ _ hb
      | ok st1 =>
          rw [hb] at h
          exact ih st1 e h

theorem buildOps_keyfield {α : Type} (m : ModelDefinition) (ser : PyVal → α)
    (serAttr : AttributeDefinition → PyVal → α) :
    ∀ (ops : List UpdateOp) (st : BState α) (op : UpdateOp), op ∈ ops →
      isKeyField m op.fieldName = true →
      ∃ e, buildOps m ser serAttr ops st = .error e ∧ e.isValidation = true := by
  intro ops
  induction ops with
  | nil => intro st op hmem _; exact absurd hmem (List.not_mem_nil op)
  | cons op0 rest ih =>
      intro st op hmem hk
      rcases List.mem_cons.mp hmem with heq | hrest
      · subst heq
        obtain ⟨e, he, hv⟩ := buildOp_keyfield m ser serAttr op st hk
        refine ⟨e, ?_, hv⟩
        simp only [buildOps, he]
      · cases hb : buildOp m ser serAttr op0 st with
        | error e1 =>
            refine ⟨e1, ?_, buildOp_error_validation _ _ _ _ _ _ hb⟩
            simp only [buildOps, hb]
        | ok st1 =>
            obtain ⟨e, he, hv⟩ := ih st1 op hrest hk
            refine ⟨e, ?_, hv⟩
            simp only [buildOps, hb, he]

theorem updateCore_keyfield {α : Type} (m : ModelDefinition)
    (serAttr : AttributeDefinition → PyVal → α) :
    ∀ (updates : List (String × PyVal)) (names : List (String × String))
      (values : List (String × α)) (sets removes : List String)
      (fname : String) (v : PyVal), (fname, v) ∈ updates →
      isKeyField m fname = true →
      ∃ e, updateCore m serAttr updates names values sets removes = .error e ∧
        e.isValidation = true := by
  intro updates
  induction updates with
  | nil => intro _ _ _ _ fname v hmem _; exact absurd hmem (List.not_mem_nil _)
  | cons kv rest ih =>
      obtain ⟨f0, v0⟩ := kv
      intro names values sets removes fname v hmem hk
      rcases List.mem_cons.mp hmem with heq | hrest
      · obtain ⟨rfl, rfl⟩ := Prod.mk.injEq f0 v0 fname v ▸ heq.symm
        cases hd : dictGet m.attributes f0 with
        | none =>
            refine ⟨.validation ("unknown field: " ++ f0), ?_, rfl⟩
            simp only [updateCore, hd]
        | some ad =>
            refine ⟨.validation ("cannot update key field: " ++ f0), ?_, rfl⟩
            simp only [updateCore, hd, hk, if_true]
      · cases hd : dictGet m.attributes f0 with
        | none =>
            refine ⟨.validation ("unknown field: " ++ f0), ?_, rfl⟩
            simp only [updateCore, hd]
        | some ad =>
            cases hkey : isKeyField m f0 with
            | true =>
                refine ⟨.validation ("cannot update key field: " ++ f0), ?_, rfl⟩
                simp only [updateCore, hd, hkey, if_true]
            | false =>
                cases v0 <;>
                  (simp only [updateCore, hd, hkey, Bool.false_eq_true,
                     if_false]
                   exact ih _ _ _ _ fname v hrest hk)

theorem updateCore_error_validation {α : Type} (m : ModelDefinition)
    (serAttr : AttributeDefinition → PyVal → α) :
    ∀ (updates : List (String × PyVal)) (names : List (String × String))
      (values : List (String × α)) (sets removes : List String) (e : Err),
      updateCore m serAttr updates names values sets removes = .error e →
      e.isValidation = true := by
  intro updates
  induction updates with
  | nil => intro _ _ _ _ e h; exact Except.noConfusion h
  | cons kv rest ih =>
      obtain ⟨f0, v0⟩ := kv
      intro names values sets removes e h
      cases hd : dictGet m.attributes f0 with
      | none =>
          simp only [updateCore, hd] at h
          cases h; rfl
      | some ad =>
          cases hkey : isKeyField m f0 with
          | true =>
              simp only [updateCore, hd, hkey, if_true] at h
              cases h; rfl
          | false =>
              cases v0 <;>
                (simp only [updateCore, hd, hkey, Bool.false_eq_true,
                   if_false] at h
                 exact ih _ _ _ _ _ h)

/-- C8: key fields are never updatable. Both update paths — the
`updates`-mapping path used by `Table.update` and transactional updates
(`_build_update_request`), and the `UpdateBuilder` path (every recorded
operation goes through `update_name_ref`) — reject a request that
touches the partition-key field, or the sort-key field when the model
defines one, with a `ValidationError`, whatever the requested value; the
builder returns no request, so nothing is sent to the store. -/
theorem c8_key_fields_never_updatable {α : Type} (m : ModelDefinition) :
    (∀ (ser : PyVal → α) (serAttr : AttributeDefinition → PyVal → α)
        (tn : String) (pk sk : PyVal) (updates : List (String × PyVal))
        (cond : Option String) (extraN : List (String × String))
        (extraV : List (String × PyVal)) (rv : Option String)
        (fname : String) (v : PyVal),
      (fname, v) ∈ updates → isKeyField m fname = true →
      ∃ e, build_update_request m ser serAttr tn pk sk updates cond extraN
          extraV rv = .error e ∧ e.isValidation = true) ∧
    (∀ (ser : PyVal → α) (serAttr : AttributeDefinition → PyVal → α)
        (tn : String) (pk sk : PyVal) (ops : List UpdateOp)
        (conds : List (String × String × String × PyVal)) (rv : String)
        (op : UpdateOp),
      op ∈ ops → isKeyField m op.fieldName = true →
      ∃ e, builder_build_request m ser serAttr tn pk sk ops conds rv =
          .error e ∧ e.isValidation = true) := by
  constructor
  · intro ser serAttr tn pk sk updates cond extraN extraV rv fname v hmem hk
    cases hkk : to_key m serAttr pk sk with
    | error e =>
        refine ⟨e, ?_, to_key_error_validation m serAttr pk sk e hkk⟩
        simp only [build_update_request, hkk]
    | ok key =>
        obtain ⟨e, he, hv⟩ :=
          updateCore_keyfield m serAttr updates [] [] [] [] fname v hmem hk
        refine ⟨e, ?_, hv⟩
        simp only [build_update_request, hkk, he]
  · intro ser serAttr tn pk sk ops conds rv op hmem hk
    cases hkk : to_key m serAttr pk sk with
    | error e =>
        refine ⟨e, ?_, to_key_error_validation m serAttr pk sk e hkk⟩
        simp only [builder_build_request, hkk]
    | ok key =>
        obtain ⟨e, he, hv⟩ := buildOps_keyfield m ser serAttr ops {} op hmem hk
        refine ⟨e, ?_, hv⟩
        simp only [builder_build_request, hkk, he]

/-- C8 witness: updating the pk field of a concrete pk-only model fails
validation on both paths. -/
theorem c8_key_fields_never_updatable_witness :
    (∃ e, build_update_request tModel serU serAttrU "t" (PyVal.str "p")
        PyVal.none [("id", PyVal.str "x")] Option.none [] [] Option.none =
        .error e ∧ e.isValidation = true) ∧
    (∃ e, builder_build_request tModel serU serAttrU "t" (PyVal.str "p")
        PyVal.none [UpdateOp.set "id" (PyVal.str "x")] [] "NONE" =
        .error e ∧ e.isValidation = true) :=
  ⟨(c8_key_fields_never_updatable tModel).1 serU serAttrU "t" (PyVal.str "p")
      PyVal.none [("id", PyVal.str "x")] Option.none [] [] Option.none "id"
      (PyVal.str "x") (List.mem_cons_self _ _) rfl,
   (c8_key_fields_never_updatable tModel).2 serU serAttrU "t" (PyVal.str "p")
      PyVal.none [UpdateOp.set "id" (PyVal.str "x")] [] "NONE"
      (UpdateOp.set "id" (PyVal.str "x")) (List.mem_cons_self _ _) rfl⟩

/-! ## Claim C5 -/

/-- The placeholder maps never bind one key twice. -/
def keysNodup {β : Type} (kvs : List (String × β)) : Prop :=
  (kvs.map Prod.fst).Nodup

theorem keysNodup_nil {β : Type} : keysNodup ([] : List (String × β)) :=
  List.nodup_nil

theorem dictSet_keys_sub {β : Type} :
    ∀ (kvs : List (String × β)) (k : String) (v : β) (a : String),
      a ∈ (dictSet kvs k v).map Prod.fst → a = k ∨ a ∈ kvs.map Prod.fst := by
  intro kvs
  induction kvs with
  | nil =>
      intro k v a ha
      simp only [dictSet, List.map_cons, List.map_nil,
        List.mem_singleton] at ha
      exact Or.inl ha
  | cons kv rest ih =>
      obtain ⟨k0, v0⟩ := kv
      intro k v a ha
      by_cases hk : k0 = k
      · simp only [dictSet, if_pos hk, List.map_cons, List.mem_cons] at ha
        rcases ha with rfl | ha
        · exact Or.inl rfl
        · exact Or.inr (List.mem_cons.mpr (Or.inr ha))
      · simp only [dictSet, if_neg hk, List.map_cons, List.mem_cons] at ha
        rcases ha with rfl | ha
        · exact Or.inr (List.mem_cons.mpr (Or.inl rfl))
        · rcases ih k v a ha with h | h
          · exact Or.inl h
          · exact Or.inr (List.mem_cons.mpr (Or.inr h))

theorem dictSet_nodup {β : Type} :
    ∀ (kvs : List (String × β)) (k : String) (v : β),
      keysNodup kvs → keysNodup (dictSet kvs k v) := by
  intro kvs
  induction kvs with
  | nil =>
      intro k v _
      simp [keysNodup, dictSet]
  | cons kv rest ih =>
      obtain ⟨k0, v0⟩ := kv
      intro k v hnd
      simp only [keysNodup, List.map_cons, List.nodup_cons] at hnd
      obtain ⟨hnotin, hrest⟩ := hnd
      by_cases hk : k0 = k
      · subst hk
        simp only [keysNodup, dictSet, eq_self_iff_true, if_true,
          List.map_cons, List.nodup_cons]
        exact ⟨hnotin, hrest⟩
      · simp only [keysNodup, dictSet, if_neg hk, List.map_cons,
          List.nodup_cons]
        refine ⟨fun hmem => ?_, ih k v hrest⟩
        rcases dictSet_keys_sub rest k v k0 hmem with h | h
        · exact hk h
        · exact hnotin h

theorem dictHas_dictSet_mono {β : Type} :
    ∀ (kvs : List (String × β)) (k v a), dictHas kvs a = true →
      dictHas (dictSet kvs k v) a = true := by
  intro kvs
  induction kvs with
  | nil => intro k v a h; exact absurd h (by simp [dictHas, dictGet])
  | cons kv rest ih =>
      obtain ⟨k0, v0⟩ := kv
      intro k v a h
      by_cases hk : k0 = k
      · subst hk
        simp only [dictHas, dictGet] at h ⊢
        by_cases ha : k0 = a
        · simp [dictSet, if_pos rfl, dictGet, ha]
        · simp only [dictSet, if_pos rfl, dictGet, if_neg ha] at h ⊢
          exact h
      · simp only [dictHas, dictGet] at h ⊢
        by_cases ha : k0 = a
        · subst ha
          simp [dictSet, if_neg hk, dictGet]
        · simp only [dictSet, if_neg hk, dictGet, if_neg ha] at h ⊢
          exact ih k v a h

theorem mergeChecked_nodup {β : Type} (msg : String → Err) :
    ∀ (extras base out : List (String × β)), keysNodup base →
      mergeChecked msg base extras = .ok out → keysNodup out := by
  intro extras
  induction extras with
  | nil =>
      intro base out hb h
      simp only [mergeChecked] at h
      cases h
      exact hb
  | cons kv rest ih =>
      obtain ⟨k, v⟩ := kv
      intro base out hb h
      simp only [mergeChecked] at h
      split at h
      · exact Except.noConfusion h
      · exact ih (dictSet base k v) out (dictSet_nodup base k v hb) h

theorem mergeChecked_collision {β : Type} (msg : String → Err) :
    ∀ (extras base : List (String × β)) (k : String) (v : β),
      (k, v) ∈ extras → dictHas base k = true →
      ∃ k2, mergeChecked msg base extras = .error (msg k2) := by
  intro extras
  induction extras with
  | nil => intro base k v hmem _; exact absurd hmem (List.not_mem_nil _)
  | cons kv rest ih =>
      obtain ⟨k0, v0⟩ := kv
      intro base k v hmem hhas
      by_cases hh : dictHas base k0 = true
      · exact ⟨k0, by simp only [mergeChecked, hh, if_true]⟩
      · rcases List.mem_cons.mp hmem with heq | hrest
        · obtain ⟨rfl, rfl⟩ := Prod.mk.injEq k0 v0 k v ▸ heq.symm
          exact absurd hhas hh
        · obtain ⟨k2, hk2⟩ :=
            ih (dictSet base k0 v0) k v hrest
              (dictHas_dictSet_mono base k0 v0 k hhas)
          refine ⟨k2, ?_⟩
          simp only [mergeChecked, hh, Bool.false_eq_true, if_false]
          exact hk2

theorem updateCore_nodup {α : Type} (m : ModelDefinition)
    (serAttr : AttributeDefinition → PyVal → α) :
    ∀ (updates : List (String × PyVal)) (names : List (String × String))
      (values : List (String × α)) (sets removes : List String)
      (out : List (String × String) × List (String × α) × List String × List String),
      keysNodup names → keysNodup values →
      updateCore m serAttr updates names values sets removes = .ok out →
      keysNodup out.1 ∧ keysNodup out.2.1 := by
  intro updates
  induction updates with
  | nil =>
      intro names values sets removes out hn hv h
      simp only [updateCore] at h
      cases h
      exact ⟨hn, hv⟩
  | cons kv rest ih =>
      obtain ⟨f0, v0⟩ := kv
      intro names values sets removes out hn hv h
      cases hd : dictGet m.attributes f0 with
      | none =>
          simp only [updateCore, hd] at h
          exact Except.noConfusion h
      | some ad =>
          cases hkey : isKeyField m f0 with
          | true =>
              simp only [updateCore, hd, hkey, if_true] at h
              exact Except.noConfusion h
          | false =>
              cases v0 <;>
                (simp only [updateCore, hd, hkey, Bool.false_eq_true,
                   if_false] at h
                 first
                   | exact ih _ _ _ _ _
                       (dictSet_nodup names _ _ hn) hv h
                   | exact ih _ _ _ _ _
                       (dictSet_nodup names _ _ hn)
                       (dictSet_nodup values _ _ hv) h)

theorem exceptMap_ok {β γ : Type} {f : β → γ} {x : Except Err β} {y : γ}
    (h : x.map f = .ok y) : ∃ z, x = .ok z ∧ f z = y := by
  cases x with
  | error e => exact Except.noConfusion h
  | ok z => exact ⟨z, rfl, Except.ok.inj h⟩

theorem filter_name_ref_nodup {m : ModelDefinition}
    {names : List (String × String)} {field ref : String}
    {ad : AttributeDefinition} {names1 : List (String × String)}
    (hn : keysNodup names)
    (h : filter_name_ref m names field = .ok (ref, ad, names1)) :
    keysNodup names1 := by
  unfold filter_name_ref at h
  cases hd : dictGet m.attributes field with
  | none =>
      simp only [hd] at h
      exact Except.noConfusion h
  | some ad0 =>
      simp only [hd] at h
      by_cases he : ad0.encrypted = true
      · rw [if_pos he] at h
        exact Except.noConfusion h
      · rw [if_neg he] at h
        cases hd2 : dictGet names ("#f_" ++ field) with
        | none =>
            simp only [hd2] at h
            cases h
            exact dictSet_nodup names _ _ hn
        | some existing =>
            simp only [hd2] at h
            split at h
            · cases h
              exact dictSet_nodup names _ _ hn
            · exact Except.noConfusion h

theorem filter_value_ref_nodup {α : Type}
    {serAttr : AttributeDefinition → PyVal → α} {ad : AttributeDefinition}
    {v : PyVal} {values : List (String × α)} {counter : Nat} {r : String}
    {values1 : List (String × α)} {c1 : Nat} (hv : keysNodup values)
    (h : filter_value_ref serAttr ad v values counter = .ok (r, values1, c1)) :
    keysNodup values1 := by
  simp only [filter_value_ref] at h
  split at h
  · exact Except.noConfusion h
  · cases h
    exact dictSet_nodup values _ _ hv

theorem filter_value_refs_nodup {α : Type}
    {serAttr : AttributeDefinition → PyVal → α} {ad : AttributeDefinition} :
    ∀ {vs : List PyVal} {values : List (String × α)} {counter : Nat}
      {rs : List String} {values1 : List (String × α)} {c1 : Nat},
      keysNodup values →
      filter_value_refs serAttr ad vs values counter = .ok (rs, values1, c1) →
      keysNodup values1 := by
  intro vs
  induction vs with
  | nil =>
      intro values counter rs values1 c1 hv h
      simp only [filter_value_refs] at h
      cases h
      exact hv
  | cons v0 rest ih =>
      intro values counter rs values1 c1 hv h
      simp only [filter_value_refs] at h
      cases hr : filter_value_ref serAttr ad v0 values counter with
      | error e => simp only [hr] at h; exact Except.noConfusion h
      | ok tri =>
          obtain ⟨r0, vals1, cc1⟩ := tri
          simp only [hr] at h
          cases hrs : filter_value_refs serAttr ad rest vals1 cc1 with
          | error e => simp only [hrs] at h; exact Except.noConfusion h
          | ok tri2 =>
              obtain ⟨rs2, vals2, cc2⟩ := tri2
              simp only [hrs] at h
              cases h
              exact ih (filter_value_ref_nodup hv hr) hrs

theorem buildCondArm_nodup {α : Type}
    {serAttr : AttributeDefinition → PyVal → α} {op0 : String}
    {vals : List PyVal} {name : String} {ad : AttributeDefinition}
    {names1 : List (String × String)} {values : List (String × α)}
    {counter : Nat}
    {out : String × List (String × String) × List (String × α) × Nat}
    (hn1 : keysNodup names1) (hv : keysNodup values)
    (h : buildCondArm serAttr op0 vals name ad names1 values counter =
      .ok out) : keysNodup out.2.1 ∧ keysNodup out.2.2.1 := by
  unfold buildCondArm at h
  by_cases h1 : strUpper op0 = "=" ∨ strUpper op0 = "EQ"
  · rw [if_pos h1] at h
    repeat' split at h
    all_goals first
      | exact Except.noConfusion h
      | (cases h; exact ⟨hn1, hv⟩)
      | (obtain ⟨⟨r, v1, c1⟩, heq, hfe⟩ := exceptMap_ok h;
         cases hfe;
         exact ⟨hn1, filter_value_ref_nodup hv heq⟩)
      | (rename_i heq1
         obtain ⟨⟨r, v2, c2⟩, heq2, hfe⟩ := exceptMap_ok h
         cases hfe
         exact ⟨hn1,
           filter_value_ref_nodup (filter_value_ref_nodup hv heq1) heq2⟩)
      | (obtain ⟨⟨rs, v1, c1⟩, heq, hfe⟩ := exceptMap_ok h;
         cases hfe;
         exact ⟨hn1, filter_value_refs_nodup hv heq⟩)
  · rw [if_neg h1] at h
    by_cases h2 : strUpper op0 = "!=" ∨ strUpper op0 = "<>" ∨ strUpper op0 = "NE"
    · rw [if_pos h2] at h
      repeat' split at h
      all_goals first
        | exact Except.noConfusion h
        | (cases h; exact ⟨hn1, hv⟩)
        | (obtain ⟨⟨r, v1, c1⟩, heq, hfe⟩ := exceptMap_ok h;
           cases hfe;
           exact ⟨hn1, filter_value_ref_nodup hv heq⟩)
        | (rename_i heq1
           obtain ⟨⟨r, v2, c2⟩, heq2, hfe⟩ := exceptMap_ok h
           cases hfe
           exact ⟨hn1,
             filter_value_ref_nodup (filter_value_ref_nodup hv heq1) heq2⟩)
        | (obtain ⟨⟨rs, v1, c1⟩, heq, hfe⟩ := exceptMap_ok h;
           cases hfe;
           exact ⟨hn1, filter_value_refs_nodup hv heq⟩)
    · rw [if_neg h2] at h
      by_cases h3 : strUpper op0 = "<" ∨ strUpper op0 = "LT"
      · rw [if_pos h3] at h
        repeat' split at h
        all_goals first
          | exact Except.noConfusion h
          | (cases h; exact ⟨hn1, hv⟩)
          | (obtain ⟨⟨r, v1, c1⟩, heq, hfe⟩ := exceptMap_ok h;
             cases hfe;
             exact ⟨hn1, filter_value_ref_nodup hv heq⟩)
          | (rename_i heq1
             obtain ⟨⟨r, v2, c2⟩, heq2, hfe⟩ := exceptMap_ok h
             cases hfe
             exact ⟨hn1,
               filter_value_ref_nodup (filter_value_ref_nodup hv heq1) heq2⟩)
          | (obtain ⟨⟨rs, v1, c1⟩, heq, hfe⟩ := exceptMap_ok h;
             cases hfe;
             exact ⟨hn1, filter_value_refs_nodup hv heq⟩)
      · rw [if_neg h3] at h
        by_cases h4 : strUpper op0 = "<=" ∨ strUpper op0 = "LE"
        · rw [if_pos h4] at h
          repeat' split at h
          all_goals first
            | exact Except.noConfusion h
            | (cases h; exact ⟨hn1, hv⟩)
            | (obtain ⟨⟨r, v1, c1⟩, heq, hfe⟩ := exceptMap_ok h;
               cases hfe;
               exact ⟨hn1, filter_value_ref_nodup hv heq⟩)
            | (rename_i heq1
               obtain ⟨⟨r, v2, c2⟩, heq2, hfe⟩ := exceptMap_ok h
               cases hfe
               exact ⟨hn1,
                 filter_value_ref_nodup (filter_value_ref_nodup hv heq1) heq2⟩)
            | (obtain ⟨⟨rs, v1, c1⟩, heq, hfe⟩ := exceptMap_ok h;
               cases hfe;
               exact ⟨hn1, filter_value_refs_nodup hv heq⟩)
        · rw [if_neg h4] at h
          by_cases h5 : strUpper op0 = ">" ∨ strUpper op0 = "GT"
          · rw [if_pos h5] at h
            repeat' split at h
            all_goals first
              | exact Except.noConfusion h
              | (cases h; exact ⟨hn1, hv⟩)
              | (obtain ⟨⟨r, v1, c1⟩, heq, hfe⟩ := exceptMap_ok h;
                 cases hfe;
                 exact ⟨hn1, filter_value_ref_nodup hv heq⟩)
              | (rename_i heq1
                 obtain ⟨⟨r, v2, c2⟩, heq2, hfe⟩ := exceptMap_ok h
                 cases hfe
                 exact ⟨hn1,
                   filter_value_ref_nodup (filter_value_ref_nodup hv heq1) heq2⟩)
              | (obtain ⟨⟨rs, v1, c1⟩, heq, hfe⟩ := exceptMap_ok h;
                 cases hfe;
                 exact ⟨hn1, filter_value_refs_nodup hv heq⟩)
          · rw [if_neg h5] at h
            by_cases h6 : strUpper op0 = ">=" ∨ strUpper op0 = "GE"
            · rw [if_pos h6] at h
              repeat' split at h
              all_goals first
                | exact Except.noConfusion h
                | (cases h; exact ⟨hn1, hv⟩)
                | (obtain ⟨⟨r, v1, c1⟩, heq, hfe⟩ := exceptMap_ok h;
                   cases hfe;
                   exact ⟨hn1, filter_value_ref_nodup hv heq⟩)
                | (rename_i heq1
                   obtain ⟨⟨r, v2, c2⟩, heq2, hfe⟩ := exceptMap_ok h
                   cases hfe
                   exact ⟨hn1,
                     filter_value_ref_nodup (filter_value_ref_nodup hv heq1) heq2⟩)
                | (obtain ⟨⟨rs, v1, c1⟩, heq, hfe⟩ := exceptMap_ok h;
                   cases hfe;
                   exact ⟨hn1, filter_value_refs_nodup hv heq⟩)
            · rw [if_neg h6] at h
              by_cases h7 : strUpper op0 = "BETWEEN"
              · rw [if_pos h7] at h
                repeat' split at h
                all_goals first
                  | exact Except.noConfusion h
                  | (cases h; exact ⟨hn1, hv⟩)
                  | (obtain ⟨⟨r, v1, c1⟩, heq, hfe⟩ := exceptMap_ok h;
                     cases hfe;
                     exact ⟨hn1, filter_value_ref_nodup hv heq⟩)
                  | (rename_i heq1
                     obtain ⟨⟨r, v2, c2⟩, heq2, hfe⟩ := exceptMap_ok h
                     cases hfe
                     exact ⟨hn1,
                       filter_value_ref_nodup (filter_value_ref_nodup hv heq1) heq2⟩)
                  | (obtain ⟨⟨rs, v1, c1⟩, heq, hfe⟩ := exceptMap_ok h;
                     cases hfe;
                     exact ⟨hn1, filter_value_refs_nodup hv heq⟩)
              · rw [if_neg h7] at h
                by_cases h8 : strUpper op0 = "IN"
                · rw [if_pos h8] at h
                  repeat' split at h
                  all_goals first
                    | exact Except.noConfusion h
                    | (cases h; exact ⟨hn1, hv⟩)
                    | (obtain ⟨⟨r, v1, c1⟩, heq, hfe⟩ := exceptMap_ok h;
                       cases hfe;
                       exact ⟨hn1, filter_value_ref_nodup hv heq⟩)
                    | (rename_i heq1
                       obtain ⟨⟨r, v2, c2⟩, heq2, hfe⟩ := exceptMap_ok h
                       cases hfe
                       exact ⟨hn1,
                         filter_value_ref_nodup (filter_value_ref_nodup hv heq1) heq2⟩)
                    | (obtain ⟨⟨rs, v1, c1⟩, heq, hfe⟩ := exceptMap_ok h;
                       cases hfe;
                       exact ⟨hn1, filter_value_refs_nodup hv heq⟩)
                · rw [if_neg h8] at h
                  by_cases h9 : strUpper op0 = "BEGINS_WITH"
                  · rw [if_pos h9] at h
                    repeat' split at h
                    all_goals first
                      | exact Except.noConfusion h
                      | (cases h; exact ⟨hn1, hv⟩)
                      | (obtain ⟨⟨r, v1, c1⟩, heq, hfe⟩ := exceptMap_ok h;
                         cases hfe;
                         exact ⟨hn1, filter_value_ref_nodup hv heq⟩)
                      | (rename_i heq1
                         obtain ⟨⟨r, v2, c2⟩, heq2, hfe⟩ := exceptMap_ok h
                         cases hfe
                         exact ⟨hn1,
                           filter_value_ref_nodup (filter_value_ref_nodup hv heq1) heq2⟩)
                      | (obtain ⟨⟨rs, v1, c1⟩, heq, hfe⟩ := exceptMap_ok h;
                         cases hfe;
                         exact ⟨hn1, filter_value_refs_nodup hv heq⟩)
                  · rw [if_neg h9] at h
                    by_cases h10 : strUpper op0 = "CONTAINS"
                    · rw [if_pos h10] at h
                      repeat' split at h
                      all_goals first
                        | exact Except.noConfusion h
                        | (cases h; exact ⟨hn1, hv⟩)
                        | (obtain ⟨⟨r, v1, c1⟩, heq, hfe⟩ := exceptMap_ok h;
                           cases hfe;
                           exact ⟨hn1, filter_value_ref_nodup hv heq⟩)
                        | (rename_i heq1
                           obtain ⟨⟨r, v2, c2⟩, heq2, hfe⟩ := exceptMap_ok h
                           cases hfe
                           exact ⟨hn1,
                             filter_value_ref_nodup (filter_value_ref_nodup hv heq1) heq2⟩)
                        | (obtain ⟨⟨rs, v1, c1⟩, heq, hfe⟩ := exceptMap_ok h;
                           cases hfe;
                           exact ⟨hn1, filter_value_refs_nodup hv heq⟩)
                    · rw [if_neg h10] at h
                      by_cases h11 : strUpper op0 = "EXISTS" ∨ strUpper op0 = "ATTRIBUTE_EXISTS"
                      · rw [if_pos h11] at h
                        repeat' split at h
                        all_goals first
                          | exact Except.noConfusion h
                          | (cases h; exact ⟨hn1, hv⟩)
                          | (obtain ⟨⟨r, v1, c1⟩, heq, hfe⟩ := exceptMap_ok h;
                             cases hfe;
                             exact ⟨hn1, filter_value_ref_nodup hv heq⟩)
                          | (rename_i heq1
                             obtain ⟨⟨r, v2, c2⟩, heq2, hfe⟩ := exceptMap_ok h
                             cases hfe
                             exact ⟨hn1,
                               filter_value_ref_nodup (filter_value_ref_nodup hv heq1) heq2⟩)
                          | (obtain ⟨⟨rs, v1, c1⟩, heq, hfe⟩ := exceptMap_ok h;
                             cases hfe;
                             exact ⟨hn1, filter_value_refs_nodup hv heq⟩)
                      · rw [if_neg h11] at h
                        by_cases h12 : strUpper op0 = "NOT_EXISTS" ∨ strUpper op0 = "ATTRIBUTE_NOT_EXISTS"
                        · rw [if_pos h12] at h
                          repeat' split at h
                          all_goals first
                            | exact Except.noConfusion h
                            | (cases h; exact ⟨hn1, hv⟩)
                            | (obtain ⟨⟨r, v1, c1⟩, heq, hfe⟩ := exceptMap_ok h;
                               cases hfe;
                               exact ⟨hn1, filter_value_ref_nodup hv heq⟩)
                            | (rename_i heq1
                               obtain ⟨⟨r, v2, c2⟩, heq2, hfe⟩ := exceptMap_ok h
                               cases hfe
                               exact ⟨hn1,
                                 filter_value_ref_nodup (filter_value_ref_nodup hv heq1) heq2⟩)
                            | (obtain ⟨⟨rs, v1, c1⟩, heq, hfe⟩ := exceptMap_ok h;
                               cases hfe;
                               exact ⟨hn1, filter_value_refs_nodup hv heq⟩)
                        · rw [if_neg h12] at h
                          exact Except.noConfusion h

mutual

theorem buildFilter_nodup {α : Type} (m : ModelDefinition)
    (serAttr : AttributeDefinition → PyVal → α) :
    ∀ (f : FilterExpr) (names : List (String × String))
      (values : List (String × α)) (counter : Nat)
      (out : String × List (String × String) × List (String × α) × Nat),
      keysNodup names → keysNodup values →
      buildFilter m serAttr f names values counter = .ok out →
      keysNodup out.2.1 ∧ keysNodup out.2.2.1
  | .group op filters => by
      intro names values counter out hn hv h
      simp only [buildFilter] at h
      cases hl : buildFilterList m serAttr filters names values counter with
      | error e => simp only [hl] at h; exact Except.noConfusion h
      | ok quad =>
          obtain ⟨parts, names1, values1, c1⟩ := quad
          simp only [hl] at h
          have hrec :=
            buildFilterList_nodup m serAttr filters names values counter
              _ hn hv hl
          split at h <;> (cases h; exact hrec)
  | .cond field op0 vals => by
      intro names values counter out hn hv h
      simp only [buildFilter] at h
      cases hnr : filter_name_ref m names field with
      | error e => simp only [hnr] at h; exact Except.noConfusion h
      | ok tri =>
          obtain ⟨name, ad, names1⟩ := tri
          simp only [hnr] at h
          exact buildCondArm_nodup (filter_name_ref_nodup hn hnr) hv h

theorem buildFilterList_nodup {α : Type} (m : ModelDefinition)
    (serAttr : AttributeDefinition → PyVal → α) :
    ∀ (fs : List FilterExpr) (names : List (String × String))
      (values : List (String × α)) (counter : Nat)
      (out : List String × List (String × String) × List (String × α) × Nat),
      keysNodup names → keysNodup values →
      buildFilterList m serAttr fs names values counter = .ok out →
      keysNodup out.2.1 ∧ keysNodup out.2.2.1
  | [] => by
      intro names values counter out hn hv h
      simp only [buildFilterList] at h
      cases h
      exact ⟨hn, hv⟩
  | f :: rest => by
      intro names values counter out hn hv h
      simp only [buildFilterList] at h
      cases hf : buildFilter m serAttr f names values counter with
      | error e => simp only [hf] at h; exact Except.noConfusion h
      | ok quad =>
          obtain ⟨s1, names1, values1, c1⟩ := quad
          simp only [hf] at h
          have ⟨hn1, hv1⟩ :=
            buildFilter_nodup m serAttr f names values counter _ hn hv hf
          cases hrest : buildFilterList m serAttr rest names1 values1 c1 with
          | error e => simp only [hrest] at h; exact Except.noConfusion h
          | ok quad2 =>
              obtain ⟨ss, names2, values2, c2⟩ := quad2
              simp only [hrest] at h
              cases h
              exact buildFilterList_nodup m serAttr rest names1 values1 c1
                (ss, names2, values2, c2) hn1 hv1 hrest

end

/-- C5: placeholder collision freedom. (a) In `_build_update_request`, a
caller-supplied extra attribute-name placeholder that collides with an
internally generated one makes the request fail with the name-collision
`ValidationError`; (b) likewise for extra value placeholders (once the
name merge passes); (c) a successfully built update request never binds
the same placeholder key twice in its names map or its values map; (d)
`_filter_expression` run from collision-free names/values maps leaves
them collision-free. -/
theorem c5_placeholder_collision_freedom {α : Type} (m : ModelDefinition) :
    (∀ (ser : PyVal → α) (serAttr : AttributeDefinition → PyVal → α)
        (tn : String) (pk sk : PyVal) (updates : List (String × PyVal))
        (cond : Option String) (extraN : List (String × String))
        (extraV : List (String × PyVal)) (rv : Option String) (key0)
        (unames : List (String × String)) (uvalues : List (String × α))
        (sets removes : List String) (k : String) (v : String),
      to_key m serAttr pk sk = .ok key0 →
      updateCore m serAttr updates [] [] [] [] =
        .ok (unames, uvalues, sets, removes) →
      ¬(sets.isEmpty ∧ removes.isEmpty) →
      (k, v) ∈ extraN → dictHas unames k = true →
      ∃ k2, build_update_request m ser serAttr tn pk sk updates cond extraN
          extraV rv =
        .error (.validation ("expression attribute name collision: " ++ k2))) ∧
    (∀ (ser : PyVal → α) (serAttr : AttributeDefinition → PyVal → α)
        (tn : String) (pk sk : PyVal) (updates : List (String × PyVal))
        (cond : Option String) (extraN : List (String × String))
        (extraV : List (String × PyVal)) (rv : Option String) (key0)
        (unames names1 : List (String × String)) (uvalues : List (String × α))
        (sets removes : List String) (k : String) (v : PyVal),
      to_key m serAttr pk sk = .ok key0 →
      updateCore m serAttr updates [] [] [] [] =
        .ok (unames, uvalues, sets, removes) →
      ¬(sets.isEmpty ∧ removes.isEmpty) →
      mergeChecked nameCollision unames extraN = .ok names1 →
      (k, v) ∈ extraV → dictHas uvalues k = true →
      ∃ k2, build_update_request m ser serAttr tn pk sk updates cond extraN
          extraV rv =
        .error (.validation ("expression attribute value collision: " ++ k2))) ∧
    (∀ (ser : PyVal → α) (serAttr : AttributeDefinition → PyVal → α)
        (tn : String) (pk sk : PyVal) (updates : List (String × PyVal))
        (cond : Option String) (extraN : List (String × String))
        (extraV : List (String × PyVal)) (rv : Option String)
        (req : UpdateReq α),
      build_update_request m ser serAttr tn pk sk updates cond extraN extraV
          rv = .ok req →
      keysNodup req.names ∧ ∀ vs, req.values = some vs → keysNodup vs) ∧
    (∀ (serAttr : AttributeDefinition → PyVal → α) (f : FilterExpr)
        (names : List (String × String)) (values : List (String × α))
        (s : String) (names1 : List (String × String))
        (values1 : List (String × α)),
      keysNodup names → keysNodup values →
      filter_expression m serAttr f names values = .ok (s, names1, values1) →
      keysNodup names1 ∧ keysNodup values1) := by
  refine ⟨?_, ?_, ?_, ?_⟩
  · intro ser serAttr tn pk sk updates cond extraN extraV rv key0 unames
      uvalues sets removes k v hkk hcore hne hmem hhas
    obtain ⟨k2, hk2⟩ := mergeChecked_collision nameCollision extraN unames
      k v hmem hhas
    refine ⟨k2, ?_⟩
    simp only [build_update_request, hkk, hcore]
    rw [if_neg (by
      intro habs
      by_cases hs : sets.isEmpty = true
      · by_cases hr : removes.isEmpty = true
        · exact hne ⟨hs, hr⟩
        · simp [hs, hr] at habs
      · simp [hs] at habs)]
    simp only [hk2]
    rfl
  · intro ser serAttr tn pk sk updates cond extraN extraV rv key0 unames
      names1 uvalues sets removes k v hkk hcore hne hnames hmem hhas
    have hmem2 : (k, ser v) ∈ serialize_values ser extraV :=
      List.mem_map_of_mem (fun kv => (kv.1, ser kv.2)) hmem
    obtain ⟨k2, hk2⟩ := mergeChecked_collision valueCollision
      (serialize_values ser extraV) uvalues k (ser v) hmem2 hhas
    refine ⟨k2, ?_⟩
    simp only [build_update_request, hkk, hcore]
    rw [if_neg (by
      intro habs
      by_cases hs : sets.isEmpty = true
      · by_cases hr : removes.isEmpty = true
        · exact hne ⟨hs, hr⟩
        · simp [hs, hr] at habs
      · simp [hs] at habs)]
    simp only [hnames, hk2]
    rfl
  · intro ser serAttr tn pk sk updates cond extraN extraV rv req h
    unfold build_update_request at h
    cases hkk : to_key m serAttr pk sk with
    | error e => simp only [hkk] at h; exact Except.noConfusion h
    | ok key0 =>
        simp only [hkk] at h
        cases hcore : updateCore m serAttr updates [] [] [] [] with
        | error e => simp only [hcore] at h; exact Except.noConfusion h
        | ok quad =>
            obtain ⟨unames, uvalues, sets, removes⟩ := quad
            simp only [hcore] at h
            have ⟨hnU, hvU⟩ := updateCore_nodup m serAttr updates [] [] [] []
              _ keysNodup_nil keysNodup_nil hcore
            by_cases hep :
              ((if sets.isEmpty = true then []
                else ["SET " ++ joinSep ", " sets]) ++
               (if removes.isEmpty = true then []
                else ["REMOVE " ++ joinSep ", " removes])).isEmpty = true
            · rw [if_pos hep] at h
              exact Except.noConfusion h
            · rw [if_neg hep] at h
              cases hmn : mergeChecked nameCollision unames extraN with
              | error e => simp only [hmn] at h; exact Except.noConfusion h
              | ok names1 =>
                  simp only [hmn] at h
                  cases hmv : mergeChecked valueCollision uvalues
                      (serialize_values ser extraV) with
                  | error e => simp only [hmv] at h; exact Except.noConfusion h
                  | ok values1 =>
                      simp only [hmv] at h
                      cases h
                      refine ⟨mergeChecked_nodup nameCollision extraN unames
                        names1 hnU hmn, ?_⟩
                      intro vs hvs
                      simp only at hvs
                      split at hvs
                      · exact Option.noConfusion hvs
                      · cases hvs
                        exact mergeChecked_nodup valueCollision
                          (serialize_values ser extraV) uvalues values1 hvU hmv
  · intro serAttr f names values s names1 values1 hn hv h
    unfold filter_expression at h
    obtain ⟨⟨s0, n0, v0, c0⟩, heq, hfe⟩ := exceptMap_ok h
    cases hfe
    exact buildFilter_nodup m serAttr f names values 0 _ hn hv heq

/-- C5 witness: a concrete extra name placeholder colliding with the
generated `#d_val` fails validation, and a concrete filter build yields
collision-free maps. -/
theorem c5_placeholder_collision_freedom_witness :
    (∃ k2, build_update_request tModel serU serAttrU "t" (PyVal.str "p")
        PyVal.none [("val", PyVal.str "1")] Option.none [("#d_val", "X")] []
        Option.none =
      .error (.validation ("expression attribute name collision: " ++ k2))) ∧
    (keysNodup
        ([("#f_val", "val")] : List (String × String)) ∧
      keysNodup ([(":f1", ())] : List (String × Unit))) :=
  ⟨(c5_placeholder_collision_freedom tModel).1 serU serAttrU "t"
      (PyVal.str "p") PyVal.none [("val", PyVal.str "1")] Option.none
      [("#d_val", "X")] [] Option.none [("PK", ())]
      [("#d_val", "val")] [(":d_val", ())] ["#d_val = :d_val"] [] "#d_val" "X"
      rfl rfl (by simp) (List.mem_cons_self _ _) rfl,
   (c5_placeholder_collision_freedom tModel).2.2.2 serAttrU
      (FilterExpr.cond "val" "=" [PyVal.str "1"]) [] [] "#f_val = :f1"
      [("#f_val", "val")] [(":f1", ())] keysNodup_nil keysNodup_nil rfl⟩

/-! ## Claims C6 and C7 -/

theorem mapExcept_ok_length {β γ : Type} (f : β → Except Err γ) :
    ∀ (xs : List β) (ys : List γ), mapExcept f xs = .ok ys →
      ys.length = xs.length := by
  intro xs
  induction xs with
  | nil =>
      intro ys h
      simp only [mapExcept] at h
      cases h
      rfl
  | cons x rest ih =>
      intro ys h
      simp only [mapExcept] at h
      cases hx : f x with
      | error e => simp only [hx] at h; exact Except.noConfusion h
      | ok y =>
          simp only [hx] at h
          cases hr : mapExcept f rest with
          | error e => simp only [hr] at h; exact Except.noConfusion h
          | ok ys1 =>
              simp only [hr] at h
              cases h
              simp [ih ys1 hr]

theorem mapExcept_forall_ok {β γ : Type} (f : β → Except Err γ) :
    ∀ (xs : List β), (∀ x ∈ xs, ∃ y, f x = .ok y) →
      ∃ ys, mapExcept f xs = .ok ys := by
  intro xs
  induction xs with
  | nil => intro _; exact ⟨[], rfl⟩
  | cons x rest ih =>
      intro hall
      obtain ⟨y, hy⟩ := hall x (List.mem_cons_self x rest)
      obtain ⟨ys, hys⟩ := ih (fun z hz => hall z (List.mem_cons_of_mem x hz))
      refine ⟨y :: ys, ?_⟩
      simp only [mapExcept, hy, hys]

theorem batchLoopGo_const {κ ω : Type} (store : List κ → ω × List κ)
    (opName : String) (U : List κ) (hU : ∀ ks, (store ks).2 = U)
    (hne : U ≠ []) :
    ∀ (r : Nat) (pending : List κ), pending ≠ [] →
      ∃ calls, batchLoopGo store opName r pending =
        (.error (.batchRetryExceeded opName U.length), calls, r) := by
  intro r
  induction r with
  | zero =>
      intro pending hp
      refine ⟨[pending.length], ?_⟩
      rw [batchLoopGo]
      rw [if_neg (by simp [List.isEmpty_iff, hp])]
      cases hsp : store pending with
      | mk resp unproc =>
          have hu : unproc = U := by
            have := hU pending
            rw [hsp] at this
            exact this
          subst hu
          simp only [if_neg (show ¬(unproc.isEmpty = true) by
            simp [List.isEmpty_iff, hne])]
  | succ r1 ih =>
      intro pending hp
      obtain ⟨calls, hrec⟩ := ih U hne
      refine ⟨pending.length :: calls, ?_⟩
      rw [batchLoopGo]
      rw [if_neg (by simp [List.isEmpty_iff, hp])]
      cases hsp : store pending with
      | mk resp unproc =>
          have hu : unproc = U := by
            have := hU pending
            rw [hsp] at this
            exact this
          subst hu
          simp only [if_neg (show ¬(unproc.isEmpty = true) by
            simp [List.isEmpty_iff, hne]), hrec]
          rfl

theorem batchLoopGo_clean {κ ω : Type} (store : List κ → ω × List κ)
    (opName : String) (hstore : ∀ ks, (store ks).2 = [])
    (r : Nat) (pending : List κ) (hp : pending ≠ []) :
    batchLoopGo store opName r pending =
      (.ok [(store pending).1], [pending.length], 0) := by
  rw [batchLoopGo]
  rw [if_neg (by simp [List.isEmpty_iff, hp])]
  cases hsp : store pending with
  | mk resp unproc =>
      have hu : unproc = [] := by
        have := hstore pending
        rw [hsp] at this
        exact this
      subst hu
      simp [hsp]

theorem chunkedGo_mem {β : Type} :
    ∀ (fuel : Nat) (xs : List β) (size : Nat) (c : List β), 0 < size →
      c ∈ chunkedGo fuel xs size → c.length ≤ size ∧ c ≠ [] := by
  intro fuel
  induction fuel with
  | zero =>
      intro xs size c _ hc
      simp only [chunkedGo] at hc
      exact absurd hc (List.not_mem_nil c)
  | succ f ih =>
      intro xs size c hs hc
      cases xs with
      | nil =>
          simp only [chunkedGo] at hc
          exact absurd hc (List.not_mem_nil c)
      | cons x rest =>
          simp only [chunkedGo] at hc
          rcases List.mem_cons.mp hc with rfl | hc2
          · constructor
            · simpa using List.length_take_le size (x :: rest)
            · cases size with
              | zero => exact absurd hs (by omega)
              | succ s => simp [List.take]
          · exact ih _ size c hs hc2

theorem chunkedGo_length_100 {β : Type} :
    ∀ (fuel : Nat) (xs : List β), xs.length ≤ fuel →
      (chunkedGo fuel xs 100).length = (xs.length + 99) / 100 := by
  intro fuel
  induction fuel with
  | zero =>
      intro xs hl
      have : xs = [] := List.eq_nil_of_length_eq_zero (by omega)
      subst this
      simp [chunkedGo]
  | succ f ih =>
      intro xs hl
      cases xs with
      | nil => simp [chunkedGo]
      | cons x rest =>
          simp only [chunkedGo, List.length_cons]
          rw [ih ((x :: rest).drop 100)
            (by simp only [List.length_drop, List.length_cons] at hl ⊢
                omega)]
          simp only [List.length_drop, List.length_cons]
          omega

theorem chunkedGo_length_25 {β : Type} :
    ∀ (fuel : Nat) (xs : List β), xs.length ≤ fuel →
      (chunkedGo fuel xs 25).length = (xs.length + 24) / 25 := by
  intro fuel
  induction fuel with
  | zero =>
      intro xs hl
      have : xs = [] := List.eq_nil_of_length_eq_zero (by omega)
      subst this
      simp [chunkedGo]
  | succ f ih =>
      intro xs hl
      cases xs with
      | nil => simp [chunkedGo]
      | cons x rest =>
          simp only [chunkedGo, List.length_cons]
          rw [ih ((x :: rest).drop 25)
            (by simp only [List.length_drop, List.length_cons] at hl ⊢
                omega)]
          simp only [List.length_drop, List.length_cons]
          omega

theorem batchGetChunks_clean {α τ : Type} (m : ModelDefinition)
    (serAttr : AttributeDefinition → PyVal → α)
    (store : List (List (String × α)) → List τ × List (List (String × α)))
    (mr : Nat) (hstore : ∀ ks, (store ks).2 = []) :
    ∀ (chunks : List (List (PyVal × PyVal))) (out : List τ)
      (calls : List Nat) (sleeps : Nat),
      (∀ c ∈ chunks, c ≠ []) →
      batchGetChunks m serAttr store mr chunks = (.ok out, calls, sleeps) →
      calls = chunks.map List.length ∧ sleeps = 0 := by
  intro chunks
  induction chunks with
  | nil =>
      intro out calls sleeps _ h
      simp only [batchGetChunks] at h
      cases h
      exact ⟨rfl, rfl⟩
  | cons chunk rest ih =>
      intro out calls sleeps hcne h
      simp only [batchGetChunks] at h
      cases hm : mapExcept (fun kv => to_key m serAttr kv.1 kv.2) chunk with
      | error e =>
          simp only [hm] at h
          have := congrArg (fun p => p.1) h
          simp at this
      | ok pending =>
          simp only [hm] at h
          have hpl : pending.length = chunk.length :=
            mapExcept_ok_length _ chunk pending hm
          have hp : pending ≠ [] := by
            have hc : chunk ≠ [] := hcne chunk (List.mem_cons_self _ _)
            intro hnil
            apply hc
            apply List.eq_nil_of_length_eq_zero
            rw [← hpl, hnil]
            rfl
          rw [batchLoopGo_clean store "batch_get" hstore mr pending hp] at h
          rcases hrec : batchGetChunks m serAttr store mr rest with
            ⟨res, calls1, sleeps1⟩
          simp only [hrec] at h
          cases res with
          | error e =>
              have := congrArg (fun p => p.1) h
              simp [Except.map] at this
          | ok out1 =>
              have h1 := congrArg (fun p => p.1) h
              have h2 := congrArg (fun p => p.2.1) h
              have h3 := congrArg (fun p => p.2.2) h
              simp only at h1 h2 h3
              obtain ⟨hcalls1, hsleeps1⟩ :=
                ih out1 calls1 sleeps1
                  (fun c hc => hcne c (List.mem_cons_of_mem _ hc)) hrec
              subst hcalls1 hsleeps1
              constructor
              · rw [← h2, hpl]
                rfl
              · omega

theorem batchWriteChunks_clean {α : Type}
    (store : List (WriteReq α) → List (WriteReq α))
    (mr : Nat) (hstore : ∀ reqs, store reqs = []) :
    ∀ (chunks : List (List (WriteReq α))) (calls : List Nat) (sleeps : Nat)
      (res : Except Err Unit),
      (∀ c ∈ chunks, c ≠ []) →
      batchWriteChunks store mr chunks = (res, calls, sleeps) →
      calls = chunks.map List.length ∧ sleeps = 0 := by
  intro chunks
  induction chunks with
  | nil =>
      intro calls sleeps res _ h
      simp only [batchWriteChunks] at h
      cases h
      exact ⟨rfl, rfl⟩
  | cons chunk rest ih =>
      intro calls sleeps res hcne h
      simp only [batchWriteChunks] at h
      rw [batchLoopGo_clean (fun reqs => ((), store reqs)) "batch_write"
        (fun ks => hstore ks) mr chunk
        (hcne chunk (List.mem_cons_self _ _))] at h
      rcases hrec : batchWriteChunks store mr rest with ⟨res1, calls1, sleeps1⟩
      simp only [hrec] at h
      have h1 := congrArg (fun p => p.2.1) h
      have h2 := congrArg (fun p => p.2.2) h
      simp only at h1 h2
      obtain ⟨hcalls1, hsleeps1⟩ :=
        ih calls1 sleeps1 res1
          (fun c hc => hcne c (List.mem_cons_of_mem _ hc)) hrec
      subst hcalls1 hsleeps1
      exact ⟨by rw [← h1]; rfl, by omega⟩

/-- C6: batch retry budget. Against a store that reports the same
nonempty unprocessed set `U` (of size `N`) on every call, `batch_write`
and `batch_get` raise `BatchRetryExceededError` carrying the operation
name and `unprocessed_count = N` once the budget of `max_retries`
retries is exhausted, having performed exactly `max_retries` backoff
sleeps; the unprocessed items are reported, never silently dropped. -/
theorem c6_batch_retry_budget {α τ : Type} (m : ModelDefinition)
    (serAttr : AttributeDefinition → PyVal → α) :
    (∀ (store : List (WriteReq α) → List (WriteReq α))
        (U : List (WriteReq α)) (N mr : Nat)
        (puts : List (List (String × PyVal))) (deletes : List PyVal)
        (putReqs delReqs : List (WriteReq α)),
      (∀ reqs, store reqs = U) → U.length = N → U ≠ [] →
      mapExcept (putReq m serAttr) puts = .ok putReqs →
      mapExcept (deleteReq m serAttr) deletes = .ok delReqs →
      putReqs ++ delReqs ≠ [] →
      ∃ calls, batch_write m serAttr store puts deletes (mr : Int) =
        (.error (.batchRetryExceeded "batch_write" N), calls, mr)) ∧
    (∀ (store : List (List (String × α)) → List τ × List (List (String × α)))
        (U : List (List (String × α))) (N mr : Nat) (keys : List PyVal)
        (normalized : List (PyVal × PyVal)),
      (∀ ks, (store ks).2 = U) → U.length = N → U ≠ [] →
      mapExcept (normalizeKey m) keys = .ok normalized → normalized ≠ [] →
      (∀ kv ∈ normalized, ∃ r, to_key m serAttr kv.1 kv.2 = .ok r) →
      ∃ calls, batch_get m serAttr store keys Option.none (mr : Int) =
        (.error (.batchRetryExceeded "batch_get" N), calls, mr)) := by
  constructor
  · intro store U N mr puts deletes putReqs delReqs hU hN hUne hput hdel hreq
    subst hN
    unfold batch_write
    rw [if_neg (by omega : ¬((mr : Int) < 0))]
    simp only [hput, hdel]
    have htn : ((mr : Int)).toNat = mr := rfl
    rw [htn]
    rcases hqs : putReqs ++ delReqs with _ | ⟨q, qs⟩
    · exact absurd hqs hreq
    · unfold chunked
      simp only [List.length_cons, chunkedGo]
      have hchunk : (q :: qs).take 25 ≠ [] := by simp [List.take]
      obtain ⟨calls, hloop⟩ :=
        batchLoopGo_const (fun reqs => ((), store reqs)) "batch_write" U
          (fun ks => by simp [hU ks]) hUne mr ((q :: qs).take 25) hchunk
      refine ⟨calls, ?_⟩
      simp only [batchWriteChunks, hloop]
  · intro store U N mr keys normalized hU hN hUne hnorm hnne htk
    subst hN
    unfold batch_get
    rw [if_neg (by omega : ¬((mr : Int) < 0))]
    have hkne : ¬(keys.isEmpty = true) := by
      intro hk
      apply hnne
      have : keys = [] := List.isEmpty_iff.mp hk
      subst this
      simp only [mapExcept] at hnorm
      cases hnorm
      rfl
    rw [if_neg hkne]
    simp only [hnorm]
    have htn : ((mr : Int)).toNat = mr := rfl
    rw [htn]
    cases normalized with
    | nil => exact absurd rfl hnne
    | cons kv kvs =>
        unfold chunked
        simp only [List.length_cons, chunkedGo]
        have hsub : ∀ x ∈ (kv :: kvs).take 100, x ∈ kv :: kvs :=
          fun x hx => List.take_subset 100 (kv :: kvs) hx
        obtain ⟨pending, hpend⟩ :=
          mapExcept_forall_ok (fun kv2 => to_key m serAttr kv2.1 kv2.2)
            ((kv :: kvs).take 100)
            (fun x hx => htk x (hsub x hx))
        have hplen : pending.length = ((kv :: kvs).take 100).length :=
          mapExcept_ok_length _ _ _ hpend
        have hpne : pending ≠ [] := by
          intro hnil
          rw [hnil] at hplen
          simp [List.length_take] at hplen
        obtain ⟨calls, hloop⟩ :=
          batchLoopGo_const store "batch_get" U hU hUne mr pending hpne
        refine ⟨calls, ?_⟩
        simp only [batchGetChunks, hpend, hloop]

/-- C6 witness: a concrete store that never processes its one delete
request exhausts a budget of one retry. -/
theorem c6_batch_retry_budget_witness :
    ∃ calls, batch_write tModel serAttrU
        (fun _ => [WriteReq.delete [("PK", ())]]) [] [PyVal.str "k"]
        ((1 : Nat) : Int) =
      (.error (.batchRetryExceeded "batch_write" 1), calls, 1) :=
  (c6_batch_retry_budget (τ := Unit) tModel serAttrU).1
    (fun _ => [WriteReq.delete [("PK", ())]])
    [WriteReq.delete [("PK", ())]] 1 1 [] [PyVal.str "k"] []
    [WriteReq.delete [("PK", ())]]
    (fun _ => rfl) rfl (by simp) rfl rfl (by simp)

/-- C7: batch chunking. When the store reports no unprocessed keys/items,
`batch_get` over `N` keys makes `ceil(N/100)` calls and `batch_write`
over `N` requests makes `ceil(N/25)` calls, every call carrying at most
100 keys (resp. 25 requests), and the backoff sleep is never invoked. -/
theorem c7_batch_chunking {α τ : Type} (m : ModelDefinition)
    (serAttr : AttributeDefinition → PyVal → α) :
    (∀ (store : List (List (String × α)) → List τ × List (List (String × α)))
        (keys : List PyVal) (mrI : Int) (out : List τ) (calls : List Nat)
        (sleeps : Nat),
      (∀ ks, (store ks).2 = []) →
      batch_get m serAttr store keys Option.none mrI =
        (.ok out, calls, sleeps) →
      calls.length = (keys.length + 99) / 100 ∧ (∀ c ∈ calls, c ≤ 100) ∧
        sleeps = 0) ∧
    (∀ (store : List (WriteReq α) → List (WriteReq α))
        (puts : List (List (String × PyVal))) (deletes : List PyVal)
        (mrI : Int) (calls : List Nat) (sleeps : Nat),
      (∀ reqs, store reqs = []) →
      batch_write m serAttr store puts deletes mrI = (.ok (), calls, sleeps) →
      calls.length = (puts.length + deletes.length + 24) / 25 ∧
        (∀ c ∈ calls, c ≤ 25) ∧ sleeps = 0) := by
  constructor
  · intro store keys mrI out calls sleeps hstore h
    unfold batch_get at h
    by_cases hneg : mrI < 0
    · rw [if_pos hneg] at h
      have := congrArg (fun p => p.1) h
      simp at this
    · rw [if_neg hneg] at h
      by_cases hk : keys.isEmpty = true
      · rw [if_pos hk] at h
        have h1 := congrArg (fun p => p.2.1) h
        have h2 := congrArg (fun p => p.2.2) h
        simp only at h1 h2
        have hke : keys = [] := List.isEmpty_iff.mp hk
        subst hke h1 h2
        refine ⟨by decide, by simp, rfl⟩
      · rw [if_neg hk] at h
        cases hn : mapExcept (normalizeKey m) keys with
        | error e =>
            simp only [hn] at h
            have := congrArg (fun p => p.1) h
            simp at this
        | ok normalized =>
            simp only [hn] at h
            obtain ⟨hcalls, hsleeps⟩ :=
              batchGetChunks_clean m serAttr store mrI.toNat hstore
                (chunked normalized 100) out calls sleeps
                (fun c hc => (chunkedGo_mem normalized.length normalized 100 c
                  (by omega) hc).2) h
            have hnl : normalized.length = keys.length :=
              mapExcept_ok_length _ keys normalized hn
            subst hcalls
            refine ⟨?_, ?_, hsleeps⟩
            · rw [List.length_map]
              unfold chunked
              rw [chunkedGo_length_100 normalized.length normalized
                (le_refl _), hnl]
            · intro c hc
              obtain ⟨cl, hcl, rfl⟩ := List.mem_map.mp hc
              exact (chunkedGo_mem normalized.length normalized 100 cl
                (by omega) hcl).1
  · intro store puts deletes mrI calls sleeps hstore h
    unfold batch_write at h
    by_cases hneg : mrI < 0
    · rw [if_pos hneg] at h
      have := congrArg (fun p => p.1) h
      simp at this
    · rw [if_neg hneg] at h
      cases hput : mapExcept (putReq m serAttr) puts with
      | error e =>
          simp only [hput] at h
          have := congrArg (fun p => p.1) h
          simp at this
      | ok putReqs =>
          simp only [hput] at h
          cases hdel : mapExcept (deleteReq m serAttr) deletes with
          | error e =>
              simp only [hdel] at h
              have := congrArg (fun p => p.1) h
              simp at this
          | ok delReqs =>
              simp only [hdel] at h
              obtain ⟨hcalls, hsleeps⟩ :=
                batchWriteChunks_clean store mrI.toNat hstore
                  (chunked (putReqs ++ delReqs) 25) calls sleeps (.ok ())
                  (fun c hc =>
                    (chunkedGo_mem (putReqs ++ delReqs).length
                      (putReqs ++ delReqs) 25 c (by omega) hc).2) h
              have hl1 : putReqs.length = puts.length :=
                mapExcept_ok_length _ puts putReqs hput
              have hl2 : delReqs.length = deletes.length :=
                mapExcept_ok_length _ deletes delReqs hdel
              subst hcalls
              refine ⟨?_, ?_, hsleeps⟩
              · rw [List.length_map]
                unfold chunked
                rw [chunkedGo_length_25 (putReqs ++ delReqs).length
                  (putReqs ++ delReqs) (le_refl _)]
                rw [List.length_append, hl1, hl2]
              · intro c hc
                obtain ⟨cl, hcl, rfl⟩ := List.mem_map.mp hc
                exact (chunkedGo_mem (putReqs ++ delReqs).length
                  (putReqs ++ delReqs) 25 cl (by omega) hcl).1

/-- C7 witness: a fully processing store gives one call and no sleeps
for one key / one delete request. -/
theorem c7_batch_chunking_witness :
    ((1 : Nat) + 99) / 100 = 1 ∧
    (∃ out calls sleeps,
      batch_get tModel serAttrU
          (fun _ => (([] : List Unit), ([] : List (List (String × Unit)))))
          [PyVal.str "a"] Option.none ((0 : Nat) : Int) =
        (.ok out, calls, sleeps) ∧
      calls.length = 1 ∧ sleeps = 0) := by
  refine ⟨by decide, [], [1], 0, rfl, ?_, rfl⟩
  have := (c7_batch_chunking tModel serAttrU).1
    (fun _ => (([] : List Unit), ([] : List (List (String × Unit)))))
    [PyVal.str "a"] ((0 : Nat) : Int) [] [1] 0 (fun _ => rfl) rfl
  simpa using this.1

/-! ## Claim C10 -/

theorem dictHas_dictSet_ne {β : Type} :
    ∀ (kvs : List (String × β)) (k : String) (v : β) (a : String), k ≠ a →
      dictHas (dictSet kvs k v) a = dictHas kvs a := by
  intro kvs
  induction kvs with
  | nil =>
      intro k v a hne
      simp [dictHas, dictSet, dictGet, hne]
  | cons kv rest ih =>
      obtain ⟨k0, v0⟩ := kv
      intro k v a hne
      by_cases hk : k0 = k
      · subst hk
        simp only [dictSet, eq_self_iff_true, if_true, dictHas, dictGet,
          if_neg hne]
      · simp only [dictSet, if_neg hk, dictHas, dictGet]
        by_cases ha : k0 = a
        · simp [if_pos ha]
        · simp only [if_neg ha]
          exact ih k v a hne

theorem toItemFold_absent {α : Type}
    (serAttr : AttributeDefinition → PyVal → α) (item : List (String × PyVal))
    (A : String) :
    ∀ (attrs : List (String × AttributeDefinition)) (out : List (String × α)),
      (∀ fa ∈ attrs, fa.2.attribute_name = A →
        fa.2.omitempty = true ∧
          pyIsEmpty ((dictGet item fa.1).getD PyVal.none) = true) →
      dictHas (toItemFold serAttr item attrs out) A = dictHas out A := by
  intro attrs
  induction attrs with
  | nil => intro out _; rfl
  | cons fa rest ih =>
      obtain ⟨fname, ad⟩ := fa
      intro out hall
      by_cases hskip :
          (ad.omitempty && pyIsEmpty ((dictGet item fname).getD PyVal.none)) =
            true
      · simp only [toItemFold, hskip, if_true]
        exact ih out (fun fa2 h2 hA =>
          hall fa2 (List.mem_cons_of_mem _ h2) hA)
      · simp only [toItemFold, hskip, Bool.false_eq_true, if_false]
        have hne : ad.attribute_name ≠ A := by
          intro hA
          obtain ⟨h1, h2⟩ := hall (fname, ad) (List.mem_cons_self _ _) hA
          have h1b : ad.omitempty = true := h1
          have h2b : pyIsEmpty ((dictGet item fname).getD PyVal.none) = true :=
            h2
          exact hskip (by simp [h1b, h2b])
        rw [ih (dictSet out ad.attribute_name
          (serAttr ad ((dictGet item fname).getD PyVal.none)))
          (fun fa2 h2 hA => hall fa2 (List.mem_cons_of_mem _ h2) hA)]
        exact dictHas_dictSet_ne out ad.attribute_name _ A hne

/-- C10 (implicit): wire items always carry the key attributes. Every
item `_to_item` successfully serializes (as used by `put`, `batch_write`
puts and transactional puts) contains the partition-key attribute, and
the sort-key attribute when the model defines one; and when every field
that writes to the partition-key attribute name is suppressed (its
definition is `omitempty` and its value empty — in particular an
omitempty key field holding `0`, `False` or an empty string),
serialization raises the missing-pk `ValidationError` instead of
emitting a keyless item. -/
theorem c10_wire_items_carry_keys {α : Type} (m : ModelDefinition)
    (serAttr : AttributeDefinition → PyVal → α) :
    (∀ (item : List (String × PyVal)) (out : List (String × α)),
      to_item m serAttr item = .ok out →
      dictHas out m.pk.attribute_name = true ∧
      (∀ skd, m.sk = some skd → dictHas out skd.attribute_name = true)) ∧
    (∀ (item : List (String × PyVal)),
      (∀ fa ∈ m.attributes, fa.2.attribute_name = m.pk.attribute_name →
        fa.2.omitempty = true ∧
          pyIsEmpty ((dictGet item fa.1).getD PyVal.none) = true) →
      to_item m serAttr item = .error (.validation "missing pk")) := by
  constructor
  · intro item out h
    simp only [to_item] at h
    cases hpk : dictHas (toItemFold serAttr item m.attributes [])
        m.pk.attribute_name with
    | false =>
        simp only [hpk, Bool.not_false, eq_self_iff_true, if_true] at h
        exact Except.noConfusion h
    | true =>
        simp only [hpk, Bool.not_true, Bool.false_eq_true, if_false] at h
        cases hsk : m.sk with
        | none =>
            simp only [hsk] at h
            cases h
            refine ⟨hpk, fun skd hskd => ?_⟩
            exact Option.noConfusion hskd
        | some skd0 =>
            simp only [hsk] at h
            cases hsk2 : dictHas (toItemFold serAttr item m.attributes [])
                skd0.attribute_name with
            | false =>
                simp only [hsk2, Bool.not_false, eq_self_iff_true,
                  if_true] at h
                exact Except.noConfusion h
            | true =>
                simp only [hsk2, Bool.not_true, Bool.false_eq_true,
                  if_false] at h
                cases h
                refine ⟨hpk, fun skd hskd => ?_⟩
                cases hskd
                exact hsk2
  · intro item hall
    simp only [to_item]
    have habs :
        dictHas (toItemFold serAttr item m.attributes [])
          m.pk.attribute_name = false :=
      (toItemFold_absent serAttr item m.pk.attribute_name m.attributes []
        hall).trans rfl
    simp only [habs, Bool.not_false, eq_self_iff_true, if_true]

/-- C10 witness: a concrete model whose pk field is `omitempty` rejects
an item with an empty pk value, and a concrete successful item carries
its key attribute. -/
theorem c10_wire_items_carry_keys_witness :
    to_item
        { pk := { python_name := "id", attribute_name := "PK",
                  omitempty := true },
          attributes :=
            [("id", { python_name := "id", attribute_name := "PK",
                      omitempty := true })] }
        serAttrU [("id", PyVal.str "")] =
      .error (.validation "missing pk") ∧
    (∀ out, to_item tModel serAttrU [("id", PyVal.str "x")] = .ok out →
      dictHas out "PK" = true) :=
  ⟨(c10_wire_items_carry_keys
      { pk := { python_name := "id", attribute_name := "PK",
                omitempty := true },
        attributes :=
          [("id", { python_name := "id", attribute_name := "PK",
                    omitempty := true })] }
      serAttrU).2 [("id", PyVal.str "")]
      (by
        intro fa hfa hA
        rcases List.mem_singleton.mp hfa with rfl
        exact ⟨rfl, rfl⟩),
   fun out h =>
     ((c10_wire_items_carry_keys tModel serAttrU).1
       [("id", PyVal.str "x")] out h).1⟩

end Dyn
